import Mathlib

/-!
# raytracer-vulkan: the concurrent render pipeline and the ray tracer

A shallow embedding of `src/threading/mpsc.h` (the bounded completion channel)
and of `src/renderer.cc` (the ray tracer, the colour packing, the workers and
the orchestrator), followed by the theorems settled about them.

Conventions of the embedding

* `size_t` values are natural numbers; every `size_t` operation that can wrap
  is written with an explicit `% SIZE_MOD`.
* A pointer into an array is the index of the element it points at.
* A store through a pointer outside its allocation is undefined behaviour; the
  operations that can perform one return `Except Fault _`.
* The sampled colour of a pixel is supplied to the workers by an oracle;
  everything that is integer arithmetic is translated.
* A `double` of the ray tracer is an element of an ordered field `K`, with
  exact arithmetic: the definitions run on `ℚ`, the theorems hold in every
  ordered field.  `std::sqrt` is a parameter `sqrt : K → K`, and a theorem that
  needs the square root of a discriminant to be exact says so.  The infinity
  of `World::intersect` is the top element of `WithTop K`.  The virtual method
  `material_traits::scatter` is a function that threads the state of the
  random engine.
* The three materials are embedded method by method.  The random engine is a
  state of any type `R` with a parameter `next_u64 : R → Nat × R` for one draw
  of the uniform distribution; `glm::reflect`, `glm::dot`, `glm::normalize`,
  `glm::clamp`, `glm::min`, `glm::abs` and `glm::pow` are written out.  The
  rejection loop of `random_in_unit_sphere` is bounded by a `fuel` argument:
  whether it ends depends on the engine, and the theorems about a scatter are
  stated for the draws that return.
* Threads of the pipeline interleave at the granularity of one trip around the
  block loop of a worker and of one call of an orchestrator method; a join
  runs the joined thread until it returns.  What lies below that granularity
  (the plain `bool` read across threads, a pop between the `fetch_add` and the
  store of an insert) is not part of that embedding.
* Concurrent calls of `try_emplace` are embedded separately (`Producer.step`,
  `interleave`): each of the five accesses of the method to shared memory is
  one atomic step, and a schedule names the thread that takes the next one.
* Loops are structural recursions on a bound; a bound that runs out is
  `Fault.out_of_fuel`, and the lemmas `worker_body_fuel` and
  `join_thread_fuel` show it never does.
-/

namespace renderer

/-- The modulus of 64-bit `size_t` arithmetic. -/
def SIZE_MOD : Nat := 2 ^ 64

/-- What can go wrong below the level the source handles: a store outside the
allocation it indexes, a thread that can never leave a spin loop, the
dereference of a slot nothing was constructed in, an integer division by zero,
and (for the bounded loops of the embedding) a bound that was too small. -/
inductive Fault where
  | out_of_bounds
  | spins_forever
  | uninitialised_read
  | division_by_zero
  | out_of_fuel
  deriving DecidableEq, Repr

deriving instance DecidableEq for Except

namespace threading

/-- The class `mpsc_queue<T>` of `threading/mpsc.h`.  `buffer` is the
self-managed storage of `cap` slots (`none` is a slot in which no `T` has been
constructed yet); the two atomics are plain naturals. -/
structure mpsc_queue (T : Type) where
  buffer : List (Option T)
  read_handle : Nat
  cap : Nat
  write_handle : Nat
  elem_count : Nat
  deriving DecidableEq, Repr

/-- The constructor `mpsc_queue(size_t capacity)`. -/
def mpsc_queue.construct {T : Type} (capacity : Nat) : mpsc_queue T :=
  { buffer := List.replicate capacity none
    read_handle := 0
    cap := capacity
    write_handle := 0
    elem_count := 0 }

/-- The content of the slot a pointer returned by `try_pop` points at. -/
def mpsc_queue.deref {T : Type} (q : mpsc_queue T) (ptr : Nat) : Option T :=
  q.buffer.getD ptr none

/-- The method `T *try_pop()`: `none` is `nullptr`, `some p` is `&buffer[p]`.
(The source divides by `cap`; a channel of capacity 0 is outside the
embedding.) -/
def mpsc_queue.try_pop {T : Type} (q : mpsc_queue T) : Option Nat × mpsc_queue T :=
  let write := q.write_handle
  if write = q.read_handle then
    (none, q)
  else
    let ptr := q.read_handle
    (some ptr,
      { q with
        read_handle := (q.read_handle + 1) % SIZE_MOD % q.cap
        elem_count := (q.elem_count + (SIZE_MOD - 1)) % SIZE_MOD })

/-- The method `bool try_emplace(args...)`. -/
def mpsc_queue.try_emplace {T : Type} (q : mpsc_queue T) (v : T) :
    Except Fault (Bool × mpsc_queue T) :=
  if q.cap = q.elem_count then
    .ok (false, q)
  else
    let count := (q.elem_count + 1) % SIZE_MOD
    let write := q.write_handle
    if write < q.cap then
      .ok (true,
        { q with
          elem_count := count
          buffer := q.buffer.set write (some v)
          write_handle := (write + 1) % SIZE_MOD % q.cap })
    else
      .error Fault.out_of_bounds

/-- The method `void blocking_emplace(args...)`.  Called on a queue whose
`elem_count` equals `cap` it spins until the consumer pops; with no consumer
running that is `Fault.spins_forever`. -/
def mpsc_queue.blocking_emplace {T : Type} (q : mpsc_queue T) (v : T) :
    Except Fault (mpsc_queue T) :=
  if q.cap = q.elem_count then
    .error Fault.spins_forever
  else
    let write := q.write_handle
    if write < q.cap then
      .ok { q with
            write_handle := (write + 1) % SIZE_MOD
            buffer := q.buffer.set write (some v) }
    else
      .error Fault.out_of_bounds

/-- A call made on the channel in a sequential history. -/
inductive Op (T : Type) where
  | insert (v : T)
  | pop
  deriving DecidableEq, Repr

/-- What a call returned: the `bool` of `try_emplace`, or for `try_pop`
`none` for `nullptr` and `some x` for a pointer whose pointee is `x`. -/
inductive Ret (T : Type) where
  | inserted (accepted : Bool)
  | popped (result : Option (Option T))
  deriving DecidableEq, Repr

/-- One call of a history with the channel before and after it. -/
structure Step (T : Type) where
  op : Op T
  before : mpsc_queue T
  ret : Ret T
  after : mpsc_queue T

/-- Performs one call of a history. -/
def history_step {T : Type} (q : mpsc_queue T) : Op T → Except Fault (Step T)
  | .insert v =>
    match q.try_emplace v with
    | .ok (b, q1) => .ok { op := .insert v, before := q, ret := .inserted b, after := q1 }
    | .error e => .error e
  | .pop =>
    match q.try_pop with
    | (none, q1) => .ok { op := .pop, before := q, ret := .popped none, after := q1 }
    | (some p, q1) =>
      .ok { op := .pop, before := q, ret := .popped (some (q1.deref p)), after := q1 }

/-- Performs a sequential history of `try_emplace` and `try_pop` calls. -/
def run_history {T : Type} (q : mpsc_queue T) : List (Op T) → Except Fault (List (Step T))
  | [] => .ok []
  | op :: ops =>
    match history_step q op with
    | .error e => .error e
    | .ok s =>
      match run_history s.after ops with
      | .error e => .error e
      | .ok tr => .ok (s :: tr)

/-- What the calls of a history returned, in order. -/
def returned {T : Type} (result : Except Fault (List (Step T))) : Except Fault (List (Ret T)) :=
  match result with
  | .error e => .error e
  | .ok tr => .ok (tr.map fun s => s.ret)

/-- The inserted-but-undelivered values after one more call, oldest first: an
accepted insert adds its value at the young end, a pop that returned a value
takes that value out. -/
def undelivered_after {T : Type} [DecidableEq T] (pend : List T) (s : Step T) : List T :=
  match s.op, s.ret with
  | .insert v, .inserted true => pend ++ [v]
  | .pop, .popped (some (some x)) => pend.erase x
  | _, _ => pend

/-- The inserted-but-undelivered values after a history, oldest first. -/
def undelivered {T : Type} [DecidableEq T] (tr : List (Step T)) : List T :=
  tr.foldl undelivered_after []

/-- Calls `try_pop` until it returns `nullptr`, at most `fuel` times, and lists
the pointees of the pointers it returned. -/
def drain {T : Type} : Nat → mpsc_queue T → List (Option T) × mpsc_queue T
  | 0, q => ([], q)
  | fuel + 1, q =>
    match q.try_pop with
    | (none, q1) => ([], q1)
    | (some p, q1) =>
      let rest := drain fuel q1
      (q1.deref p :: rest.1, rest.2)

/-- Calls `try_emplace` with each value in turn; the flags it returned. -/
def try_emplace_all {T : Type} (q : mpsc_queue T) :
    List T → Except Fault (List Bool × mpsc_queue T)
  | [] => .ok ([], q)
  | v :: vs =>
    match q.try_emplace v with
    | .error e => .error e
    | .ok (b, q1) =>
      match try_emplace_all q1 vs with
      | .error e => .error e
      | .ok (bs, q2) => .ok (b :: bs, q2)

/-- Calls `blocking_emplace` with each value in turn. -/
def blocking_emplace_all {T : Type} (q : mpsc_queue T) : List T → Except Fault (mpsc_queue T)
  | [] => .ok q
  | v :: vs =>
    match q.blocking_emplace v with
    | .error e => .error e
    | .ok q1 => blocking_emplace_all q1 vs

/-- The relation between a channel used through `try_emplace` and `try_pop`
alone and the undelivered values `pend`, oldest first: they sit in the slots
from `read_handle` on, cyclically. -/
structure queue_inv {T : Type} (cap : Nat) (q : mpsc_queue T) (pend : List T) : Prop where
  cap_eq : q.cap = cap
  len_eq : q.buffer.length = cap
  read_lt : q.read_handle < cap
  count_eq : q.elem_count = pend.length
  count_le : pend.length ≤ cap
  write_eq : q.write_handle = (q.read_handle + pend.length) % cap
  slots : ∀ k v, pend.get? k = some v → q.deref ((q.read_handle + k) % cap) = some v

/-- What holds of one call of a history that started with `pend` undelivered. -/
def step_ok {T : Type} [DecidableEq T] (cap : Nat) (pend : List T) (s : Step T) : Prop :=
  queue_inv cap s.before pend ∧ queue_inv cap s.after (undelivered_after pend s) ∧
    history_step s.before s.op = .ok s

/-- Where a thread stands inside a call of `try_emplace`: before each of its
five accesses to shared memory, or after the `return`. -/
inductive Stage where
  | load_count
  | add_count
  | fetch_write
  | construct
  | store_write
  | returned (result : Bool)
  deriving DecidableEq, Repr

/-- A thread calling `try_emplace (value)`: where it stands and its local
`write` (0 until the `fetch_add` has set it). -/
structure Producer (T : Type) where
  value : T
  stage : Stage
  write : Nat
  deriving DecidableEq, Repr

/-- A thread that is about to call `try_emplace (value)`. -/
def Producer.start {T : Type} (value : T) : Producer T :=
  { value := value, stage := Stage.load_count, write := 0 }

/-- The next access of a thread inside `try_emplace`, each of them atomic: the
load of `elem_count` with the comparison to `cap`, the `fetch_add` on
`elem_count`, the `fetch_add` on `write_handle`, the construction of the value
in `buffer[write]`, the store of `(write + 1) % cap` to `write_handle`.  A
thread that has returned stays as it is. -/
def Producer.step {T : Type} (q : mpsc_queue T) (p : Producer T) :
    Except Fault (mpsc_queue T × Producer T) :=
  match p.stage with
  | .load_count =>
    if q.cap = q.elem_count then
      .ok (q, { p with stage := .returned false })
    else
      .ok (q, { p with stage := .add_count })
  | .add_count =>
    .ok ({ q with elem_count := (q.elem_count + 1) % SIZE_MOD }, { p with stage := .fetch_write })
  | .fetch_write =>
    .ok ({ q with write_handle := (q.write_handle + 1) % SIZE_MOD },
      { p with stage := .construct, write := q.write_handle })
  | .construct =>
    if p.write < q.cap then
      .ok ({ q with buffer := q.buffer.set p.write (some p.value) },
        { p with stage := .store_write })
    else
      .error Fault.out_of_bounds
  | .store_write =>
    .ok ({ q with write_handle := (p.write + 1) % SIZE_MOD % q.cap },
      { p with stage := .returned true })
  | .returned _ => .ok (q, p)

/-- An execution of several threads inside `try_emplace` on one channel: the
schedule names, access by access, the thread that moves. -/
def interleave {T : Type} (q : mpsc_queue T) (producers : List (Producer T)) :
    List Nat → Except Fault (mpsc_queue T × List (Producer T))
  | [] => .ok (q, producers)
  | i :: schedule =>
    match producers[i]? with
    | none => interleave q producers schedule
    | some p =>
      match p.step q with
      | .error e => .error e
      | .ok (q1, p1) => interleave q1 (producers.set i p1) schedule

/-- The schedule of the lost insert: thread 0 up to and including its
`fetch_add` on `write_handle`, thread 1 through its whole call, thread 0 to
its end, then thread 2 through its whole call. -/
def lost_insert_schedule : List Nat := [0, 0, 0, 1, 1, 1, 1, 1, 0, 0, 2, 2, 2, 2, 2]

end threading

/-- The type `vec3 = glm::highp_dvec3`, also used as `color`.  A `double` is
idealised as an element of an ordered field `K`: the definitions run on `ℚ`
and the theorems hold in every ordered field, the reals among them. -/
structure vec3 (K : Type) where
  x : K
  y : K
  z : K
  deriving DecidableEq

/-- The first component under its colour name. -/
def vec3.r {K : Type} (v : vec3 K) : K := v.x

/-- The second component under its colour name. -/
def vec3.g {K : Type} (v : vec3 K) : K := v.y

/-- The third component under its colour name. -/
def vec3.b {K : Type} (v : vec3 K) : K := v.z

/-- The constructor `vec3 (c)`: all components `c`. -/
def vec3.splat {K : Type} (c : K) : vec3 K := { x := c, y := c, z := c }

instance {K : Type} [Zero K] : Zero (vec3 K) := ⟨vec3.splat 0⟩

instance {K : Type} [Add K] : Add (vec3 K) :=
  ⟨fun a b => { x := a.x + b.x, y := a.y + b.y, z := a.z + b.z }⟩

instance {K : Type} [Sub K] : Sub (vec3 K) :=
  ⟨fun a b => { x := a.x - b.x, y := a.y - b.y, z := a.z - b.z }⟩

instance {K : Type} [Neg K] : Neg (vec3 K) :=
  ⟨fun a => { x := -a.x, y := -a.y, z := -a.z }⟩

/-- The component-wise product of `glm`. -/
instance {K : Type} [Mul K] : Mul (vec3 K) :=
  ⟨fun a b => { x := a.x * b.x, y := a.y * b.y, z := a.z * b.z }⟩

/-- The product of a scalar and a vector. -/
instance {K : Type} [Mul K] : SMul K (vec3 K) :=
  ⟨fun c a => { x := c * a.x, y := c * a.y, z := c * a.z }⟩

/-- The function `glm::dot`. -/
def dot {K : Type} [Add K] [Mul K] (a b : vec3 K) : K := a.x * b.x + a.y * b.y + a.z * b.z

/-- The function `glm::normalize`: the vector times the inverse square root of
its squared length; `sqrt` stands for the square root of the platform. -/
def normalize {K : Type} [Field K] (sqrt : K → K) (v : vec3 K) : vec3 K :=
  (1 / sqrt (dot v v)) • v

/-- The struct `Ray`. -/
structure Ray (K : Type) where
  origin : vec3 K
  direction : vec3 K
  deriving DecidableEq

/-- The method `Ray::at`. -/
def Ray.at {K : Type} [Add K] [Mul K] (ray : Ray K) (t : K) : vec3 K :=
  ray.origin + t • ray.direction

/-- The struct `Hit` of `renderer.cc`.  `selected_t` can hold the infinity
`World::intersect` starts from, hence `WithTop K`. -/
structure Hit (K : Type) where
  point : vec3 K
  normal : vec3 K
  selected_t : WithTop K
  mat_index : Nat
  front_face : Bool

/-- A default-initialised `Hit`, as in `Hit hit;`. -/
def Hit.init {K : Type} [Zero K] : Hit K :=
  { point := vec3.splat 0
    normal := vec3.splat 0
    selected_t := ((0 : K) : WithTop K)
    mat_index := 0
    front_face := true }

/-- The method `Hit::make_facing_outwards`. -/
def Hit.make_facing_outwards {K : Type} [LinearOrderedField K] (hit : Hit K) (ray : Ray K) :
    Hit K :=
  if dot ray.direction hit.normal < 0 then
    { hit with front_face := false, normal := (-1 : K) • hit.normal }
  else
    hit

/-- The struct `Sphere`. -/
structure Sphere (K : Type) where
  center : vec3 K
  radius : K

/-- The aggregate `Hit{point, normal, t}` that `Sphere::intersect` assigns. -/
def Hit.at_distance {K : Type} [LinearOrderedField K] (sqrt : K → K) (sphere : Sphere K)
    (ray : Ray K) (t : K) : Hit K :=
  { point := ray.at t
    normal := normalize sqrt (ray.at t - sphere.center)
    selected_t := (t : WithTop K)
    mat_index := 0
    front_face := true }

/-- The local `h` of `Sphere::intersect`. -/
def Sphere.h {K : Type} [LinearOrderedField K] (sphere : Sphere K) (ray : Ray K) : K :=
  dot (ray.origin - sphere.center) ray.direction

/-- The local `discriminant` of `Sphere::intersect`. -/
def Sphere.discriminant {K : Type} [LinearOrderedField K] (sphere : Sphere K) (ray : Ray K) :
    K :=
  let ca := ray.origin - sphere.center
  let c := dot ca ca - sphere.radius * sphere.radius
  sphere.h ray * sphere.h ray - c

/-- The method `Sphere::intersect`: the `bool` it returns and the caller's
`Hit` after the call.  `sqrt` stands for `std::sqrt`. -/
def Sphere.intersect {K : Type} [LinearOrderedField K] (sqrt : K → K) (sphere : Sphere K)
    (ray : Ray K) (hit : Hit K) : Bool × Hit K :=
  let h := sphere.h ray
  let discriminant := sphere.discriminant ray
  if discriminant < 0 then
    (false, hit)
  else
    let dsqrt := sqrt discriminant
    let t1 := -h + dsqrt
    let t2 := -h - dsqrt
    match (if t1 < 0 ∨ |t1| > |t2| then (if t2 < 0 then none else some t2) else some t1) with
    | none => (false, hit)
    | some t =>
      if t ≤ 0.0001 then
        (false, hit)
      else
        (true, Hit.at_distance sqrt sphere ray t)

/-- The function `as_background`. -/
def as_background {K : Type} [LinearOrderedField K] (ray : Ray K) : vec3 K :=
  let t := 0.5 * (ray.direction.y + 1.0)
  (1.0 - t) • ({ x := 1.0, y := 1.0, z := 1.0 } : vec3 K) + t • { x := 0.5, y := 0.7, z := 1.0 }

/-- The interface `material_traits`: its virtual method `scatter`, from the
incoming direction, the hit and the state of the random engine to the pair of
attenuation and outgoing direction, and the state the engine is left in. -/
structure material_traits (K R : Type) where
  scatter : vec3 K → Hit K → R → (vec3 K × vec3 K) × R

/-- The struct `World`. -/
structure World (K R : Type) where
  materials : List (material_traits K R)
  spheres : List (Sphere K × Nat)

/-- The method `World::scatter`: `material_at (record.mat_index)` indexes the
vector of materials. -/
def World.scatter {K R : Type} (world : World K R) (ray_direction : vec3 K) (record : Hit K)
    (rand : R) : Except Fault ((vec3 K × vec3 K) × R) :=
  match world.materials[record.mat_index]? with
  | none => .error Fault.out_of_bounds
  | some material => .ok (material.scatter ray_direction record rand)

/-- The `for` loop of `World::intersect` over the remaining spheres, with the
locals `hit`, `temp_hit` and `did_hit`. -/
def World.intersect_loop {K : Type} [LinearOrderedField K] (sqrt : K → K) (ray : Ray K) :
    List (Sphere K × Nat) → Hit K → Hit K → Bool → Bool × Hit K
  | [], hit, _, did_hit => (did_hit, hit)
  | (sphere, mat_index) :: rest, hit, temp_hit, did_hit =>
    match sphere.intersect sqrt ray temp_hit with
    | (true, temp_hit1) =>
      let temp_hit2 := { temp_hit1 with mat_index := mat_index }
      World.intersect_loop sqrt ray rest
        (if temp_hit2.selected_t < hit.selected_t then temp_hit2 else hit) temp_hit2 true
    | (false, temp_hit1) => World.intersect_loop sqrt ray rest hit temp_hit1 did_hit

/-- The method `World::intersect`: the `bool` it returns and the caller's
`Hit` after the call. -/
def World.intersect {K R : Type} [LinearOrderedField K] (sqrt : K → K) (world : World K R)
    (ray : Ray K) (hit : Hit K) : Bool × Hit K :=
  World.intersect_loop sqrt ray world.spheres { hit with selected_t := ⊤ } Hit.init false

/-- The `for` loop of `ray_color` and what follows it, with the locals `ray`,
`hit` and `current`, by recursion on `max_depth`. -/
def ray_color_loop {K R : Type} [LinearOrderedField K] (sqrt : K → K) (world : World K R) :
    Nat → Ray K → Hit K → vec3 K → R → Except Fault (vec3 K × R)
  | 0, _, _, _, rand => .ok (vec3.splat 0.0, rand)
  | max_depth + 1, ray, hit, current, rand =>
    match world.intersect sqrt ray hit with
    | (false, _) => .ok (current * as_background ray, rand)
    | (true, hit1) =>
      match world.scatter ray.direction hit1 rand with
      | .error e => .error e
      | .ok ((attenuation, direction), rand1) =>
        if attenuation = vec3.splat 0.0 then
          .ok (vec3.splat 0.0, rand1)
        else
          ray_color_loop sqrt world max_depth { origin := hit1.point, direction := direction }
            hit1 (current * attenuation) rand1

/-- The function `ray_color`: the colour it returns and the state it leaves
the random engine in. -/
def ray_color {K R : Type} [LinearOrderedField K] (sqrt : K → K) (ray : Ray K)
    (world : World K R) (max_depth : Nat) (rand : R) : Except Fault (vec3 K × R) :=
  ray_color_loop sqrt world max_depth ray Hit.init (vec3.splat 1.0) rand

/-- The hits of the spheres of a world on a ray, in the order of the spheres,
each with the material index paired with its sphere. -/
def World.hits {K R : Type} [LinearOrderedField K] (sqrt : K → K) (world : World K R)
    (ray : Ray K) : List (Hit K) :=
  world.spheres.filterMap fun entry =>
    match entry.1.intersect sqrt ray Hit.init with
    | (true, h) => some { h with mat_index := entry.2 }
    | (false, _) => none

/-- The square root on the rationals as far as the examples need it. -/
def sqrt_of_one : ℚ → ℚ := fun _ => 1

/-- The sphere of radius 1 around `(0, 0, -3)`. -/
def far_sphere : Sphere ℚ := { center := { x := 0, y := 0, z := -3 }, radius := 1 }

/-- The ray from the origin down the negative `z` axis. -/
def axis_ray : Ray ℚ := { origin := vec3.splat 0, direction := { x := 0, y := 0, z := -1 } }

/-- The ray from the origin up the `y` axis. -/
def up_ray : Ray ℚ := { origin := vec3.splat 0, direction := { x := 0, y := 1, z := 0 } }

/-- The sphere of radius 1 around the origin. -/
def unit_sphere : Sphere ℚ := { center := vec3.splat 0, radius := 1 }

/-- The ray from `(0, 0, 1/2)`, inside `unit_sphere`, down the negative `z`
axis, through the centre. -/
def inside_ray : Ray ℚ :=
  { origin := { x := 0, y := 0, z := 1 / 2 }, direction := { x := 0, y := 0, z := -1 } }

/-- The sphere of radius 1 around `(0, 0, -2)`. -/
def near_sphere : Sphere ℚ := { center := { x := 0, y := 0, z := -2 }, radius := 1 }

/-- A material that halves every channel and scatters along the normal; the
state of its random engine counts the calls. -/
def grey : material_traits ℚ Nat :=
  { scatter := fun _ hit rand => (({ x := 1 / 2, y := 1 / 2, z := 1 / 2 }, hit.normal), rand + 1) }

/-- A world of two spheres one behind the other on the negative `z` axis, the
farther one first in the list. -/
def two_sphere_world : World ℚ Nat :=
  { materials := [grey, grey]
    spheres := [(far_sphere, 0), (near_sphere, 1)] }

/-- Whether the path that `ray_color` follows leaves the scene within the
budget: some call of `World::intersect` among the first `max_depth` ones
reports no hit.  The path ends early where `ray_color` returns early. -/
def escapes {K R : Type} [LinearOrderedField K] (sqrt : K → K) (world : World K R) :
    Nat → Ray K → Hit K → R → Bool
  | 0, _, _, _ => false
  | max_depth + 1, ray, hit, rand =>
    match world.intersect sqrt ray hit with
    | (false, _) => true
    | (true, hit1) =>
      match world.scatter ray.direction hit1 rand with
      | .error _ => false
      | .ok ((attenuation, direction), rand1) =>
        if attenuation = vec3.splat 0.0 then
          false
        else
          escapes sqrt world max_depth { origin := hit1.point, direction := direction } hit1 rand1

/-- The hit of `axis_ray` on `far_sphere`: the point `(0, 0, -2)` at distance
2, with the normal `(0, 0, 1)` pointing back at the origin of the ray. -/
def facing_hit : Hit ℚ :=
  { point := { x := 0, y := 0, z := -2 }
    normal := { x := 0, y := 0, z := 1 }
    selected_t := ((2 : ℚ) : WithTop ℚ)
    mat_index := 0
    front_face := true }

/-- The constant `NUM_THREADS`. -/
def NUM_THREADS : Nat := 12

/-- The constant `BLOCK_SIZE`. -/
def BLOCK_SIZE : Nat := 16

/-- The function `make_channel_integer`: `glm::clamp (x, lo, hi)` is
`min (max (x, lo), hi)`, the cast to `u8` of a value in `[0, 256)` truncates. -/
def make_channel_integer {K : Type} [LinearOrderedField K] [FloorRing K] (ch : K) : Nat :=
  (Int.toNat (Int.floor (min (max (ch * 255.999) 0) 255.999))) % 256

/-- The function `to_abgr`, a `u32`. -/
def to_abgr {K : Type} [LinearOrderedField K] [FloorRing K] (color : vec3 K) : Nat :=
  let r := make_channel_integer color.r
  let g := make_channel_integer color.g
  let b := make_channel_integer color.b
  ((0xff <<< 24) ||| (b <<< 16) ||| (g <<< 8) ||| r) % 2 ^ 32

/-- The struct `RenderResult`. -/
structure RenderResult where
  worker_id : Nat
  deriving DecidableEq, Repr

/-- The struct `RenderRequest`.  `start` and `end_` (the source's `end`) are
pointers into the pixel buffer, hence indices of it.  The two viewport fields
and `world_view` are read by the sampler only and are part of its oracle. -/
structure RenderRequest where
  start : Nat
  end_ : Nat
  starting_index : Nat
  width : Nat
  height : Nat
  deriving DecidableEq, Repr

/-- What the thread body of `WorkerThread::launch` does to the memory it
shares: a store `*current = word` into the pixel buffer, or the call
`sender.blocking_emplace (RenderResult{id})`. -/
inductive Event where
  | store (current : Nat) (word : Nat)
  | emplace (res : RenderResult)
  deriving DecidableEq, Repr

/-- The stores of the inner loop of the thread body for the block starting at
`block_start`, in program order.  `shade i j` is the colour the hundred samples
of the pixel in column `i`, row `j` average to. -/
def render_block (shade : Nat → Nat → vec3 ℚ) (request : RenderRequest) (block_start : Nat) :
    List Event :=
  let block_end := min (block_start + BLOCK_SIZE) request.end_
  (List.range' block_start (block_end - block_start)).map fun current =>
    let index := (current - request.start + request.starting_index) % SIZE_MOD
    let i := index % request.width
    let j := (request.height + SIZE_MOD - index / request.width) % SIZE_MOD
    Event.store current (to_abgr (shade i j))

/-- One evaluation of the loop condition of the thread body and what follows
it: the block and the read of the cancellation flag (`signal` is the value
read), or, the range being exhausted, the `blocking_emplace`.  Returns the
events and the next `block_start`, `none` when the thread returns. -/
def worker_iteration (shade : Nat → Nat → vec3 ℚ) (request : RenderRequest) (id : Nat)
    (signal : Bool) (block_start : Nat) : Except Fault (List Event × Option Nat) :=
  if block_start < request.end_ then
    if request.width = 0 then
      .error Fault.division_by_zero
    else if signal then
      .ok (render_block shade request block_start, none)
    else
      .ok (render_block shade request block_start, some (block_start + BLOCK_SIZE * NUM_THREADS))
  else
    .ok ([Event.emplace { worker_id := id }], none)

/-- The thread body of `WorkerThread::launch` from the `k`-th evaluation of
its loop condition on; `observe k` is what the read of the cancellation flag
after the `k`-th block returns.  `fuel` bounds the evaluations. -/
def worker_loop (shade : Nat → Nat → vec3 ℚ) (request : RenderRequest) (id : Nat)
    (observe : Nat → Bool) : Nat → Nat → Nat → Except Fault (List Event)
  | 0, _, _ => .error Fault.out_of_fuel
  | fuel + 1, k, block_start =>
    match worker_iteration shade request id (observe k) block_start with
    | .error e => .error e
    | .ok (events, none) => .ok events
    | .ok (events, some next) =>
      match worker_loop shade request id observe fuel (k + 1) next with
      | .error e => .error e
      | .ok rest => .ok (events ++ rest)

/-- The whole thread body of `WorkerThread::launch`, as the events it
performs.  The loop condition is evaluated at most `end - start + 1` times. -/
def worker_body (shade : Nat → Nat → vec3 ℚ) (request : RenderRequest) (id : Nat)
    (observe : Nat → Bool) : Except Fault (List Event) :=
  worker_loop shade request id observe (request.end_ - request.start + 1) 0 request.start

/-- The buffer positions a list of events stores to, in order. -/
def stores : List Event → List Nat
  | [] => []
  | Event.store current _ :: rest => current :: stores rest
  | Event.emplace _ :: rest => stores rest

/-- The results a list of events emplaces, in order. -/
def emplaced : List Event → List RenderResult
  | [] => []
  | Event.store _ _ :: rest => emplaced rest
  | Event.emplace res :: rest => res :: emplaced rest

/-- The `RenderRequest` that `on_resize` hands to worker `i`. -/
def request_for (width height i : Nat) : RenderRequest :=
  { start := i * BLOCK_SIZE
    end_ := (width * height) % SIZE_MOD
    starting_index := i * BLOCK_SIZE
    width := width
    height := height }

/-- The buffer positions worker `i` stores to when `on_resize (width, height)`
has launched it and the cancellation flag stays clear. -/
def worker_writes (shade : Nat → Nat → vec3 ℚ) (width height i : Nat) : List Nat :=
  match worker_body shade (request_for width height i) i (fun _ => false) with
  | .ok events => stores events
  | .error _ => []

/-- A started `std::thread` running the thread body: its request, the loop
variable `block_start`, and whether the body has returned. -/
structure Thread where
  request : RenderRequest
  block_start : Nat
  exited : Bool
  deriving DecidableEq, Repr

/-- The class `WorkerThread`: `handle` is the `std::optional<std::thread>`. -/
structure WorkerThread where
  worker_id : Nat
  handle : Option Thread
  deriving DecidableEq, Repr

/-- The class `MainRenderThread` without its timer and viewport fields. -/
structure MainRenderThread where
  threads : List WorkerThread
  data : List Nat
  results : threading.mpsc_queue RenderResult
  jobs_left : Nat
  cancel_signal : Bool
  deriving DecidableEq, Repr

/-- The constructor `MainRenderThread::MainRenderThread`.  The declaration of
`cancel_signal` is not in `renderer.h`; its initial value is a parameter. -/
def MainRenderThread.construct (cancel_signal : Bool) : MainRenderThread :=
  { threads := (List.range NUM_THREADS).map fun i => { worker_id := i, handle := none }
    data := []
    results := threading.mpsc_queue.construct NUM_THREADS
    jobs_left := 0
    cancel_signal := cancel_signal }

/-- Performs an event on the pixel buffer and the channel. -/
def apply_event (mem : List Nat × threading.mpsc_queue RenderResult) :
    Event → Except Fault (List Nat × threading.mpsc_queue RenderResult)
  | Event.store current word =>
    if current < mem.1.length then .ok (mem.1.set current word, mem.2)
    else .error Fault.out_of_bounds
  | Event.emplace res =>
    match mem.2.blocking_emplace res with
    | .error e => .error e
    | .ok q => .ok (mem.1, q)

/-- Performs a list of events in order. -/
def apply_events (mem : List Nat × threading.mpsc_queue RenderResult) :
    List Event → Except Fault (List Nat × threading.mpsc_queue RenderResult)
  | [] => .ok mem
  | e :: es =>
    match apply_event mem e with
    | .error f => .error f
    | .ok mem1 => apply_events mem1 es

/-- A running thread performs one `worker_iteration` while the cancellation
flag holds `signal`; a thread that has returned does nothing. -/
def thread_step (shade : Nat → Nat → vec3 ℚ) (id : Nat) (signal : Bool) (t : Thread)
    (mem : List Nat × threading.mpsc_queue RenderResult) :
    Except Fault (Thread × (List Nat × threading.mpsc_queue RenderResult)) :=
  if t.exited then
    .ok (t, mem)
  else
    match worker_iteration shade t.request id signal t.block_start with
    | .error e => .error e
    | .ok (events, next) =>
      match apply_events mem events with
      | .error e => .error e
      | .ok mem1 =>
        .ok ({ t with block_start := next.getD t.block_start, exited := next.isNone }, mem1)

/-- The call `handle->join ()` while the cancellation flag holds `signal`: the
thread runs until its body returns.  `fuel` bounds the iterations. -/
def join_thread (shade : Nat → Nat → vec3 ℚ) (id : Nat) (signal : Bool) :
    Nat → Thread → List Nat × threading.mpsc_queue RenderResult →
    Except Fault (List Nat × threading.mpsc_queue RenderResult)
  | 0, _, _ => .error Fault.out_of_fuel
  | fuel + 1, t, mem =>
    if t.exited then
      .ok mem
    else
      match thread_step shade id signal t mem with
      | .error e => .error e
      | .ok (t1, mem1) => join_thread shade id signal fuel t1 mem1

/-- The method `WorkerThread::drop_thread` called on `threads[i]`. -/
def drop_thread (shade : Nat → Nat → vec3 ℚ) (s : MainRenderThread) (i : Nat) :
    Except Fault MainRenderThread :=
  match s.threads[i]? with
  | none => .error Fault.out_of_bounds
  | some w =>
    match w.handle with
    | none => .ok s
    | some t =>
      match join_thread shade w.worker_id s.cancel_signal
          (t.request.end_ - t.block_start + 2) t (s.data, s.results) with
      | .error e => .error e
      | .ok mem =>
        .ok { s with
              data := mem.1
              results := mem.2
              threads := s.threads.set i { w with handle := none } }

/-- The loop of `stop_pipeline` over the workers `i`, `i + 1`, ... -/
def drop_threads (shade : Nat → Nat → vec3 ℚ) (s : MainRenderThread) :
    List Nat → Except Fault MainRenderThread
  | [] => .ok s
  | i :: rest =>
    match drop_thread shade s i with
    | .error e => .error e
    | .ok s1 => drop_threads shade s1 rest

/-- The method `MainRenderThread::stop_pipeline`. -/
def stop_pipeline (shade : Nat → Nat → vec3 ℚ) (s : MainRenderThread) :
    Except Fault MainRenderThread :=
  match drop_threads shade { s with cancel_signal := true } (List.range NUM_THREADS) with
  | .error e => .error e
  | .ok s1 => .ok { s1 with cancel_signal := false }

/-- The method `WorkerThread::launch`. -/
def WorkerThread.launch (w : WorkerThread) (request : RenderRequest) : WorkerThread :=
  { w with handle := some { request := request, block_start := request.start, exited := false } }

/-- The launch loop of `on_resize` over the workers `i`, `i + 1`, ... -/
def launch_threads (width height : Nat) (threads : List WorkerThread) :
    List Nat → Except Fault (List WorkerThread)
  | [] => .ok threads
  | i :: rest =>
    match threads[i]? with
    | none => .error Fault.out_of_bounds
    | some w => launch_threads width height (threads.set i (w.launch (request_for width height i))) rest

/-- The method `MainRenderThread::on_resize` after `stop_pipeline` has
returned: the buffer is resized and zeroed, the workers are launched, the
counter is set. -/
def restart_pipeline (s : MainRenderThread) (width height : Nat) :
    Except Fault MainRenderThread :=
  let data := List.replicate ((width * height) % SIZE_MOD) 0
  match launch_threads width height s.threads (List.range NUM_THREADS) with
  | .error e => .error e
  | .ok threads => .ok { s with data := data, threads := threads, jobs_left := NUM_THREADS }

/-- The method `MainRenderThread::on_resize`. -/
def on_resize (shade : Nat → Nat → vec3 ℚ) (s : MainRenderThread) (width height : Nat) :
    Except Fault MainRenderThread :=
  match stop_pipeline shade s with
  | .error e => .error e
  | .ok s1 => restart_pipeline s1 width height

/-- The `for` loop of `on_frame_update`.  Every trip decrements `jobs_left`,
so `jobs_left` trips are enough; `fuel` bounds the trips. -/
def drain_results (shade : Nat → Nat → vec3 ℚ) :
    Nat → MainRenderThread → Except Fault MainRenderThread
  | 0, s => if s.jobs_left = 0 then .ok s else .error Fault.out_of_fuel
  | fuel + 1, s =>
    if s.jobs_left = 0 then
      .ok s
    else
      match s.results.try_pop with
      | (none, _) => .ok s
      | (some ptr, q) =>
        match q.deref ptr with
        | none => .error Fault.uninitialised_read
        | some res =>
          match drop_thread shade { s with results := q } res.worker_id with
          | .error e => .error e
          | .ok s1 => drain_results shade fuel { s1 with jobs_left := s1.jobs_left - 1 }

/-- The method `MainRenderThread::on_frame_update`. -/
def on_frame_update (shade : Nat → Nat → vec3 ℚ) (s : MainRenderThread) :
    Except Fault (Bool × MainRenderThread) :=
  if s.jobs_left ≠ 0 then
    match drain_results shade s.jobs_left s with
    | .error e => .error e
    | .ok s1 => .ok (true, s1)
  else
    .ok (false, s)

/-- The destructor `MainRenderThread::~MainRenderThread`, up to the release of
the worker storage. -/
def destroy (shade : Nat → Nat → vec3 ℚ) (s : MainRenderThread) : Except Fault MainRenderThread :=
  match (if s.jobs_left ≠ 0 then stop_pipeline shade s else .ok s) with
  | .error e => .error e
  | .ok s1 => drop_threads shade s1 (List.range NUM_THREADS)

/-- The scheduler lets the thread of worker `i` perform one iteration.  A
worker without a thread, and a thread spinning in `blocking_emplace`, stay as
they are. -/
def worker_step (shade : Nat → Nat → vec3 ℚ) (s : MainRenderThread) (i : Nat) :
    Except Fault MainRenderThread :=
  match s.threads[i]? with
  | none => .ok s
  | some w =>
    match w.handle with
    | none => .ok s
    | some t =>
      match thread_step shade w.worker_id s.cancel_signal t (s.data, s.results) with
      | .error Fault.spins_forever => .ok s
      | .error e => .error e
      | .ok (t1, mem) =>
        .ok { s with
              data := mem.1
              results := mem.2
              threads := s.threads.set i { w with handle := some t1 } }

/-- What can happen to the orchestrator: a call of one of its two public
methods, or a worker thread making progress. -/
inductive Action where
  | resize (width height : Nat)
  | frame_update
  | worker (i : Nat)
  deriving DecidableEq, Repr

/-- Performs one action. -/
def perform (shade : Nat → Nat → vec3 ℚ) (s : MainRenderThread) :
    Action → Except Fault MainRenderThread
  | Action.resize width height => on_resize shade s width height
  | Action.frame_update =>
    match on_frame_update shade s with
    | .error e => .error e
    | .ok (_, s1) => .ok s1
  | Action.worker i => worker_step shade s i

/-- Performs a list of actions in order. -/
def run (shade : Nat → Nat → vec3 ℚ) (s : MainRenderThread) :
    List Action → Except Fault MainRenderThread
  | [] => .ok s
  | a :: rest =>
    match perform shade s a with
    | .error e => .error e
    | .ok s1 => run shade s1 rest

/-- The value of a computation that returned, `d` for one that did not. -/
def ok_or {α : Type} (e : Except Fault α) (d : α) : α :=
  match e with
  | .ok a => a
  | .error _ => d

/-- The alpha byte of a packed pixel: bits 24 to 31. -/
def alpha_byte (word : Nat) : Nat := (word >>> 24) &&& 0xff

/-- Position `p` lies in a block of worker `i`. -/
def in_blocks_of (i p : Nat) : Prop := ∃ m j, j < 16 ∧ p = i * 16 + m * 192 + j

/-- A worker whose thread has returned or has been joined. -/
def WorkerThread.finished (w : WorkerThread) : Prop :=
  match w.handle with
  | none => True
  | some t => t.exited = true

/-- What the first pass after construction keeps true of worker `i`: it runs
the request `on_resize` gave it, at the start of one of its blocks, and has
painted its pixels below that block; it has emplaced its result, recorded in
`ids`, exactly when it has returned. -/
def thread_ok (width height : Nat) (data : List Nat) (ids : List Nat) (i : Nat) :
    Option Thread → Prop
  | none => i ∈ ids
  | some t =>
    t.request = request_for width height i ∧ (∃ m, t.block_start = i * 16 + m * 192) ∧
      (t.exited = true → i ∈ ids) ∧
      (t.exited = false → ¬ i ∈ ids ∧
        ∀ p, p < data.length → in_blocks_of i p → p < t.block_start →
          alpha_byte (data.getD p 0) = 255)

/-- The invariant of the first pass after construction, between the calls of
the orchestrator: `ids` are the workers that have emplaced their result, in
the order of their slots. -/
structure pass_inv (width height : Nat) (s : MainRenderThread) (ids : List Nat) : Prop where
  flag : s.cancel_signal = false
  data_len : s.data.length = (width * height) % SIZE_MOD
  thr_len : s.threads.length = 12
  thr : ∀ i w, s.threads[i]? = some w →
    w.worker_id = i ∧ thread_ok width height s.data ids i w.handle
  q_cap : s.results.cap = 12
  q_len : s.results.buffer.length = 12
  jobs_le : s.jobs_left ≤ 12
  q_read : s.results.read_handle = (12 - s.jobs_left) % 12
  q_count : s.results.elem_count = (SIZE_MOD - (12 - s.jobs_left)) % SIZE_MOD
  q_write : s.results.write_handle = ids.length
  pops_le : 12 - s.jobs_left ≤ ids.length
  ids_nodup : ids.Nodup
  ids_lt : ∀ i, i ∈ ids → i < 12
  ids_slot : ∀ k i, ids[k]? = some i → s.results.deref k = some { worker_id := i }
  ids_done : ∀ i, i ∈ ids → ∀ p, p < s.data.length → in_blocks_of i p →
    alpha_byte (s.data.getD p 0) = 255

/-- What keeps a join from faulting during and after the first pass: every
thread still running has the request `on_resize` gave it and has not emplaced
a result, and the channel holds one result for each worker in `ids`. -/
structure join_inv (width height : Nat) (s : MainRenderThread) (ids : List Nat) : Prop where
  data_len : s.data.length = (width * height) % SIZE_MOD
  thr_len : s.threads.length = 12
  thr : ∀ i w t, s.threads[i]? = some w → w.handle = some t → t.exited = false →
    w.worker_id = i ∧ t.request = request_for width height i ∧ ¬ i ∈ ids
  q_cap : s.results.cap = 12
  q_count : s.results.elem_count ≠ 12
  q_write : s.results.write_handle = ids.length
  ids_nodup : ids.Nodup
  ids_lt : ∀ i, i ∈ ids → i < 12

/-- What can happen during a pass: a poll by the caller, or a worker thread
making progress. -/
inductive Tick where
  | poll
  | worker (i : Nat)
  deriving DecidableEq, Repr

/-- The action a tick stands for. -/
def Tick.action : Tick → Action
  | Tick.poll => Action.frame_update
  | Tick.worker i => Action.worker i

/-- A sampler that finds every pixel black. -/
def black : Nat → Nat → vec3 ℚ := fun _ _ => { x := 0, y := 0, z := 0 }

/-- On a fresh orchestrator after `on_resize (2, 2)`, every worker has
completed: worker 0 its one block, the others their empty ranges. -/
def all_reported_state : MainRenderThread :=
  ok_or (run black (MainRenderThread.construct false)
    (Action.resize 2 2 :: Action.worker 0 :: (List.range 12).map Action.worker))
    (MainRenderThread.construct false)

/-- Then the caller has polled once. -/
def all_joined_state : MainRenderThread :=
  ok_or (run black all_reported_state [Action.frame_update]) all_reported_state

/-- A pass of 16 x 12 pixels in which worker 1 completes, cancelled by a second
`on_resize (16, 12)`; in the new pass one poll, then the workers 2 to 11
complete, then another poll.  Worker 0 never gets to run in the new pass. -/
def stale_trace : List Action :=
  [Action.resize 16 12, Action.worker 1, Action.worker 1, Action.resize 16 12,
    Action.frame_update] ++
  (List.range' 2 10).flatMap (fun i => [Action.worker i, Action.worker i]) ++
  [Action.frame_update]

/-- The orchestrator after `stale_trace`. -/
def stale_state : MainRenderThread :=
  ok_or (run black (MainRenderThread.construct false) stale_trace)
    (MainRenderThread.construct false)

/-- A first pass that completes and is polled to the end, then a second
`on_resize` and a poll. -/
def second_pass_trace : List Action :=
  Action.resize 2 2 :: Action.worker 0 :: (List.range 12).map Action.worker ++
  [Action.frame_update, Action.resize 2 2, Action.frame_update]

/-- One trip around the loop of `ray_color` that reaches `current *= attenuation`:
the attenuation, and the ray, the hit and the random engine after the trip.
`none` where the loop ends instead: no hit, a material index outside the
vector of materials, or a zero attenuation. -/
def bounce {K R : Type} [LinearOrderedField K] (sqrt : K → K) (world : World K R)
    (ray : Ray K) (hit : Hit K) (rand : R) : Option (vec3 K × Ray K × Hit K × R) :=
  match world.intersect sqrt ray hit with
  | (false, _) => none
  | (true, hit1) =>
    match world.scatter ray.direction hit1 rand with
    | .error _ => none
    | .ok ((attenuation, direction), rand1) =>
      if attenuation = vec3.splat 0.0 then
        none
      else
        some (attenuation, { origin := hit1.point, direction := direction }, hit1, rand1)

/-- The first `k` trips around the loop of `ray_color`, all of them reaching
`current *= attenuation`: the attenuations in order, and the ray, the hit and
the random engine after the last trip. -/
def bounces {K R : Type} [LinearOrderedField K] (sqrt : K → K) (world : World K R) :
    Nat → Ray K → Hit K → R → Option (List (vec3 K) × Ray K × Hit K × R)
  | 0, ray, hit, rand => some ([], ray, hit, rand)
  | k + 1, ray, hit, rand =>
    match bounce sqrt world ray hit rand with
    | none => none
    | some (attenuation, ray1, hit1, rand1) =>
      match bounces sqrt world k ray1 hit1 rand1 with
      | none => none
      | some (attenuations, ray2, hit2, rand2) =>
        some (attenuation :: attenuations, ray2, hit2, rand2)

/-- The loop of `ray_color` with the early `return vec3 (0.0)` on a zero
attenuation taken out: every trip multiplies `current` and goes on. -/
def ray_color_loop_without_exit {K R : Type} [LinearOrderedField K] (sqrt : K → K)
    (world : World K R) : Nat → Ray K → Hit K → vec3 K → R → Except Fault (vec3 K × R)
  | 0, _, _, _, rand => .ok (vec3.splat 0.0, rand)
  | max_depth + 1, ray, hit, current, rand =>
    match world.intersect sqrt ray hit with
    | (false, _) => .ok (current * as_background ray, rand)
    | (true, hit1) =>
      match world.scatter ray.direction hit1 rand with
      | .error e => .error e
      | .ok ((attenuation, direction), rand1) =>
        ray_color_loop_without_exit sqrt world max_depth
          { origin := hit1.point, direction := direction } hit1 (current * attenuation) rand1

/-- The function `ray_color` with the early `return` on a zero attenuation
taken out. -/
def ray_color_without_exit {K R : Type} [LinearOrderedField K] (sqrt : K → K) (ray : Ray K)
    (world : World K R) (max_depth : Nat) (rand : R) : Except Fault (vec3 K × R) :=
  ray_color_loop_without_exit sqrt world max_depth ray Hit.init (vec3.splat 1.0) rand

/-- The colour of a result of `ray_color`, without the state of the engine. -/
def returned_color {K R : Type} (result : Except Fault (vec3 K × R)) : Except Fault (vec3 K) :=
  match result with
  | .error e => .error e
  | .ok (color, _) => .ok color

/-- A material that absorbs everything: its attenuation is the zero colour. -/
def absorber : material_traits ℚ Nat :=
  { scatter := fun _ hit rand => ((vec3.splat 0, hit.normal), rand + 1) }

/-- The world of one sphere on the negative `z` axis, made of `absorber`. -/
def absorbing_world : World ℚ Nat :=
  { materials := [absorber]
    spheres := [(far_sphere, 0)] }

/-- The sphere of radius 1 around `(1, 0, -3)`, which the negative `z` axis
touches in `(0, 0, -3)`. -/
def tangent_sphere : Sphere ℚ := { center := { x := 1, y := 0, z := -3 }, radius := 1 }

/-- The ray from `(0, 0, -1/2)`, inside `unit_sphere`, down the negative `z`
axis, away from the centre. -/
def leaving_ray : Ray ℚ :=
  { origin := { x := 0, y := 0, z := -1 / 2 }, direction := { x := 0, y := 0, z := -1 } }

/-- The hit of `axis_ray` on `near_sphere` as `two_sphere_world` reports it:
the point `(0, 0, -1)` at distance 1, material index 1. -/
def near_hit : Hit ℚ :=
  { point := { x := 0, y := 0, z := -1 }
    normal := { x := 0, y := 0, z := 1 }
    selected_t := ((1 : ℚ) : WithTop ℚ)
    mat_index := 1
    front_face := true }

/-- The ray that `grey` scatters `axis_ray` into at `near_hit`: from the point
of the hit along the normal, back to where the ray came from. -/
def bounced_ray : Ray ℚ :=
  { origin := { x := 0, y := 0, z := -1 }, direction := { x := 0, y := 0, z := 1 } }

namespace threading

/-- A call made on the channel in a sequential history that uses all three
methods. -/
inductive Call (T : Type) where
  | try_emplace (v : T)
  | blocking_emplace (v : T)
  | try_pop
  deriving DecidableEq, Repr

/-- Performs one call and returns the channel after it. -/
def mpsc_queue.call {T : Type} (q : mpsc_queue T) : Call T → Except Fault (mpsc_queue T)
  | .try_emplace v =>
    match q.try_emplace v with
    | .error e => .error e
    | .ok (_, q1) => .ok q1
  | .blocking_emplace v => q.blocking_emplace v
  | .try_pop => .ok q.try_pop.2

/-- Performs a sequential history of calls. -/
def run_calls {T : Type} (q : mpsc_queue T) : List (Call T) → Except Fault (mpsc_queue T)
  | [] => .ok q
  | c :: calls =>
    match q.call c with
    | .error e => .error e
    | .ok q1 => run_calls q1 calls

/-- The history that fills a channel through `blocking_emplace`, pops one
value and calls `blocking_emplace` once more. -/
def overrun_calls {T : Type} (vs : List T) (v : T) : List (Call T) :=
  vs.map Call.blocking_emplace ++ [Call.try_pop, Call.blocking_emplace v]

end threading

/-- The local `i` of the thread body of `WorkerThread::launch`: the column of
the pixel with the given `index`. -/
def pixel_i (request : RenderRequest) (index : Nat) : Nat := index % request.width

/-- The local `j` of the thread body of `WorkerThread::launch`. -/
def pixel_j (request : RenderRequest) (index : Nat) : Nat :=
  (request.height + SIZE_MOD - index / request.width) % SIZE_MOD

/-- The local `u` of one sample of the pixel; `jitter` is what `next_double`
returned. -/
def sample_u {K : Type} [LinearOrderedField K] (request : RenderRequest) (index : Nat)
    (jitter : K) : K :=
  ((pixel_i request index : K) + jitter) / (((request.width + SIZE_MOD - 1) % SIZE_MOD : Nat) : K)

/-- The local `v` of one sample of the pixel; `jitter` is what `next_double`
returned. -/
def sample_v {K : Type} [LinearOrderedField K] (request : RenderRequest) (index : Nat)
    (jitter : K) : K :=
  ((pixel_j request index : K) + jitter) / (((request.height + SIZE_MOD - 1) % SIZE_MOD : Nat) : K)

/-- The local `uv_place` of `ray_at`: the point of the image plane the ray goes
through. -/
def uv_place {K : Type} [LinearOrderedField K] (u v viewport_width viewport_height : K) :
    vec3 K :=
  { x := (u - 0.5) * viewport_width, y := (v - 0.5) * viewport_height, z := -1.0 }

/-- The function `ray_at`. -/
def ray_at {K : Type} [LinearOrderedField K] (sqrt : K → K)
    (u v viewport_width viewport_height : K) : Ray K :=
  let uv_origin : vec3 K := { x := 0.0, y := 0.0, z := 0.0 }
  { origin := uv_origin
    direction := normalize sqrt (uv_place u v viewport_width viewport_height - uv_origin) }

/-- The squared length that `glm::normalize` takes the square root of in
`ray_at`. -/
def uv_length2 {K : Type} [LinearOrderedField K] (u v viewport_width viewport_height : K) : K :=
  dot (uv_place u v viewport_width viewport_height - { x := 0.0, y := 0.0, z := 0.0 })
    (uv_place u v viewport_width viewport_height - { x := 0.0, y := 0.0, z := 0.0 })

/-- The constant `std::numeric_limits<u64>::max ()`. -/
def U64_MAX : Nat := 2 ^ 64 - 1

/-- The function `utils::random::next_double`.  `next_u64` stands for
`s_distribution (engine)`: the number drawn and the engine after the draw. -/
def utils.random.next_double {K R : Type} [LinearOrderedField K] (next_u64 : R → Nat × R)
    (engine : R) : K × R :=
  (((next_u64 engine).1 : K) / (U64_MAX : K), (next_u64 engine).2)

/-- The function `utils::random::next_vec`; the three draws are made from left
to right. -/
def utils.random.next_vec {K R : Type} [LinearOrderedField K] (next_u64 : R → Nat × R)
    (engine : R) : vec3 K × R :=
  let a : K × R := utils.random.next_double next_u64 engine
  let b : K × R := utils.random.next_double next_u64 a.2
  let c : K × R := utils.random.next_double next_u64 b.2
  ({ x := a.1, y := b.1, z := c.1 }, c.2)

/-- The function `random_in_unit_sphere`: a loop that draws until the vector
drawn has squared length below 1.  `fuel` bounds the draws; whether the loop
ends is up to the engine. -/
def random_in_unit_sphere {K R : Type} [LinearOrderedField K] (next_u64 : R → Nat × R) :
    Nat → R → Except Fault (vec3 K × R)
  | 0, _ => .error Fault.out_of_fuel
  | fuel + 1, engine =>
    let p : vec3 K × R := utils.random.next_vec next_u64 engine
    if dot p.1 p.1 ≥ 1.0 then
      random_in_unit_sphere next_u64 fuel p.2
    else
      .ok p

/-- The function `random_in_hemisphere`. -/
def random_in_hemisphere {K R : Type} [LinearOrderedField K] (next_u64 : R → Nat × R)
    (fuel : Nat) (normal : vec3 K) (engine : R) : Except Fault (vec3 K × R) :=
  match random_in_unit_sphere next_u64 fuel engine with
  | .error e => .error e
  | .ok (p, engine1) => .ok (if dot normal p < 0.0 then -p else p, engine1)

/-- The function `glm::reflect`: `I - N * dot (N, I) * 2`. -/
def reflect {K : Type} [LinearOrderedField K] (I N : vec3 K) : vec3 K :=
  I - (2 : K) • (dot N I • N)

/-- The function `refract` of `renderer.cc`. -/
def refract {K : Type} [LinearOrderedField K] (v n : vec3 K) (refraction_ratio : K) : vec3 K :=
  let nndotv := dot (-v) n • n
  let s := nndotv + v
  let v_perp : vec3 K :=
    { x := s.x / refraction_ratio, y := s.y / refraction_ratio, z := s.z / refraction_ratio }
  let v_parallel := -nndotv
  v_perp + v_parallel

/-- The struct `lambertian`. -/
structure lambertian (K : Type) where
  albedo : vec3 K

/-- The method `lambertian::scatter`. -/
def lambertian.scatter {K R : Type} [LinearOrderedField K] (sqrt : K → K)
    (next_u64 : R → Nat × R) (fuel : Nat) (self : lambertian K) (_ray_direction : vec3 K)
    (record : Hit K) (rand : R) : Except Fault ((vec3 K × vec3 K) × R) :=
  match random_in_hemisphere next_u64 fuel record.normal rand with
  | .error e => .error e
  | .ok (p, rand1) => .ok ((self.albedo, normalize sqrt (record.normal + p)), rand1)

/-- The struct `metal`. -/
structure metal (K : Type) where
  albedo : vec3 K
  fuzz : K

/-- The constructor `metal (albedo, fuzz)`, which caps the fuzz at 1. -/
def metal.construct {K : Type} [LinearOrderedField K] (albedo : vec3 K) (fuzz : K) : metal K :=
  { albedo := albedo, fuzz := if fuzz < 1 then fuzz else 1 }

/-- The method `metal::scatter`. -/
def metal.scatter {K R : Type} [LinearOrderedField K] (sqrt : K → K)
    (next_u64 : R → Nat × R) (fuel : Nat) (self : metal K) (ray_direction : vec3 K)
    (record : Hit K) (rand : R) : Except Fault ((vec3 K × vec3 K) × R) :=
  match random_in_hemisphere next_u64 fuel record.normal rand with
  | .error e => .error e
  | .ok (p, rand1) =>
    let reflected := reflect ray_direction record.normal + self.fuzz • normalize sqrt p
    let attenuation := if dot reflected record.normal > 0 then self.albedo else vec3.splat 0.0
    .ok ((attenuation, reflected), rand1)

/-- The struct `dielectric`. -/
structure dielectric (K : Type) where
  refraction_index : K

/-- The static method `dielectric::reflectance`. -/
def dielectric.reflectance {K : Type} [LinearOrderedField K] (cosine refraction_index : K) : K :=
  let r0 := (1.0 - refraction_index) / (1.0 + refraction_index)
  let r0 := r0 * r0
  r0 + (1.0 - r0) * (1.0 - cosine) ^ 5

/-- The local `refraction_ratio` of `dielectric::scatter`. -/
def dielectric.refraction_ratio {K : Type} [LinearOrderedField K] (self : dielectric K)
    (record : Hit K) : K :=
  if record.front_face then 1.0 / self.refraction_index else self.refraction_index

/-- The method `dielectric::scatter`; the random number is only drawn where
`cannot_refract` is false. -/
def dielectric.scatter {K R : Type} [LinearOrderedField K] (sqrt : K → K)
    (next_u64 : R → Nat × R) (self : dielectric K) (ray_direction : vec3 K)
    (record : Hit K) (rand : R) : (vec3 K × vec3 K) × R :=
  let refraction_ratio := self.refraction_ratio record
  let cos_theta := min (dot (-ray_direction) record.normal) 1.0
  let sin_theta := sqrt |1.0 - cos_theta * cos_theta|
  let cannot_refract := sin_theta * refraction_ratio > 1.0
  let reflectance := dielectric.reflectance cos_theta self.refraction_index
  if cannot_refract then
    ((vec3.splat 1.0, reflect ray_direction record.normal), rand)
  else
    let draw : K × R := utils.random.next_double next_u64 rand
    if reflectance > draw.1 then
      ((vec3.splat 1.0, reflect ray_direction record.normal), draw.2)
    else
      ((vec3.splat 1.0, refract ray_direction record.normal refraction_ratio), draw.2)

/-- A random engine for examples: it hands out the numbers of a list, in
order, and 0 when the list is used up. -/
def list_engine (engine : List Nat) : Nat × List Nat := (engine.headD 0, engine.tail)

/-- A third of `U64_MAX`: the draw that `next_double` turns into 1/3. -/
def third_of_max : Nat := 6148914691236517205

/-- The lambertian material of the sphere in the renderer's world:
`color (0.1, 0.3, 0.5)`. -/
def sphere_mat : lambertian ℚ := { albedo := { x := 1 / 10, y := 3 / 10, z := 1 / 2 } }

/-- A hit on top of `unit_sphere`: the point `(0, 1, 0)` with the normal
`(0, 1, 0)`, reached after a distance of 5. -/
def top_hit : Hit ℚ :=
  { point := { x := 0, y := 1, z := 0 }
    normal := { x := 0, y := 1, z := 0 }
    selected_t := ((5 : ℚ) : WithTop ℚ)
    mat_index := 0
    front_face := true }

/-- The unit direction `(3/5, -4/5, 0)`, coming down on `top_hit`. -/
def slanted_direction : vec3 ℚ := { x := 3 / 5, y := -4 / 5, z := 0 }

end renderer


namespace renderer

namespace threading

theorem mod_lt_two (a c : Nat) (h : a < 2 * c) : a % c = if a < c then a else a - c := by
  split
  · exact Nat.mod_eq_of_lt (by assumption)
  · rw [Nat.mod_eq_sub_mod (by omega)]
    exact Nat.mod_eq_of_lt (by omega)

theorem size_mod_pos : 0 < SIZE_MOD := by decide

theorem wrap_succ (a c : Nat) (ha : a < c) (hc : c < SIZE_MOD) : (a + 1) % SIZE_MOD = a + 1 :=
  Nat.mod_eq_of_lt (by omega)

theorem wrap_pred (a : Nat) (ha : 0 < a) (hc : a < SIZE_MOD) :
    (a + (SIZE_MOD - 1)) % SIZE_MOD = a - 1 := by
  have h : a + (SIZE_MOD - 1) = (a - 1) + SIZE_MOD := by omega
  rw [h, Nat.add_mod_right]
  exact Nat.mod_eq_of_lt (by omega)

theorem queue_inv_construct {T : Type} (cap : Nat) (h1 : 1 ≤ cap) :
    queue_inv cap (mpsc_queue.construct cap : mpsc_queue T) [] where
  cap_eq := rfl
  len_eq := by simp [mpsc_queue.construct]
  read_lt := h1
  count_eq := rfl
  count_le := Nat.zero_le _
  write_eq := by simp [mpsc_queue.construct]
  slots := by intro k v h; simp at h

theorem try_emplace_full {T : Type} {cap : Nat} {q : mpsc_queue T} {pend : List T}
    (inv : queue_inv cap q pend) (hfull : pend.length = cap) (v : T) :
    q.try_emplace v = .ok (false, q) := by
  unfold mpsc_queue.try_emplace
  rw [if_pos]
  rw [inv.cap_eq, inv.count_eq, hfull]

theorem try_emplace_room {T : Type} {cap : Nat} {q : mpsc_queue T} {pend : List T}
    (inv : queue_inv cap q pend) (hroom : pend.length ≠ cap) (hc : cap < SIZE_MOD) (v : T) :
    ∃ q1, q.try_emplace v = .ok (true, q1) ∧ queue_inv cap q1 (pend ++ [v]) ∧
      q.write_handle < cap ∧ q1.deref q.write_handle = some v ∧
      q1.elem_count = q.elem_count + 1 := by
  have hlt : pend.length < cap := lt_of_le_of_ne inv.count_le hroom
  have hr := inv.read_lt
  have hw : q.write_handle < cap := by
    rw [inv.write_eq]; exact Nat.mod_lt _ (by omega)
  have hwv : q.write_handle = if q.read_handle + pend.length < cap
      then q.read_handle + pend.length else q.read_handle + pend.length - cap := by
    rw [inv.write_eq]; exact mod_lt_two _ _ (by omega)
  refine ⟨{ q with
            elem_count := (q.elem_count + 1) % SIZE_MOD
            buffer := q.buffer.set q.write_handle (some v)
            write_handle := (q.write_handle + 1) % SIZE_MOD % q.cap }, ?_, ?_, hw, ?_, ?_⟩
  · unfold mpsc_queue.try_emplace
    rw [if_neg (by rw [inv.cap_eq, inv.count_eq]; omega)]
    simp only []
    rw [if_pos (by rw [inv.cap_eq]; exact hw)]
  · refine ⟨inv.cap_eq, ?_, hr, ?_, ?_, ?_, ?_⟩
    · simp [inv.len_eq]
    · simp only [List.length_append, List.length_singleton]
      rw [inv.count_eq]; exact wrap_succ _ _ hlt hc
    · simp only [List.length_append, List.length_singleton]; omega
    · simp only [List.length_append, List.length_singleton]
      rw [wrap_succ _ _ hw hc, inv.cap_eq, mod_lt_two _ _ (by omega),
        mod_lt_two (q.read_handle + (pend.length + 1)) _ (by omega), hwv]
      split <;> split <;> split <;> omega
    · intro k x hk
      simp only [mpsc_queue.deref]
      rcases Nat.lt_or_ge k pend.length with hkl | hkl
      · have hne : q.write_handle ≠ (q.read_handle + k) % cap := by
          rw [hwv, mod_lt_two _ _ (by omega)]
          split <;> split <;> omega
        rw [List.getD_eq_getElem?_getD, List.getElem?_set_ne hne,
          ← List.getD_eq_getElem?_getD]
        apply inv.slots k x
        rw [List.get?_eq_getElem?] at hk ⊢
        rwa [List.getElem?_append_left hkl] at hk
      · have hk2 : k < (pend ++ [v]).length := by
          rw [List.get?_eq_getElem?] at hk
          exact (List.getElem?_eq_some_iff.mp hk).1
        simp only [List.length_append, List.length_singleton] at hk2
        have hke : k = pend.length := by omega
        subst hke
        rw [List.get?_eq_getElem?, List.getElem?_append_right (le_refl _)] at hk
        simp at hk
        subst hk
        rw [← inv.write_eq, List.getD_eq_getElem?_getD,
          List.getElem?_set_self (by rw [inv.len_eq]; exact hw)]
        rfl
  · simp only [mpsc_queue.deref]
    rw [List.getD_eq_getElem?_getD, List.getElem?_set_self (by rw [inv.len_eq]; exact hw)]
    rfl
  · show (q.elem_count + 1) % SIZE_MOD = q.elem_count + 1
    rw [inv.count_eq]; exact wrap_succ _ _ hlt hc

theorem try_pop_null {T : Type} {cap : Nat} {q : mpsc_queue T} {pend : List T}
    (inv : queue_inv cap q pend) (hp : pend = [] ∨ pend.length = cap) :
    q.try_pop = (none, q) := by
  have hr := inv.read_lt
  unfold mpsc_queue.try_pop
  simp only []
  rw [if_pos]
  rw [inv.write_eq]
  rcases hp with hp | hp
  · subst hp; simpa using Nat.mod_eq_of_lt hr
  · rw [hp, Nat.add_mod_right]; exact Nat.mod_eq_of_lt hr

theorem try_pop_value {T : Type} {cap : Nat} {q : mpsc_queue T} {pend : List T}
    (inv : queue_inv cap q pend) (hc : cap < SIZE_MOD) (h0 : pend ≠ [])
    (hfull : pend.length ≠ cap) :
    ∃ q1 v rest, q.try_pop = (some q.read_handle, q1) ∧ pend = v :: rest ∧
      q1.deref q.read_handle = some v ∧ queue_inv cap q1 rest := by
  have hr := inv.read_lt
  have hlt : pend.length < cap := lt_of_le_of_ne inv.count_le hfull
  obtain ⟨v, rest, rfl⟩ := List.exists_cons_of_ne_nil h0
  simp only [List.length_cons] at hlt
  have hwv : q.write_handle = if q.read_handle + (rest.length + 1) < cap
      then q.read_handle + (rest.length + 1) else q.read_handle + (rest.length + 1) - cap := by
    rw [inv.write_eq]; exact mod_lt_two _ _ (by simp only [List.length_cons]; omega)
  have hslot : q.deref q.read_handle = some v := by
    have := inv.slots 0 v rfl
    rwa [Nat.add_zero, Nat.mod_eq_of_lt hr] at this
  refine ⟨{ q with
            read_handle := (q.read_handle + 1) % SIZE_MOD % q.cap
            elem_count := (q.elem_count + (SIZE_MOD - 1)) % SIZE_MOD }, v, rest, ?_, rfl,
          hslot, ?_⟩
  · unfold mpsc_queue.try_pop
    simp only []
    rw [if_neg]
    rw [hwv]; split <;> omega
  · have hrd : (q.read_handle + 1) % SIZE_MOD % q.cap =
        if q.read_handle + 1 < cap then q.read_handle + 1 else q.read_handle + 1 - cap := by
      rw [wrap_succ _ _ hr hc, inv.cap_eq]; exact mod_lt_two _ _ (by omega)
    refine ⟨inv.cap_eq, inv.len_eq, ?_, ?_, by omega, ?_, ?_⟩
    · show (q.read_handle + 1) % SIZE_MOD % q.cap < cap
      rw [inv.cap_eq]; exact Nat.mod_lt _ (by omega)
    · show (q.elem_count + (SIZE_MOD - 1)) % SIZE_MOD = rest.length
      rw [inv.count_eq]
      simp only [List.length_cons]
      rw [wrap_pred _ (by omega) (by omega)]; omega
    · show q.write_handle = ((q.read_handle + 1) % SIZE_MOD % q.cap + rest.length) % cap
      rw [hrd, hwv, mod_lt_two _ _ (by split <;> omega)]
      split <;> split <;> split <;> omega
    · intro k x hk
      show q.deref (((q.read_handle + 1) % SIZE_MOD % q.cap + k) % cap) = some x
      have hkl : k < rest.length := by
        rw [List.get?_eq_getElem?] at hk
        exact (List.getElem?_eq_some_iff.mp hk).1
      have := inv.slots (k + 1) x (by simpa using hk)
      rw [mod_lt_two _ _ (by omega)] at this
      rw [hrd, mod_lt_two _ _ (by split <;> omega)]
      rw [← this]
      congr 1
      split <;> split <;> split <;> omega

theorem history_step_ok {T : Type} [DecidableEq T] {cap : Nat} (hc : cap < SIZE_MOD)
    {q : mpsc_queue T} {pend : List T} (inv : queue_inv cap q pend) (op : Op T) :
    ∃ s, history_step q op = .ok s ∧ s.op = op ∧ s.before = q ∧
      queue_inv cap s.after (undelivered_after pend s) := by
  cases op with
  | insert v =>
    by_cases hfull : pend.length = cap
    · refine ⟨{ op := .insert v, before := q, ret := .inserted false, after := q }, ?_, rfl,
        rfl, ?_⟩
      · simp only [history_step, try_emplace_full inv hfull v]
      · simpa [undelivered_after] using inv
    · obtain ⟨q1, h1, h2, -⟩ := try_emplace_room inv hfull hc v
      refine ⟨{ op := .insert v, before := q, ret := .inserted true, after := q1 }, ?_, rfl,
        rfl, ?_⟩
      · simp only [history_step, h1]
      · simpa [undelivered_after] using h2
  | pop =>
    by_cases hp : pend = [] ∨ pend.length = cap
    · refine ⟨{ op := .pop, before := q, ret := .popped none, after := q }, ?_, rfl, rfl, ?_⟩
      · simp only [history_step, try_pop_null inv hp]
      · simpa [undelivered_after] using inv
    · rw [not_or] at hp
      obtain ⟨q1, v, rest, h1, h2, h3, h4⟩ := try_pop_value inv hc hp.1 hp.2
      refine ⟨{ op := .pop, before := q, ret := .popped (some (q1.deref q.read_handle)),
                after := q1 }, ?_, rfl, rfl, ?_⟩
      · simp only [history_step, h1]
      · subst h2
        simpa [undelivered_after, h3] using h4

theorem run_history_ok {T : Type} [DecidableEq T] {cap : Nat} (hc : cap < SIZE_MOD)
    (ops : List (Op T)) :
    ∀ (q : mpsc_queue T) (pend : List T), queue_inv cap q pend →
      ∃ tr, run_history q ops = .ok tr ∧ tr.map (fun s => s.op) = ops ∧
        ∀ pre s post, tr = pre ++ s :: post →
          step_ok cap (pre.foldl undelivered_after pend) s := by
  induction ops with
  | nil =>
    intro q pend _
    refine ⟨[], rfl, rfl, ?_⟩
    intro pre s post h
    simp at h
  | cons op ops ih =>
    intro q pend inv
    obtain ⟨s, hs, hop, hbef, hinv⟩ := history_step_ok hc inv op
    obtain ⟨tr, htr, hmap, hall⟩ := ih s.after _ hinv
    refine ⟨s :: tr, ?_, ?_, ?_⟩
    · simp only [run_history, hs, htr]
    · simp [hop, hmap]
    · intro pre s1 post h
      cases pre with
      | nil =>
        simp only [List.nil_append, List.cons.injEq] at h
        obtain ⟨rfl, -⟩ := h
        refine ⟨?_, hinv, ?_⟩
        · rw [hbef]; exact inv
        · rw [hbef, hop]; exact hs
      | cons s0 pre1 =>
        simp only [List.cons_append, List.cons.injEq] at h
        obtain ⟨rfl, h⟩ := h
        exact hall pre1 s1 post h

theorem step_ok_pop {T : Type} [DecidableEq T] {cap : Nat} (hc : cap < SIZE_MOD)
    {pend : List T} {s : Step T} (h : step_ok cap pend s) (hop : s.op = Op.pop) :
    (pend = [] → s.ret = Ret.popped none) ∧
      (∀ x, s.ret = Ret.popped (some x) →
        ∃ v rest, pend = v :: rest ∧ x = some v ∧ undelivered_after pend s = rest) ∧
      (∀ v rest, pend = v :: rest → pend.length ≠ cap →
        s.ret = Ret.popped (some (some v)) ∧ undelivered_after pend s = rest) ∧
      (pend.length = cap → s.ret = Ret.popped none ∧ s.after = s.before) := by
  obtain ⟨inv, -, hstep⟩ := h
  rw [hop] at hstep
  simp only [history_step] at hstep
  by_cases hp : pend = [] ∨ pend.length = cap
  · rw [try_pop_null inv hp] at hstep
    have hret : Ret.popped none = s.ret := congrArg Step.ret (Except.ok.inj hstep)
    have haft : s.before = s.after := congrArg Step.after (Except.ok.inj hstep)
    refine ⟨fun _ => hret.symm, ?_, ?_, fun _ => ⟨hret.symm, haft.symm⟩⟩
    · intro x hx
      rw [← hret] at hx
      simp at hx
    · intro v rest hpend hne
      rcases hp with hp | hp
      · rw [hp] at hpend; cases hpend
      · exact absurd hp hne
  · rw [not_or] at hp
    obtain ⟨q1, v, rest, h1, h2, h3, -⟩ := try_pop_value inv hc hp.1 hp.2
    rw [h1] at hstep
    have hret : Ret.popped (some (q1.deref s.before.read_handle)) = s.ret :=
      congrArg Step.ret (Except.ok.inj hstep)
    rw [h3] at hret
    have hund : undelivered_after pend s = rest := by
      subst h2
      simp [undelivered_after, hop, ← hret]
    refine ⟨fun h0 => absurd h0 hp.1, ?_, ?_, fun hfull => absurd hfull hp.2⟩
    · intro x hx
      rw [← hret] at hx
      simp only [Ret.popped.injEq, Option.some.injEq] at hx
      exact ⟨v, rest, h2, hx.symm, hund⟩
    · intro v1 rest1 hpend _
      rw [h2] at hpend
      simp only [List.cons.injEq] at hpend
      obtain ⟨rfl, rfl⟩ := hpend
      exact ⟨hret.symm, hund⟩

theorem step_ok_insert {T : Type} [DecidableEq T] {cap : Nat} (hc : cap < SIZE_MOD)
    {pend : List T} {s : Step T} (h : step_ok cap pend s) {v : T} (hop : s.op = Op.insert v) :
    (s.ret = Ret.inserted false ∨ s.ret = Ret.inserted true) ∧
      s.before.elem_count = pend.length ∧
      (s.ret = Ret.inserted false ↔ pend.length = cap) ∧
      (s.ret = Ret.inserted false → s.after = s.before) ∧
      (s.ret = Ret.inserted true →
        s.before.write_handle < cap ∧ s.after.deref s.before.write_handle = some v ∧
        s.after.elem_count = s.before.elem_count + 1 ∧
        undelivered_after pend s = pend ++ [v]) := by
  obtain ⟨inv, -, hstep⟩ := h
  rw [hop] at hstep
  simp only [history_step] at hstep
  by_cases hfull : pend.length = cap
  · rw [try_emplace_full inv hfull v] at hstep
    have hs := Except.ok.inj hstep
    have hret : Ret.inserted false = s.ret := congrArg Step.ret hs
    have haft : s.before = s.after := congrArg Step.after hs
    refine ⟨Or.inl hret.symm, inv.count_eq, ⟨fun _ => hfull, fun _ => hret.symm⟩,
      fun _ => haft.symm, ?_⟩
    intro hx
    rw [← hret] at hx
    simp at hx
  · obtain ⟨q1, h1, -, h3, h4, h5⟩ := try_emplace_room inv hfull hc v
    rw [h1] at hstep
    have hs := Except.ok.inj hstep
    have hret : Ret.inserted true = s.ret := congrArg Step.ret hs
    have haft : q1 = s.after := congrArg Step.after hs
    refine ⟨Or.inr hret.symm, inv.count_eq, ⟨?_, fun hf => absurd hf hfull⟩, ?_, ?_⟩
    · intro hx
      rw [← hret] at hx
      simp at hx
    · intro hx
      rw [← hret] at hx
      simp at hx
    · intro _
      rw [← haft]
      refine ⟨h3, h4, h5, ?_⟩
      simp [undelivered_after, hop, ← hret]

/-- C7: on a fresh channel of capacity `cap >= 1`, every sequential history of
`try_emplace` and `try_pop` calls runs without fault, and every `try_pop` in
it does the following.  Made when no inserted value is undelivered it returns
`nullptr`.  Made when between 1 and `cap - 1` values are undelivered it returns
a pointer to the oldest of them, which then leaves the undelivered values.
Whenever it returns a pointer at all, the pointee is the oldest inserted value
not yet delivered.  (Made when `cap` values are undelivered it returns
`nullptr` and leaves the channel as it was: write and read cursor are equal
on a full channel.) -/
theorem try_pop_delivers_oldest_first {T : Type} [DecidableEq T] (cap : Nat) (h1 : 1 ≤ cap)
    (hc : cap < SIZE_MOD) (ops : List (Op T)) :
    ∃ tr, run_history (mpsc_queue.construct cap) ops = .ok tr ∧
      tr.map (fun s => s.op) = ops ∧
      ∀ pre s post, tr = pre ++ s :: post → s.op = Op.pop →
        history_step s.before Op.pop = .ok s ∧
        (undelivered pre = [] → s.ret = Ret.popped none) ∧
        (∀ x, s.ret = Ret.popped (some x) →
          ∃ v rest, undelivered pre = v :: rest ∧ x = some v ∧
            undelivered (pre ++ [s]) = rest) ∧
        (∀ v rest, undelivered pre = v :: rest → (undelivered pre).length ≠ cap →
          s.ret = Ret.popped (some (some v)) ∧ undelivered (pre ++ [s]) = rest) ∧
        ((undelivered pre).length = cap → s.ret = Ret.popped none ∧ s.after = s.before) := by
  obtain ⟨tr, htr, hmap, hall⟩ := run_history_ok hc ops _ [] (queue_inv_construct cap h1)
  refine ⟨tr, htr, hmap, ?_⟩
  intro pre s post hsplit hop
  have hstep := (hall pre s post hsplit).2.2
  rw [hop] at hstep
  have := step_ok_pop hc (hall pre s post hsplit) hop
  exact ⟨hstep, by simpa [undelivered, List.foldl_append] using this⟩

/-- C8: on a fresh channel of capacity `cap >= 1`, in every sequential history
of `try_emplace` and `try_pop` calls, `try_emplace` returns `false` exactly
when the number of inserted-but-undelivered values (which `elem_count` holds)
equals the capacity; returning `false` it leaves the channel as it was;
returning `true` it has stored the value in a slot of the buffer and both
`elem_count` and the undelivered values have grown by one. -/
theorem try_emplace_capacity_check {T : Type} [DecidableEq T] (cap : Nat) (h1 : 1 ≤ cap)
    (hc : cap < SIZE_MOD) (ops : List (Op T)) :
    ∃ tr, run_history (mpsc_queue.construct cap) ops = .ok tr ∧
      tr.map (fun s => s.op) = ops ∧
      ∀ pre s post v, tr = pre ++ s :: post → s.op = Op.insert v →
        (s.ret = Ret.inserted false ∨ s.ret = Ret.inserted true) ∧
        s.before.elem_count = (undelivered pre).length ∧
        (s.ret = Ret.inserted false ↔ (undelivered pre).length = cap) ∧
        (s.ret = Ret.inserted false → s.after = s.before) ∧
        (s.ret = Ret.inserted true →
          s.before.write_handle < cap ∧ s.after.deref s.before.write_handle = some v ∧
          s.after.elem_count = s.before.elem_count + 1 ∧
          undelivered (pre ++ [s]) = undelivered pre ++ [v]) := by
  obtain ⟨tr, htr, hmap, hall⟩ := run_history_ok hc ops _ [] (queue_inv_construct cap h1)
  refine ⟨tr, htr, hmap, ?_⟩
  intro pre s post v hsplit hop
  have := step_ok_insert hc (hall pre s post hsplit) hop
  simpa [undelivered, List.foldl_append] using this

/-- C7 at capacity 3: an insert, a pop that delivers it, two inserts, a pop
that delivers the older of the two, and a pop made when nothing was inserted
yet. -/
theorem try_pop_delivers_oldest_first_witness :
    (1 ≤ 3 ∧ 3 < SIZE_MOD) ∧
    (∃ tr, run_history (mpsc_queue.construct 3)
        [Op.pop, Op.insert 7, Op.pop, Op.insert 8, Op.insert 9, Op.pop] = .ok tr ∧
      tr.map (fun s => s.op) = [Op.pop, Op.insert 7, Op.pop, Op.insert 8, Op.insert 9, Op.pop] ∧
      ∀ pre s post, tr = pre ++ s :: post → s.op = Op.pop →
        history_step s.before Op.pop = .ok s ∧
        (undelivered pre = [] → s.ret = Ret.popped none) ∧
        (∀ x, s.ret = Ret.popped (some x) →
          ∃ v rest, undelivered pre = v :: rest ∧ x = some v ∧
            undelivered (pre ++ [s]) = rest) ∧
        (∀ v rest, undelivered pre = v :: rest → (undelivered pre).length ≠ 3 →
          s.ret = Ret.popped (some (some v)) ∧ undelivered (pre ++ [s]) = rest) ∧
        ((undelivered pre).length = 3 → s.ret = Ret.popped none ∧ s.after = s.before)) ∧
    returned (run_history (mpsc_queue.construct 3)
        [Op.pop, Op.insert 7, Op.pop, Op.insert 8, Op.insert 9, Op.pop])
      = .ok [Ret.popped none, Ret.inserted true, Ret.popped (some (some 7)),
          Ret.inserted true, Ret.inserted true, Ret.popped (some (some 8))] :=
  ⟨⟨by decide, by decide⟩,
    try_pop_delivers_oldest_first 3 (by decide) (by decide)
      [Op.pop, Op.insert 7, Op.pop, Op.insert 8, Op.insert 9, Op.pop],
    by decide⟩

/-- C8 at capacity 1: the second insert meets a full channel. -/
theorem try_emplace_capacity_check_witness :
    (1 ≤ 1 ∧ 1 < SIZE_MOD) ∧
    ∃ tr, run_history (mpsc_queue.construct 1) [Op.insert 7, Op.insert 8] = .ok tr ∧
      tr.map (fun s => s.op) = [Op.insert 7, Op.insert 8] ∧
      ∀ pre s post v, tr = pre ++ s :: post → s.op = Op.insert v →
        (s.ret = Ret.inserted false ∨ s.ret = Ret.inserted true) ∧
        s.before.elem_count = (undelivered pre).length ∧
        (s.ret = Ret.inserted false ↔ (undelivered pre).length = 1) ∧
        (s.ret = Ret.inserted false → s.after = s.before) ∧
        (s.ret = Ret.inserted true →
          s.before.write_handle < 1 ∧ s.after.deref s.before.write_handle = some v ∧
          s.after.elem_count = s.before.elem_count + 1 ∧
          undelivered (pre ++ [s]) = undelivered pre ++ [v]) :=
  ⟨⟨by decide, by decide⟩,
    try_emplace_capacity_check 1 (by decide) (by decide) [Op.insert 7, Op.insert 8]⟩

theorem succ_wrap_ne (x : Nat) : x ≠ (x + 1) % SIZE_MOD := by
  simp only [SIZE_MOD]
  omega

/-- C6: whenever the channel is not at capacity and the write cursor is inside
the buffer, `blocking_emplace` and an accepted `try_emplace` store the value in
the same slot but leave different channels: `blocking_emplace` does not
increment `elem_count` and does not reduce the write cursor modulo `cap`. -/
theorem blocking_emplace_differs_from_try_emplace {T : Type} (q : mpsc_queue T) (v : T)
    (hroom : q.cap ≠ q.elem_count) (hw : q.write_handle < q.cap) :
    ∃ qb qt, q.blocking_emplace v = .ok qb ∧ q.try_emplace v = .ok (true, qt) ∧
      qb.buffer = qt.buffer ∧
      qb.elem_count = q.elem_count ∧ qt.elem_count = (q.elem_count + 1) % SIZE_MOD ∧
      qb.write_handle = (q.write_handle + 1) % SIZE_MOD ∧
      qt.write_handle = (q.write_handle + 1) % SIZE_MOD % q.cap ∧
      qb ≠ qt := by
  refine ⟨{ q with
            write_handle := (q.write_handle + 1) % SIZE_MOD
            buffer := q.buffer.set q.write_handle (some v) },
          { q with
            elem_count := (q.elem_count + 1) % SIZE_MOD
            buffer := q.buffer.set q.write_handle (some v)
            write_handle := (q.write_handle + 1) % SIZE_MOD % q.cap },
          ?_, ?_, rfl, rfl, rfl, rfl, rfl, ?_⟩
  · unfold mpsc_queue.blocking_emplace
    rw [if_neg hroom]
    simp only []
    rw [if_pos hw]
  · unfold mpsc_queue.try_emplace
    rw [if_neg hroom]
    simp only []
    rw [if_pos hw]
  · intro h
    exact succ_wrap_ne q.elem_count (congrArg mpsc_queue.elem_count h)

/-- C6 on the fresh channel of capacity 12 and the result of worker 0. -/
theorem blocking_emplace_differs_from_try_emplace_witness :
    ((mpsc_queue.construct 12 : mpsc_queue RenderResult).cap ≠
        (mpsc_queue.construct 12 : mpsc_queue RenderResult).elem_count ∧
      (mpsc_queue.construct 12 : mpsc_queue RenderResult).write_handle <
        (mpsc_queue.construct 12 : mpsc_queue RenderResult).cap) ∧
    ∃ qb qt, (mpsc_queue.construct 12).blocking_emplace (RenderResult.mk 0) = .ok qb ∧
      (mpsc_queue.construct 12).try_emplace (RenderResult.mk 0) = .ok (true, qt) ∧
      qb.buffer = qt.buffer ∧
      qb.elem_count = 0 ∧ qt.elem_count = (0 + 1) % SIZE_MOD ∧
      qb.write_handle = (0 + 1) % SIZE_MOD ∧
      qt.write_handle = (0 + 1) % SIZE_MOD % 12 ∧
      qb ≠ qt :=
  ⟨⟨by decide, by decide⟩,
    blocking_emplace_differs_from_try_emplace (mpsc_queue.construct 12) (RenderResult.mk 0)
      (by decide) (by decide)⟩

theorem try_emplace_all_room {T : Type} {cap : Nat} (hc : cap < SIZE_MOD) (vs : List T) :
    ∀ (q : mpsc_queue T) (pend : List T), queue_inv cap q pend →
      pend.length + vs.length ≤ cap →
      ∃ q1, try_emplace_all q vs = .ok (List.replicate vs.length true, q1) ∧
        queue_inv cap q1 (pend ++ vs) := by
  induction vs with
  | nil =>
    intro q pend inv _
    exact ⟨q, rfl, by simpa using inv⟩
  | cons v vs ih =>
    intro q pend inv hlen
    simp only [List.length_cons] at hlen
    obtain ⟨q1, h1, h2, -⟩ := try_emplace_room inv (by omega) hc v
    obtain ⟨q2, h3, h4⟩ := ih q1 (pend ++ [v]) h2 (by simp; omega)
    refine ⟨q2, ?_, by simpa using h4⟩
    simp only [try_emplace_all, h1, h3, List.length_cons, List.replicate_succ]

theorem drain_null {T : Type} {q : mpsc_queue T} (h : q.try_pop = (none, q)) (fuel : Nat) :
    drain fuel q = ([], q) := by
  cases fuel with
  | zero => rfl
  | succ n => simp only [drain, h]

theorem blocking_emplace_all_room {T : Type} (vs : List T) :
    ∀ (q : mpsc_queue T), q.cap ≠ q.elem_count → q.write_handle + vs.length ≤ q.cap →
      q.cap < SIZE_MOD →
      ∃ q1, blocking_emplace_all q vs = .ok q1 ∧ q1.cap = q.cap ∧
        q1.read_handle = q.read_handle ∧ q1.write_handle = q.write_handle + vs.length := by
  induction vs with
  | nil =>
    intro q _ _ _
    exact ⟨q, rfl, rfl, rfl, rfl⟩
  | cons v vs ih =>
    intro q hroom hlen hc
    simp only [List.length_cons] at hlen
    have hstep : q.blocking_emplace v = .ok { q with
        write_handle := (q.write_handle + 1) % SIZE_MOD
        buffer := q.buffer.set q.write_handle (some v) } := by
      unfold mpsc_queue.blocking_emplace
      rw [if_neg hroom]
      simp only []
      rw [if_pos (by omega)]
    have hw : (q.write_handle + 1) % SIZE_MOD = q.write_handle + 1 :=
      Nat.mod_eq_of_lt (by omega)
    obtain ⟨q1, h1, h2, h3, h4⟩ := ih { q with
        write_handle := (q.write_handle + 1) % SIZE_MOD
        buffer := q.buffer.set q.write_handle (some v) } hroom
      (by show (q.write_handle + 1) % SIZE_MOD + _ ≤ q.cap; omega) hc
    refine ⟨q1, ?_, h2, h3, ?_⟩
    · simp only [blocking_emplace_all, hstep, h1]
    · rw [h4]; show (q.write_handle + 1) % SIZE_MOD + _ = _
      rw [hw, List.length_cons]; omega

theorem drain_never_null {T : Type} (fuel : Nat) :
    ∀ (q : mpsc_queue T), 1 ≤ q.cap → q.write_handle = q.cap → q.read_handle < q.cap →
      (drain fuel q).1.length = fuel := by
  induction fuel with
  | zero => intro q _ _ _; rfl
  | succ n ih =>
    intro q h1 hw hr
    have hpop : q.try_pop = (some q.read_handle, { q with
        read_handle := (q.read_handle + 1) % SIZE_MOD % q.cap
        elem_count := (q.elem_count + (SIZE_MOD - 1)) % SIZE_MOD }) := by
      unfold mpsc_queue.try_pop
      simp only []
      rw [if_neg (by omega)]
    simp only [drain, hpop, List.length_cons]
    rw [ih _ (by exact h1) (by exact hw) (by exact Nat.mod_lt _ (by omega))]

/-- C2: on a fresh channel of capacity `N >= 1`, after `N` inserts that all
succeed, draining does not yield `N` results.  Inserted with `try_emplace`,
the first `try_pop` already returns `nullptr` (write and read cursor are equal
on a full channel), so the drain yields nothing; inserted with
`blocking_emplace`, `try_pop` never returns `nullptr` (the write cursor stays
at `N`, which the read cursor never reaches), so the drain does not end. -/
theorem drain_after_capacity_inserts {T : Type} (N : Nat) (h1 : 1 ≤ N) (hc : N < SIZE_MOD)
    (vs : List T) (hlen : vs.length = N) :
    (∃ q, try_emplace_all (mpsc_queue.construct N) vs = .ok (List.replicate N true, q) ∧
        ∀ fuel, drain fuel q = ([], q)) ∧
      (∃ q, blocking_emplace_all (mpsc_queue.construct N) vs = .ok q ∧
        ∀ fuel, (drain fuel q).1.length = fuel) := by
  constructor
  · obtain ⟨q, h2, h3⟩ := try_emplace_all_room hc vs _ [] (queue_inv_construct N h1)
      (by simp [hlen])
    rw [hlen] at h2
    refine ⟨q, h2, drain_null (try_pop_null h3 (Or.inr ?_))⟩
    simpa using hlen
  · obtain ⟨q, h2, h3, h4, h5⟩ := blocking_emplace_all_room vs
      (mpsc_queue.construct N : mpsc_queue T)
      (by show N ≠ 0; omega) (by show 0 + _ ≤ N; omega) (by exact hc)
    refine ⟨q, h2, fun fuel => drain_never_null fuel q ?_ ?_ ?_⟩
    · rw [h3]; exact h1
    · rw [h5, h3, hlen]; show 0 + N = N; omega
    · rw [h4, h3]; exact h1

/-- C2 with the twelve workers of the renderer as producers. -/
theorem drain_after_capacity_inserts_witness :
    (1 ≤ 12 ∧ 12 < SIZE_MOD ∧ ((List.range 12).map RenderResult.mk).length = 12) ∧
    ((∃ q, try_emplace_all (mpsc_queue.construct 12) ((List.range 12).map RenderResult.mk)
          = .ok (List.replicate 12 true, q) ∧
        ∀ fuel, drain fuel q = ([], q)) ∧
      (∃ q, blocking_emplace_all (mpsc_queue.construct 12)
          ((List.range 12).map RenderResult.mk) = .ok q ∧
        ∀ fuel, (drain fuel q).1.length = fuel)) :=
  ⟨⟨by decide, by decide, by decide⟩,
    drain_after_capacity_inserts 12 (by decide) (by decide)
      ((List.range 12).map RenderResult.mk) (by decide)⟩

end threading

theorem stores_append (a b : List Event) : stores (a ++ b) = stores a ++ stores b := by
  induction a with
  | nil => rfl
  | cons e a ih => cases e <;> simp [stores, ih]

theorem emplaced_append (a b : List Event) : emplaced (a ++ b) = emplaced a ++ emplaced b := by
  induction a with
  | nil => rfl
  | cons e a ih => cases e <;> simp [emplaced, ih]

theorem stores_map_store (f : Nat → Nat) (l : List Nat) :
    stores (l.map fun c => Event.store c (f c)) = l := by
  induction l with
  | nil => rfl
  | cons c l ih => simp only [List.map_cons, stores, ih]

theorem emplaced_map_store (f : Nat → Nat) (l : List Nat) :
    emplaced (l.map fun c => Event.store c (f c)) = [] := by
  induction l with
  | nil => rfl
  | cons c l ih => simp only [List.map_cons, emplaced, ih]

theorem stores_render_block (shade : Nat → Nat → vec3 ℚ) (request : RenderRequest) (bs : Nat) :
    stores (render_block shade request bs) =
      List.range' bs (min (bs + BLOCK_SIZE) request.end_ - bs) := by
  unfold render_block
  exact stores_map_store _ _

theorem emplaced_render_block (shade : Nat → Nat → vec3 ℚ) (request : RenderRequest) (bs : Nat) :
    emplaced (render_block shade request bs) = [] := by
  unfold render_block
  exact emplaced_map_store _ _

theorem mem_stores_render_block (shade : Nat → Nat → vec3 ℚ) (request : RenderRequest)
    (bs p : Nat) :
    p ∈ stores (render_block shade request bs) ↔ bs ≤ p ∧ p < bs + 16 ∧ p < request.end_ := by
  rw [stores_render_block, List.mem_range'_1]
  simp only [BLOCK_SIZE]
  omega

/-- The thread body with the flag read as clear after every block: all the
blocks in turn, then the one `blocking_emplace`. -/
theorem worker_loop_completes (shade : Nat → Nat → vec3 ℚ) (request : RenderRequest) (id : Nat)
    (observe : Nat → Bool) (fuel : Nat) :
    ∀ k bs, (bs < request.end_ → request.width ≠ 0) →
      (∀ m, bs + m * 192 < request.end_ → observe (k + m) = false) →
      request.end_ - bs + 1 ≤ fuel →
      ∃ evs, worker_loop shade request id observe fuel k bs
            = .ok (evs ++ [Event.emplace { worker_id := id }]) ∧
        emplaced evs = [] ∧
        (∀ p, p ∈ stores evs ↔
          p < request.end_ ∧ ∃ m j, j < 16 ∧ p = bs + m * 192 + j) ∧
        (stores evs).Pairwise (fun a b => a < b) := by
  induction fuel with
  | zero => intro k bs _ _ h; omega
  | succ n ih =>
    intro k bs hw hobs hfuel
    by_cases hlt : bs < request.end_
    · have hit : worker_iteration shade request id (observe k) bs =
          .ok (render_block shade request bs, some (bs + 192)) := by
        unfold worker_iteration
        rw [if_pos hlt, if_neg (hw hlt)]
        have := hobs 0 (by simpa using hlt)
        rw [Nat.add_zero] at this
        rw [this]
        rfl
      obtain ⟨evs, h1, h2, h3, h4⟩ := ih (k + 1) (bs + 192)
        (fun h => hw (by omega))
        (fun m hm => by
          have := hobs (m + 1) (by omega)
          rwa [show k + (m + 1) = k + 1 + m by omega] at this)
        (by omega)
      refine ⟨render_block shade request bs ++ evs, ?_, ?_, ?_, ?_⟩
      · simp only [worker_loop, hit, h1, List.append_assoc]
      · rw [emplaced_append, emplaced_render_block, h2]; rfl
      · intro p
        rw [stores_append, List.mem_append, mem_stores_render_block, h3]
        constructor
        · rintro (⟨ha, hb, hc⟩ | ⟨ha, m, j, hj, hp⟩)
          · exact ⟨hc, 0, p - bs, by omega, by omega⟩
          · exact ⟨ha, m + 1, j, hj, by omega⟩
        · rintro ⟨ha, m, j, hj, hp⟩
          rcases Nat.eq_zero_or_pos m with hm | hm
          · left; subst hm; omega
          · right; exact ⟨ha, m - 1, j, hj, by omega⟩
      · rw [stores_append, List.pairwise_append]
        refine ⟨?_, h4, ?_⟩
        · rw [stores_render_block]; exact List.pairwise_lt_range' _ _
        · intro a ha b hb
          rw [mem_stores_render_block] at ha
          rw [h3] at hb
          obtain ⟨-, m, j, -, hb⟩ := hb
          omega
    · have hit : worker_iteration shade request id (observe k) bs =
          .ok ([Event.emplace { worker_id := id }], none) := by
        unfold worker_iteration
        rw [if_neg hlt]
      refine ⟨[], ?_, rfl, ?_, List.Pairwise.nil⟩
      · simp only [worker_loop, hit, List.nil_append]
      · intro p
        simp only [stores, List.not_mem_nil, false_iff, not_and, not_exists]
        intro hp m j _
        omega

/-- The thread body with the flag read as set after block `n` and as clear
before: the blocks up to block `n`, and no `blocking_emplace`. -/
theorem worker_loop_cancelled (shade : Nat → Nat → vec3 ℚ) (request : RenderRequest) (id : Nat)
    (observe : Nat → Bool) (hw : request.width ≠ 0) (n : Nat) :
    ∀ fuel k bs, bs + n * 192 < request.end_ →
      (∀ m, m < n → observe (k + m) = false) → observe (k + n) = true →
      n + 1 ≤ fuel →
      ∃ evs, worker_loop shade request id observe fuel k bs = .ok evs ∧
        emplaced evs = [] ∧
        (∀ p, p ∈ stores evs ↔
          p < request.end_ ∧ ∃ m j, m ≤ n ∧ j < 16 ∧ p = bs + m * 192 + j) := by
  induction n with
  | zero =>
    intro fuel k bs hlt _ htrue hfuel
    obtain ⟨f, rfl⟩ : ∃ f, fuel = f + 1 := ⟨fuel - 1, by omega⟩
    have hit : worker_iteration shade request id (observe k) bs =
        .ok (render_block shade request bs, none) := by
      unfold worker_iteration
      rw [if_pos (by omega), if_neg hw]
      rw [Nat.add_zero] at htrue
      rw [htrue]
      rfl
    refine ⟨render_block shade request bs, ?_, emplaced_render_block _ _ _, ?_⟩
    · simp only [worker_loop, hit]
    · intro p
      rw [mem_stores_render_block]
      constructor
      · rintro ⟨ha, hb, hc⟩
        exact ⟨hc, 0, p - bs, le_refl _, by omega, by omega⟩
      · rintro ⟨ha, m, j, hm, hj, hp⟩
        omega
  | succ n ih =>
    intro fuel k bs hlt hfalse htrue hfuel
    obtain ⟨f, rfl⟩ : ∃ f, fuel = f + 1 := ⟨fuel - 1, by omega⟩
    have hit : worker_iteration shade request id (observe k) bs =
        .ok (render_block shade request bs, some (bs + 192)) := by
      unfold worker_iteration
      rw [if_pos (by omega), if_neg hw]
      have := hfalse 0 (by omega)
      rw [Nat.add_zero] at this
      rw [this]
      rfl
    obtain ⟨evs, h1, h2, h3⟩ := ih f (k + 1) (bs + 192) (by omega)
      (fun m hm => by
        have := hfalse (m + 1) (by omega)
        rwa [show k + (m + 1) = k + 1 + m by omega] at this)
      (by rwa [show k + 1 + n = k + (n + 1) by omega]) (by omega)
    refine ⟨render_block shade request bs ++ evs, ?_, ?_, ?_⟩
    · simp only [worker_loop, hit, h1]
    · rw [emplaced_append, emplaced_render_block, h2]; rfl
    · intro p
      rw [stores_append, List.mem_append, mem_stores_render_block, h3]
      constructor
      · rintro (⟨ha, hb, hc⟩ | ⟨ha, m, j, hm, hj, hp⟩)
        · exact ⟨hc, 0, p - bs, by omega, by omega, by omega⟩
        · exact ⟨ha, m + 1, j, by omega, hj, by omega⟩
      · rintro ⟨ha, m, j, hm, hj, hp⟩
        rcases Nat.eq_zero_or_pos m with hm0 | hm0
        · left; subst hm0; omega
        · right; exact ⟨ha, m - 1, j, by omega, hj, by omega⟩

/-- C4: the thread body of `WorkerThread::launch` on any request (with a
non-zero width when it has a pixel to render), for any flag observations.
Read as clear after every block, it stores to exactly the pixels of its range
and then calls `blocking_emplace` once, with its own id, as its last action.
Read as set after block `n` (and clear before), it stores to exactly the
pixels of the blocks up to `n` and calls `blocking_emplace` never.  With an
empty range its only action is the one `blocking_emplace`. -/
theorem worker_completion_versus_cancellation (shade : Nat → Nat → vec3 ℚ)
    (request : RenderRequest) (id : Nat) (observe : Nat → Bool)
    (hw : request.start < request.end_ → request.width ≠ 0) :
    ((∀ k, request.start + k * 192 < request.end_ → observe k = false) →
        ∃ evs, worker_body shade request id observe
              = .ok (evs ++ [Event.emplace { worker_id := id }]) ∧
          emplaced evs = [] ∧
          ∀ p, p ∈ stores evs ↔
            p < request.end_ ∧ ∃ m j, j < 16 ∧ p = request.start + m * 192 + j) ∧
      (∀ n, request.start + n * 192 < request.end_ →
        (∀ k, k < n → observe k = false) → observe n = true →
        ∃ evs, worker_body shade request id observe = .ok evs ∧
          emplaced evs = [] ∧
          ∀ p, p ∈ stores evs ↔
            p < request.end_ ∧ ∃ m j, m ≤ n ∧ j < 16 ∧ p = request.start + m * 192 + j) ∧
      (request.end_ ≤ request.start →
        worker_body shade request id observe = .ok [Event.emplace { worker_id := id }]) := by
  refine ⟨?_, ?_, ?_⟩
  · intro hobs
    obtain ⟨evs, h1, h2, h3, -⟩ := worker_loop_completes shade request id observe
      (request.end_ - request.start + 1) 0 request.start hw
      (fun m hm => by simpa using hobs m hm) (le_refl _)
    exact ⟨evs, h1, h2, h3⟩
  · intro n hn hfalse htrue
    exact worker_loop_cancelled shade request id observe (hw (by omega)) n
      (request.end_ - request.start + 1) 0 request.start hn
      (fun m hm => by simpa using hfalse m hm) (by simpa using htrue) (by omega)
  · intro hempty
    unfold worker_body
    have hit : worker_iteration shade request id (observe 0) request.start =
        .ok ([Event.emplace { worker_id := id }], none) := by
      unfold worker_iteration
      rw [if_neg (by omega)]
    simp only [worker_loop, hit]

/-- C4 for worker 3 of a 40 x 10 image, the flag read as set after its
second block. -/
theorem worker_completion_versus_cancellation_witness :
    ((request_for 40 10 3).start < (request_for 40 10 3).end_ →
        (request_for 40 10 3).width ≠ 0) ∧
    (((∀ k, (request_for 40 10 3).start + k * 192 < (request_for 40 10 3).end_ →
          (fun n => decide (n = 1)) k = false) →
        ∃ evs, worker_body (fun _ _ => vec3.mk 0 0 0) (request_for 40 10 3) 3
              (fun n => decide (n = 1))
              = .ok (evs ++ [Event.emplace { worker_id := 3 }]) ∧
          emplaced evs = [] ∧
          ∀ p, p ∈ stores evs ↔
            p < (request_for 40 10 3).end_ ∧
              ∃ m j, j < 16 ∧ p = (request_for 40 10 3).start + m * 192 + j) ∧
      (∀ n, (request_for 40 10 3).start + n * 192 < (request_for 40 10 3).end_ →
        (∀ k, k < n → (fun n => decide (n = 1)) k = false) →
        (fun n => decide (n = 1)) n = true →
        ∃ evs, worker_body (fun _ _ => vec3.mk 0 0 0) (request_for 40 10 3) 3
              (fun n => decide (n = 1)) = .ok evs ∧
          emplaced evs = [] ∧
          ∀ p, p ∈ stores evs ↔
            p < (request_for 40 10 3).end_ ∧
              ∃ m j, m ≤ n ∧ j < 16 ∧ p = (request_for 40 10 3).start + m * 192 + j) ∧
      ((request_for 40 10 3).end_ ≤ (request_for 40 10 3).start →
        worker_body (fun _ _ => vec3.mk 0 0 0) (request_for 40 10 3) 3
            (fun n => decide (n = 1))
          = .ok [Event.emplace { worker_id := 3 }])) :=
  ⟨fun _ => by decide,
    worker_completion_versus_cancellation (fun _ _ => vec3.mk 0 0 0) (request_for 40 10 3) 3
      (fun n => decide (n = 1)) (fun _ => by decide)⟩

theorem request_for_width (width height i : Nat)
    (h : (request_for width height i).start < (request_for width height i).end_) :
    (request_for width height i).width ≠ 0 := by
  intro h0
  have h0 : width = 0 := h0
  subst h0
  simp [request_for] at h

theorem worker_body_launched (shade : Nat → Nat → vec3 ℚ) (width height i : Nat) :
    ∃ evs, worker_body shade (request_for width height i) i (fun _ => false)
          = .ok (evs ++ [Event.emplace { worker_id := i }]) ∧
      emplaced evs = [] ∧
      (∀ p, p ∈ stores evs ↔
        p < (width * height) % SIZE_MOD ∧ ∃ m j, j < 16 ∧ p = i * 16 + m * 192 + j) ∧
      (stores evs).Pairwise (fun a b => a < b) :=
  worker_loop_completes shade (request_for width height i) i (fun _ => false) _ 0 (i * 16)
    (request_for_width width height i) (fun _ _ => rfl) (le_refl _)

theorem worker_writes_eq (shade : Nat → Nat → vec3 ℚ) (width height i : Nat) :
    (∀ p, p ∈ worker_writes shade width height i ↔
        p < (width * height) % SIZE_MOD ∧ ∃ m j, j < 16 ∧ p = i * 16 + m * 192 + j) ∧
      (worker_writes shade width height i).Pairwise (fun a b => a < b) := by
  obtain ⟨evs, h1, -, h3, h4⟩ := worker_body_launched shade width height i
  have hs : worker_writes shade width height i = stores evs := by
    unfold worker_writes
    rw [h1]
    show stores (evs ++ [Event.emplace { worker_id := i }]) = stores evs
    rw [stores_append]
    simp [stores]
  rw [hs]
  exact ⟨h3, h4⟩

/-- C1: after `on_resize (width, height)`, with the twelve workers running to
completion, worker `i` returns without fault and stores, each once and in
increasing order, to exactly the positions `i * 16 + k * 192 + j` (`j < 16`)
below the buffer length `width * height` (the `size_t` product); distinct
workers store to disjoint positions; every position below the buffer length is
stored to by some worker; no worker stores at or beyond the buffer length. -/
theorem work_partition (shade : Nat → Nat → vec3 ℚ) (width height : Nat) :
    (∀ i, i < NUM_THREADS →
        ∃ evs, worker_body shade (request_for width height i) i (fun _ => false) = .ok evs) ∧
      (∀ i, i < NUM_THREADS → ∀ p, p ∈ worker_writes shade width height i ↔
        p < (width * height) % SIZE_MOD ∧ ∃ k j, j < 16 ∧ p = i * 16 + k * 192 + j) ∧
      (∀ i, i < NUM_THREADS →
        (worker_writes shade width height i).Pairwise (fun a b => a < b)) ∧
      (∀ i i2, i < NUM_THREADS → i2 < NUM_THREADS → i ≠ i2 →
        ∀ p, p ∈ worker_writes shade width height i →
          ¬ p ∈ worker_writes shade width height i2) ∧
      (∀ p, p < (width * height) % SIZE_MOD →
        ∃ i, i < NUM_THREADS ∧ p ∈ worker_writes shade width height i ∧
          ∀ i2, i2 < NUM_THREADS → p ∈ worker_writes shade width height i2 → i2 = i) ∧
      (∀ i, i < NUM_THREADS → ∀ p, p ∈ worker_writes shade width height i →
        p < (width * height) % SIZE_MOD) := by
  simp only [NUM_THREADS]
  refine ⟨?_, ?_, ?_, ?_, ?_, ?_⟩
  · intro i _
    obtain ⟨evs, h1, -⟩ := worker_body_launched shade width height i
    exact ⟨_, h1⟩
  · intro i _
    exact (worker_writes_eq shade width height i).1
  · intro i _
    exact (worker_writes_eq shade width height i).2
  · intro i i2 hi hi2 hne p hp hp2
    rw [(worker_writes_eq shade width height i).1] at hp
    rw [(worker_writes_eq shade width height i2).1] at hp2
    obtain ⟨-, m, j, hj, h1⟩ := hp
    obtain ⟨-, m2, j2, hj2, h2⟩ := hp2
    omega
  · intro p hp
    refine ⟨p / 16 % 12, Nat.mod_lt _ (by decide), ?_, ?_⟩
    · rw [(worker_writes_eq shade width height _).1]
      exact ⟨hp, p / 192, p % 16, Nat.mod_lt _ (by decide), by omega⟩
    · intro i2 hi2 hp2
      rw [(worker_writes_eq shade width height i2).1] at hp2
      obtain ⟨-, m2, j2, hj2, h2⟩ := hp2
      omega
  · intro i _ p hp
    rw [(worker_writes_eq shade width height i).1] at hp
    exact hp.1

theorem make_channel_integer_lt {K : Type} [LinearOrderedField K] [FloorRing K] (ch : K) :
    make_channel_integer ch < 256 :=
  Nat.mod_lt _ (by decide)

theorem pack_abgr (r g b : Nat) (hr : r < 256) (hg : g < 256) (hb : b < 256) :
    ((0xff <<< 24) ||| (b <<< 16) ||| (g <<< 8) ||| r) % 2 ^ 32
      = 0xff000000 + b * 65536 + g * 256 + r := by
  have e1 : (0xff <<< 24) ||| (b <<< 16) = 2 ^ 24 * 255 + b * 65536 := by
    rw [Nat.shiftLeft_eq, Nat.shiftLeft_eq, show 255 * 2 ^ 24 = 2 ^ 24 * 255 by decide]
    rw [← Nat.mul_add_lt_is_or (by omega)]
  have e2 : (2 ^ 24 * 255 + b * 65536) ||| (g <<< 8) = 2 ^ 16 * (65280 + b) + g * 256 := by
    rw [Nat.shiftLeft_eq, show 2 ^ 24 * 255 + b * 65536 = 2 ^ 16 * (65280 + b) by omega]
    rw [← Nat.mul_add_lt_is_or (by omega)]
  have e3 : (2 ^ 16 * (65280 + b) + g * 256) ||| r
      = 2 ^ 8 * (256 * (65280 + b) + g) + r := by
    rw [show 2 ^ 16 * (65280 + b) + g * 256 = 2 ^ 8 * (256 * (65280 + b) + g) by omega]
    rw [← Nat.mul_add_lt_is_or (by omega)]
  rw [e1, e2, e3]
  omega

theorem to_abgr_eq {K : Type} [LinearOrderedField K] [FloorRing K] (color : vec3 K) :
    to_abgr color = 0xff000000 + make_channel_integer color.b * 65536
      + make_channel_integer color.g * 256 + make_channel_integer color.r :=
  pack_abgr _ _ _ (make_channel_integer_lt _) (make_channel_integer_lt _)
    (make_channel_integer_lt _)

theorem alpha_byte_to_abgr (color : vec3 ℚ) : alpha_byte (to_abgr color) = 255 := by
  have hr := make_channel_integer_lt color.r
  have hg := make_channel_integer_lt color.g
  have hb := make_channel_integer_lt color.b
  have h : to_abgr color >>> 24 = 255 := by
    rw [to_abgr_eq, Nat.shiftRight_eq_div_pow]
    omega
  unfold alpha_byte
  rw [h]
  decide

/-- How a list of workers relates to an earlier one: same length, same ids,
and every handle is either the earlier one or empty. -/
theorem drop_thread_threads (shade : Nat → Nat → vec3 ℚ) {s s1 : MainRenderThread} {i : Nat}
    (h : drop_thread shade s i = .ok s1) :
    s1.threads.length = s.threads.length ∧ s1.cancel_signal = s.cancel_signal ∧
      s1.jobs_left = s.jobs_left ∧
      ∀ j w1, s1.threads[j]? = some w1 →
        ∃ w, s.threads[j]? = some w ∧ w1.worker_id = w.worker_id ∧
          (w1.handle = w.handle ∨ w1.handle = none) ∧ (j = i → w1.handle = none) := by
  unfold drop_thread at h
  cases hget : s.threads[i]? with
  | none => rw [hget] at h; simp at h
  | some w =>
    rw [hget] at h
    cases hh : w.handle with
    | none =>
      simp only [hh] at h
      obtain rfl := Except.ok.inj h
      refine ⟨rfl, rfl, rfl, ?_⟩
      intro j w1 hj
      refine ⟨w1, hj, rfl, Or.inl rfl, ?_⟩
      rintro rfl
      rw [hget] at hj
      obtain rfl := Option.some.inj hj
      exact hh
    | some t =>
      simp only [hh] at h
      split at h
      · simp at h
      · obtain rfl := Except.ok.inj h
        refine ⟨by simp, rfl, rfl, ?_⟩
        intro j w1 hj
        simp only [List.getElem?_set] at hj
        split at hj
        · split at hj
          · obtain rfl := Option.some.inj hj
            subst_vars
            exact ⟨w, hget, rfl, Or.inr rfl, fun _ => rfl⟩
          · simp at hj
        · exact ⟨w1, hj, rfl, Or.inl rfl, fun hji => absurd hji.symm (by assumption)⟩

theorem drop_threads_threads (shade : Nat → Nat → vec3 ℚ) (l : List Nat) :
    ∀ {s s1 : MainRenderThread}, drop_threads shade s l = .ok s1 →
      s1.threads.length = s.threads.length ∧ s1.cancel_signal = s.cancel_signal ∧
        s1.jobs_left = s.jobs_left ∧
        ∀ j w1, s1.threads[j]? = some w1 →
          ∃ w, s.threads[j]? = some w ∧ w1.worker_id = w.worker_id ∧
            (w1.handle = w.handle ∨ w1.handle = none) ∧ (j ∈ l → w1.handle = none) := by
  induction l with
  | nil =>
    intro s s1 h
    obtain rfl := Except.ok.inj h
    refine ⟨rfl, rfl, rfl, ?_⟩
    intro j w1 hj
    exact ⟨w1, hj, rfl, Or.inl rfl, fun hm => absurd hm (List.not_mem_nil _)⟩
  | cons i l ih =>
    intro s s1 h
    simp only [drop_threads] at h
    cases hd : drop_thread shade s i with
    | error e => rw [hd] at h; simp at h
    | ok s0 =>
      rw [hd] at h
      obtain ⟨a1, a2, a3, a4⟩ := drop_thread_threads shade hd
      obtain ⟨b1, b2, b3, b4⟩ := ih h
      refine ⟨b1.trans a1, b2.trans a2, b3.trans a3, ?_⟩
      intro j w1 hj
      obtain ⟨w0, c1, c2, c3, c4⟩ := b4 j w1 hj
      obtain ⟨w, d1, d2, d3, d4⟩ := a4 j w0 c1
      refine ⟨w, d1, c2.trans d2, ?_, ?_⟩
      · rcases c3 with c3 | c3
        · rcases d3 with d3 | d3
          · exact Or.inl (c3.trans d3)
          · exact Or.inr (c3.trans d3)
        · exact Or.inr c3
      · intro hm
        rcases List.mem_cons.mp hm with rfl | hm
        · rcases c3 with c3 | c3
          · exact c3.trans (d4 rfl)
          · exact c3
        · exact c4 hm

theorem stop_pipeline_threads (shade : Nat → Nat → vec3 ℚ) {s s1 : MainRenderThread}
    (h : stop_pipeline shade s = .ok s1) :
    s1.threads.length = s.threads.length ∧ s1.cancel_signal = false ∧
      s1.jobs_left = s.jobs_left ∧
      ∀ j w1, s1.threads[j]? = some w1 →
        ∃ w, s.threads[j]? = some w ∧ w1.worker_id = w.worker_id ∧
          (w1.handle = w.handle ∨ w1.handle = none) ∧ (j < NUM_THREADS → w1.handle = none) := by
  unfold stop_pipeline at h
  split at h
  · simp at h
  · rename_i s0 hd
    obtain rfl := Except.ok.inj h
    obtain ⟨a1, -, a3, a4⟩ := drop_threads_threads shade _ hd
    refine ⟨a1, rfl, a3, ?_⟩
    intro j w1 hj
    obtain ⟨w, c1, c2, c3, c4⟩ := a4 j w1 hj
    exact ⟨w, c1, c2, c3, fun hlt => c4 (List.mem_range.mpr hlt)⟩

theorem launch_threads_threads (width height : Nat) (l : List Nat) :
    ∀ {threads threads1 : List WorkerThread},
      launch_threads width height threads l = .ok threads1 →
      threads1.length = threads.length ∧
        ∀ j w1, threads1[j]? = some w1 →
          ∃ w, threads[j]? = some w ∧ w1.worker_id = w.worker_id ∧
            (j ∈ l → w1.handle = some { request := request_for width height j,
                                         block_start := j * BLOCK_SIZE, exited := false }) ∧
            (¬ j ∈ l → w1.handle = w.handle) := by
  induction l with
  | nil =>
    intro threads threads1 h
    obtain rfl := Except.ok.inj h
    refine ⟨rfl, ?_⟩
    intro j w1 hj
    exact ⟨w1, hj, rfl, fun hm => absurd hm (List.not_mem_nil _), fun _ => rfl⟩
  | cons i l ih =>
    intro threads threads1 h
    simp only [launch_threads] at h
    cases hget : threads[i]? with
    | none => rw [hget] at h; simp at h
    | some w =>
      rw [hget] at h
      simp only [] at h
      obtain ⟨b1, b2⟩ := ih h
      refine ⟨by simpa using b1, ?_⟩
      intro j w1 hj
      obtain ⟨w0, c1, c2, c3, c4⟩ := b2 j w1 hj
      simp only [List.getElem?_set] at c1
      split at c1
      · split at c1
        · obtain rfl := Option.some.inj c1
          subst_vars
          refine ⟨w, hget, c2, ?_, ?_⟩
          · intro _
            by_cases hm : j ∈ l
            · exact c3 hm
            · rw [c4 hm]; rfl
          · intro hn
            exact absurd (List.mem_cons_self _ _) hn
        · simp at c1
      · rename_i hne
        refine ⟨w0, c1, c2, ?_, ?_⟩
        · intro hm
          rcases List.mem_cons.mp hm with rfl | hm
          · exact absurd rfl hne
          · exact c3 hm
        · intro hn
          exact c4 (fun hm => hn (List.mem_cons_of_mem _ hm))

theorem worker_step_length (shade : Nat → Nat → vec3 ℚ) {s s1 : MainRenderThread} {i : Nat}
    (h : worker_step shade s i = .ok s1) : s1.threads.length = s.threads.length := by
  unfold worker_step at h
  split at h
  · obtain rfl := Except.ok.inj h; rfl
  · split at h
    · obtain rfl := Except.ok.inj h; rfl
    · split at h
      · obtain rfl := Except.ok.inj h; rfl
      · simp at h
      · obtain rfl := Except.ok.inj h; simp

theorem drain_results_length (shade : Nat → Nat → vec3 ℚ) (fuel : Nat) :
    ∀ {s s1 : MainRenderThread}, drain_results shade fuel s = .ok s1 →
      s1.threads.length = s.threads.length := by
  induction fuel with
  | zero =>
    intro s s1 h
    simp only [drain_results] at h
    split at h
    · obtain rfl := Except.ok.inj h; rfl
    · simp at h
  | succ n ih =>
    intro s s1 h
    simp only [drain_results] at h
    split at h
    · obtain rfl := Except.ok.inj h; rfl
    · split at h
      · obtain rfl := Except.ok.inj h; rfl
      · split at h
        · simp at h
        · split at h
          · simp at h
          · rename_i s0 hd
            rw [ih h]
            exact (drop_thread_threads shade hd).1

theorem perform_length (shade : Nat → Nat → vec3 ℚ) {s s1 : MainRenderThread} (t : Tick)
    (h : perform shade s t.action = .ok s1) : s1.threads.length = s.threads.length := by
  cases t with
  | poll =>
    simp only [Tick.action, perform, on_frame_update] at h
    split at h
    · simp at h
    · rename_i b s0 hf
      obtain rfl := Except.ok.inj h
      split at hf
      · split at hf
        · simp at hf
        · rename_i s2 hd
          obtain ⟨-, rfl⟩ := Prod.mk.inj (Except.ok.inj hf)
          exact drain_results_length shade _ hd
      · obtain ⟨-, rfl⟩ := Prod.mk.inj (Except.ok.inj hf)
        rfl
  | worker i => exact worker_step_length shade h

theorem run_length (shade : Nat → Nat → vec3 ℚ) (ticks : List Tick) :
    ∀ {s s1 : MainRenderThread}, run shade s (ticks.map Tick.action) = .ok s1 →
      s1.threads.length = s.threads.length := by
  induction ticks with
  | nil =>
    intro s s1 h
    obtain rfl := Except.ok.inj h; rfl
  | cons t ticks ih =>
    intro s s1 h
    simp only [List.map_cons, run] at h
    split at h
    · simp at h
    · rename_i s0 hp
      rw [ih h]
      exact perform_length shade t hp

theorem on_resize_split (shade : Nat → Nat → vec3 ℚ) {s s1 : MainRenderThread} {width height : Nat}
    (h : on_resize shade s width height = .ok s1) :
    ∃ m, stop_pipeline shade s = .ok m ∧ restart_pipeline m width height = .ok s1 := by
  unfold on_resize at h
  split at h
  · simp at h
  · rename_i m hm
    exact ⟨m, hm, h⟩

theorem restart_pipeline_threads {m s1 : MainRenderThread} {width height : Nat}
    (h : restart_pipeline m width height = .ok s1) :
    s1.threads.length = m.threads.length ∧
      s1.data = List.replicate ((width * height) % SIZE_MOD) 0 ∧
      s1.jobs_left = NUM_THREADS ∧ s1.cancel_signal = m.cancel_signal ∧
      s1.results = m.results ∧
      ∀ j w1, s1.threads[j]? = some w1 →
        ∃ w, m.threads[j]? = some w ∧ w1.worker_id = w.worker_id ∧
          (j < NUM_THREADS → w1.handle = some { request := request_for width height j,
                                                block_start := j * BLOCK_SIZE, exited := false }) ∧
          (¬ j < NUM_THREADS → w1.handle = w.handle) := by
  unfold restart_pipeline at h
  simp only [] at h
  split at h
  · simp at h
  · rename_i threads hl
    obtain rfl := Except.ok.inj h
    obtain ⟨a1, a2⟩ := launch_threads_threads width height _ hl
    refine ⟨a1, rfl, rfl, rfl, rfl, ?_⟩
    intro j w1 hj
    obtain ⟨w, c1, c2, c3, c4⟩ := a2 j w1 hj
    exact ⟨w, c1, c2, fun hlt => c3 (List.mem_range.mpr hlt),
      fun hn => c4 (fun hm => hn (List.mem_range.mp hm))⟩

theorem destroy_threads (shade : Nat → Nat → vec3 ℚ) {s s1 : MainRenderThread}
    (h : destroy shade s = .ok s1) :
    s1.threads.length = s.threads.length ∧
      ∀ j w1, s1.threads[j]? = some w1 → j < NUM_THREADS → w1.handle = none := by
  unfold destroy at h
  split at h
  · simp at h
  · rename_i s0 hs
    obtain ⟨a1, -, -, a4⟩ := drop_threads_threads shade _ h
    have hl : s0.threads.length = s.threads.length := by
      split at hs
      · exact (stop_pipeline_threads shade hs).1
      · obtain rfl := Except.ok.inj hs; rfl
    refine ⟨a1.trans hl, ?_⟩
    intro j w1 hj hlt
    obtain ⟨w, -, -, -, c4⟩ := a4 j w1 hj
    exact c4 (List.mem_range.mpr hlt)

theorem index_of_mem {α : Type} {l : List α} {a : α} (n : Nat) (hl : l.length = n)
    (h : a ∈ l) : ∃ j, j < n ∧ l[j]? = some a := by
  obtain ⟨j, hj⟩ := List.mem_iff_getElem?.mp h
  refine ⟨j, ?_, hj⟩
  obtain ⟨hlt, -⟩ := List.getElem?_eq_some_iff.mp hj
  omega

theorem drain_results_jobs_zero (shade : Nat → Nat → vec3 ℚ) (fuel : Nat) (s : MainRenderThread)
    (h : s.jobs_left = 0) : drain_results shade fuel s = .ok s := by
  cases fuel with
  | zero => simp only [drain_results, h, if_true]
  | succ n => simp only [drain_results, h, if_true]

theorem drain_results_empty (shade : Nat → Nat → vec3 ℚ) (fuel : Nat) (s : MainRenderThread)
    (hf : s.jobs_left ≤ fuel) (h : s.results.write_handle = s.results.read_handle) :
    drain_results shade fuel s = .ok s := by
  cases fuel with
  | zero => exact drain_results_jobs_zero shade 0 s (by omega)
  | succ n =>
    simp only [drain_results]
    split
    · rfl
    · have : s.results.try_pop = (none, s.results) := by
        unfold threading.mpsc_queue.try_pop
        simp only []
        rw [if_pos h]
      rw [this]

theorem getD_set (data : List Nat) (c v p : Nat) (hc : c < data.length) :
    (data.set c v).getD p 0 = if p = c then v else data.getD p 0 := by
  simp only [List.getD_eq_getElem?_getD, List.getElem?_set]
  by_cases h : c = p
  · subst h
    simp [hc]
  · rw [if_neg h, if_neg (fun h2 => h h2.symm)]

/-- Stores of painted words paint their positions and leave painted positions
painted. -/
theorem apply_events_stores (f : Nat → Nat) (hf : ∀ c, alpha_byte (f c) = 255)
    (q : threading.mpsc_queue RenderResult) (l : List Nat) :
    ∀ (data : List Nat), (∀ c, c ∈ l → c < data.length) →
      ∃ data1, apply_events (data, q) (l.map fun c => Event.store c (f c)) = .ok (data1, q) ∧
        data1.length = data.length ∧
        (∀ p, p ∈ l → alpha_byte (data1.getD p 0) = 255) ∧
        (∀ p, alpha_byte (data.getD p 0) = 255 → alpha_byte (data1.getD p 0) = 255) := by
  induction l with
  | nil =>
    intro data _
    exact ⟨data, rfl, rfl, fun p hp => absurd hp (List.not_mem_nil _), fun _ h => h⟩
  | cons c l ih =>
    intro data hb
    have hc : c < data.length := hb c (List.mem_cons_self _ _)
    obtain ⟨data1, h1, h2, h3, h4⟩ := ih (data.set c (f c))
      (fun x hx => by rw [List.length_set]; exact hb x (List.mem_cons_of_mem _ hx))
    have hset : ∀ p, (p = c ∨ alpha_byte (data.getD p 0) = 255) →
        alpha_byte ((data.set c (f c)).getD p 0) = 255 := by
      intro p hp
      rw [getD_set _ _ _ _ hc]
      split
      · exact hf c
      · rcases hp with hp | hp
        · contradiction
        · exact hp
    refine ⟨data1, ?_, by rw [h2, List.length_set], ?_, ?_⟩
    · simp only [List.map_cons, apply_events, apply_event, if_pos hc, h1]
    · intro p hp
      rcases List.mem_cons.mp hp with rfl | hp
      · exact h4 _ (hset _ (Or.inl rfl))
      · exact h3 p hp
    · intro p hp
      exact h4 _ (hset _ (Or.inr hp))

theorem apply_events_render_block (shade : Nat → Nat → vec3 ℚ) (request : RenderRequest)
    (bs : Nat) (q : threading.mpsc_queue RenderResult) (data : List Nat)
    (hend : request.end_ ≤ data.length) :
    ∃ data1, apply_events (data, q) (render_block shade request bs) = .ok (data1, q) ∧
      data1.length = data.length ∧
      (∀ p, bs ≤ p → p < bs + 16 → p < request.end_ → alpha_byte (data1.getD p 0) = 255) ∧
      (∀ p, alpha_byte (data.getD p 0) = 255 → alpha_byte (data1.getD p 0) = 255) := by
  obtain ⟨data1, h1, h2, h3, h4⟩ := apply_events_stores
    (fun current => to_abgr (shade
      (((current - request.start + request.starting_index) % SIZE_MOD) % request.width)
      ((request.height + SIZE_MOD -
        ((current - request.start + request.starting_index) % SIZE_MOD) / request.width)
        % SIZE_MOD)))
    (fun _ => alpha_byte_to_abgr _) q
    (List.range' bs (min (bs + BLOCK_SIZE) request.end_ - bs)) data
    (fun c hc => by
      rw [List.mem_range'_1] at hc
      simp only [BLOCK_SIZE] at hc
      omega)
  refine ⟨data1, h1, h2, ?_, h4⟩
  intro p hp1 hp2 hp3
  apply h3
  rw [List.mem_range'_1]
  simp only [BLOCK_SIZE]
  omega

theorem nodup_lt_length (ids : List Nat) (n : Nat) (hn : ids.Nodup)
    (hlt : ∀ i, i ∈ ids → i < n) : ids.length ≤ n := by
  have h1 : ids.toFinset ⊆ Finset.range n := by
    intro x hx
    rw [List.mem_toFinset] at hx
    exact Finset.mem_range.mpr (hlt x hx)
  have h2 := Finset.card_le_card h1
  rwa [List.toFinset_card_of_nodup hn, Finset.card_range] at h2

theorem room_for_one (ids : List Nat) (i : Nat) (hn : ids.Nodup)
    (hlt : ∀ x, x ∈ ids → x < 12) (hi : i < 12) (hni : ¬ i ∈ ids) : ids.length < 12 := by
  have h := nodup_lt_length (i :: ids) 12 (List.nodup_cons.mpr ⟨hni, hn⟩)
    (fun x hx => by
      rcases List.mem_cons.mp hx with rfl | hx
      · exact hi
      · exact hlt x hx)
  simp only [List.length_cons] at h
  omega

theorem all_reported (ids : List Nat) (hn : ids.Nodup) (hlt : ∀ x, x ∈ ids → x < 12)
    (hlen : 12 ≤ ids.length) (i : Nat) (hi : i < 12) : i ∈ ids := by
  by_contra hni
  have := room_for_one ids i hn hlt hi hni
  omega

theorem thread_ok_mono {width height : Nat} {data data1 ids ids1 : List Nat} {j : Nat}
    {hd : Option Thread} (h : thread_ok width height data ids j hd)
    (hlen : data1.length = data.length)
    (hpaint : ∀ p, alpha_byte (data.getD p 0) = 255 → alpha_byte (data1.getD p 0) = 255)
    (hsub : ∀ x, x ∈ ids → x ∈ ids1) (hnew : ¬ j ∈ ids → ¬ j ∈ ids1) :
    thread_ok width height data1 ids1 j hd := by
  cases hd with
  | none => exact hsub _ h
  | some t =>
    obtain ⟨a1, a2, a3, a4⟩ := h
    refine ⟨a1, a2, fun e => hsub _ (a3 e), fun e => ⟨hnew (a4 e).1, ?_⟩⟩
    intro p hp hb hlt
    exact hpaint p ((a4 e).2 p (hlen ▸ hp) hb hlt)

/-- The invariant survives a change of one worker's handle, of the buffer, of
the channel and of the counter that respects what the invariant relates. -/
theorem pass_inv_update {width height : Nat} {s : MainRenderThread} {ids : List Nat}
    (inv : pass_inv width height s ids) {i : Nat} {w : WorkerThread}
    (hget : s.threads[i]? = some w) (hd1 : Option Thread) (d1 : List Nat)
    (q1 : threading.mpsc_queue RenderResult) (j1 : Nat) (ids1 : List Nat)
    (hd_len : d1.length = s.data.length)
    (hpaint : ∀ p, alpha_byte (s.data.getD p 0) = 255 → alpha_byte (d1.getD p 0) = 255)
    (hsub : ∀ x, x ∈ ids → x ∈ ids1) (hnew : ∀ x, x ∈ ids1 → x ∈ ids ∨ x = i)
    (hq_cap : q1.cap = 12) (hq_len : q1.buffer.length = 12)
    (hj1 : j1 ≤ 12) (hq_read : q1.read_handle = (12 - j1) % 12)
    (hq_count : q1.elem_count = (SIZE_MOD - (12 - j1)) % SIZE_MOD)
    (hq_write : q1.write_handle = ids1.length) (hpops : 12 - j1 ≤ ids1.length)
    (hnodup : ids1.Nodup)
    (hslot : ∀ k x, ids1[k]? = some x → q1.deref k = some { worker_id := x })
    (hthr : thread_ok width height d1 ids1 i hd1)
    (hdone : i ∈ ids1 → ∀ p, p < d1.length → in_blocks_of i p →
      alpha_byte (d1.getD p 0) = 255) :
    pass_inv width height
      { threads := s.threads.set i { w with handle := hd1 }
        data := d1
        results := q1
        jobs_left := j1
        cancel_signal := s.cancel_signal } ids1 where
  flag := inv.flag
  data_len := by rw [← inv.data_len]; exact hd_len
  thr_len := by simp only [List.length_set]; exact inv.thr_len
  thr := by
    intro j w1 hj
    simp only [List.getElem?_set] at hj
    split at hj
    · split at hj
      · obtain rfl := Option.some.inj hj
        subst_vars
        exact ⟨(inv.thr _ w hget).1, hthr⟩
      · simp at hj
    · rename_i hne
      obtain ⟨b1, b2⟩ := inv.thr j w1 hj
      refine ⟨b1, thread_ok_mono b2 hd_len hpaint hsub ?_⟩
      intro hn hm
      rcases hnew j hm with hm | hm
      · exact hn hm
      · exact hne hm.symm
  q_cap := hq_cap
  q_len := hq_len
  jobs_le := hj1
  q_read := hq_read
  q_count := hq_count
  q_write := hq_write
  pops_le := hpops
  ids_nodup := hnodup
  ids_lt := by
    intro x hx
    rcases hnew x hx with hx | rfl
    · exact inv.ids_lt x hx
    · obtain ⟨hlt, -⟩ := List.getElem?_eq_some_iff.mp hget
      rw [inv.thr_len] at hlt
      exact hlt
  ids_slot := hslot
  ids_done := by
    intro x hx p hp hb
    rcases hnew x hx with hx0 | rfl
    · exact hpaint p (inv.ids_done x hx0 p (hd_len ▸ hp) hb)
    · exact hdone hx p hp hb

theorem pass_inv_same {width height : Nat} {s : MainRenderThread} {ids : List Nat}
    (inv : pass_inv width height s ids) {i : Nat} {w : WorkerThread}
    (hget : s.threads[i]? = some w) (hd1 : Option Thread)
    (hthr : thread_ok width height s.data ids i hd1) :
    pass_inv width height
      { s with threads := s.threads.set i { w with handle := hd1 } } ids :=
  pass_inv_update inv hget hd1 s.data s.results s.jobs_left ids rfl (fun _ h => h)
    (fun _ h => h) (fun _ h => Or.inl h) inv.q_cap inv.q_len inv.jobs_le inv.q_read
    inv.q_count inv.q_write inv.pops_le inv.ids_nodup inv.ids_slot hthr
    (fun hi => inv.ids_done _ hi)

theorem emplace_own_result {width height : Nat} {s : MainRenderThread} {ids : List Nat}
    (inv : pass_inv width height s ids) {i : Nat} (hi : i < 12) (hni : ¬ i ∈ ids) :
    s.results.blocking_emplace { worker_id := i } =
      .ok { s.results with
            write_handle := (s.results.write_handle + 1) % SIZE_MOD
            buffer := s.results.buffer.set s.results.write_handle (some { worker_id := i }) } := by
  have hroom := room_for_one ids i inv.ids_nodup inv.ids_lt hi hni
  unfold threading.mpsc_queue.blocking_emplace
  rw [if_neg, if_pos]
  · rw [inv.q_cap, inv.q_write]; exact hroom
  · rw [inv.q_cap, inv.q_count]
    have := inv.jobs_le
    simp only [SIZE_MOD]
    omega

/-- A worker thread making progress keeps the invariant of the pass. -/
theorem worker_step_inv (shade : Nat → Nat → vec3 ℚ) {width height : Nat} {s : MainRenderThread}
    {ids : List Nat} (inv : pass_inv width height s ids) (i : Nat) :
    ∃ s1 ids1, worker_step shade s i = .ok s1 ∧ pass_inv width height s1 ids1 := by
  unfold worker_step
  cases hget : s.threads[i]? with
  | none => exact ⟨s, ids, rfl, inv⟩
  | some w =>
    cases hh : w.handle with
    | none => exact ⟨s, ids, by simp only [hh], inv⟩
    | some t =>
      obtain ⟨hid, hok⟩ := inv.thr i w hget
      rw [hh] at hok
      obtain ⟨hreq, ⟨m, hbs⟩, e1, e2⟩ := hok
      have hi : i < 12 := by
        obtain ⟨hlt, -⟩ := List.getElem?_eq_some_iff.mp hget
        rw [inv.thr_len] at hlt
        exact hlt
      have hend : t.request.end_ = s.data.length := by rw [hreq, inv.data_len]; rfl
      simp only [hh]
      cases hex : t.exited with
      | true =>
        have hstep : thread_step shade w.worker_id s.cancel_signal t (s.data, s.results)
            = .ok (t, (s.data, s.results)) := by
          unfold thread_step
          rw [if_pos hex]
        rw [hstep]
        exact ⟨_, ids, rfl, pass_inv_same inv hget (some t) ⟨hreq, ⟨m, hbs⟩, e1, e2⟩⟩
      | false =>
        by_cases hlt : t.block_start < t.request.end_
        · have hwid : t.request.width ≠ 0 := by
            rw [hreq]
            apply request_for_width
            rw [hreq] at hlt
            show i * 16 < _
            omega
          obtain ⟨data1, h1, h2, h3, h4⟩ := apply_events_render_block shade t.request
            t.block_start s.results s.data (le_of_eq hend)
          have hstep : thread_step shade w.worker_id s.cancel_signal t (s.data, s.results)
              = .ok ({ t with block_start := t.block_start + 192, exited := false },
                  (data1, s.results)) := by
            rw [hid, inv.flag]
            unfold thread_step
            rw [if_neg (by simp [hex])]
            unfold worker_iteration
            rw [if_pos hlt, if_neg hwid]
            simp only [Bool.false_eq_true, if_false, h1]
            rfl
          rw [hstep]
          refine ⟨_, ids, rfl, pass_inv_update inv hget _ data1 s.results s.jobs_left ids h2 h4
            (fun _ h => h) (fun _ h => Or.inl h) inv.q_cap inv.q_len inv.jobs_le inv.q_read
            inv.q_count inv.q_write inv.pops_le inv.ids_nodup inv.ids_slot ?_ ?_⟩
          · refine ⟨hreq, ⟨m + 1, by show t.block_start + 192 = _; omega⟩,
              fun e => by simp at e, fun _ => ⟨(e2 hex).1, ?_⟩⟩
            intro p hp hb hpl
            show alpha_byte (data1.getD p 0) = 255
            have hpl : p < t.block_start + 192 := hpl
            by_cases hpb : p < t.block_start
            · exact h4 p ((e2 hex).2 p (h2 ▸ hp) hb hpb)
            · obtain ⟨m2, j2, hj2, hp2⟩ := hb
              exact h3 p (by omega) (by omega) (by rw [hend, ← h2]; exact hp)
          · intro hin
            exact absurd hin (e2 hex).1
        · have hq := emplace_own_result inv hi (e2 hex).1
          have hstep : thread_step shade w.worker_id s.cancel_signal t (s.data, s.results)
              = .ok ({ t with block_start := t.block_start, exited := true },
                  (s.data, { s.results with
                    write_handle := (s.results.write_handle + 1) % SIZE_MOD
                    buffer := s.results.buffer.set s.results.write_handle
                      (some { worker_id := i }) })) := by
            rw [hid, inv.flag]
            unfold thread_step
            rw [if_neg (by simp [hex])]
            unfold worker_iteration
            rw [if_neg hlt]
            simp only [apply_events, apply_event, hq]
            rfl
          rw [hstep]
          have hroom := room_for_one ids i inv.ids_nodup inv.ids_lt hi (e2 hex).1
          refine ⟨_, ids ++ [i], rfl, pass_inv_update inv hget _ s.data _ s.jobs_left
            (ids ++ [i]) rfl (fun _ h => h) (fun _ h => List.mem_append_left _ h) ?_
            inv.q_cap (by simp [inv.q_len]) inv.jobs_le inv.q_read inv.q_count ?_ ?_ ?_ ?_ ?_ ?_⟩
          · intro x hx
            rcases List.mem_append.mp hx with hx | hx
            · exact Or.inl hx
            · exact Or.inr (List.mem_singleton.mp hx)
          · show (s.results.write_handle + 1) % SIZE_MOD = (ids ++ [i]).length
            rw [inv.q_write, List.length_append, List.length_singleton]
            apply Nat.mod_eq_of_lt
            simp only [SIZE_MOD]
            omega
          · have := inv.pops_le
            simp only [List.length_append, List.length_singleton]
            omega
          · rw [List.nodup_append]
            refine ⟨inv.ids_nodup, List.nodup_singleton _, ?_⟩
            intro x hx hx2
            rw [List.mem_singleton] at hx2
            subst hx2
            exact (e2 hex).1 hx
          · intro k x hk
            show (s.results.buffer.set s.results.write_handle
              (some { worker_id := i })).getD k none = some { worker_id := x }
            rcases Nat.lt_or_ge k ids.length with hkl | hkl
            · rw [List.getElem?_append_left hkl] at hk
              have := inv.ids_slot k x hk
              rw [List.getD_eq_getElem?_getD, List.getElem?_set_ne (by rw [inv.q_write]; omega),
                ← List.getD_eq_getElem?_getD]
              exact this
            · have hk2 : k < (ids ++ [i]).length := (List.getElem?_eq_some_iff.mp hk).1
              simp only [List.length_append, List.length_singleton] at hk2
              have hke : k = ids.length := by omega
              subst hke
              rw [List.getElem?_append_right (le_refl _)] at hk
              simp at hk
              subst hk
              rw [inv.q_write, List.getD_eq_getElem?_getD,
                List.getElem?_set_self (by rw [inv.q_len]; exact hroom)]
              rfl
          · exact ⟨hreq, ⟨m, hbs⟩, fun _ => List.mem_append_right _ (List.mem_singleton_self _),
              fun e => by simp at e⟩
          · intro _ p hp hb
            exact (e2 hex).2 p hp hb (by omega)

theorem set_same {α : Type} {l : List α} {i : Nat} {a : α} (h : l[i]? = some a) :
    l.set i a = l := by
  apply List.ext_getElem?
  intro n
  rw [List.getElem?_set]
  split
  · subst_vars
    obtain ⟨hlt, -⟩ := List.getElem?_eq_some_iff.mp h
    rw [if_pos hlt, h]
  · rfl

theorem join_exited (shade : Nat → Nat → vec3 ℚ) (id : Nat) (signal : Bool) (fuel : Nat)
    (t : Thread) (mem : List Nat × threading.mpsc_queue RenderResult) (h : t.exited = true) :
    join_thread shade id signal (fuel + 1) t mem = .ok mem := by
  simp only [join_thread, h, if_true]

/-- Joining a worker whose thread has returned, or that has no thread, leaves
buffer and channel alone and empties its handle. -/
theorem drop_finished (shade : Nat → Nat → vec3 ℚ) (s : MainRenderThread) {x : Nat}
    {w : WorkerThread} (hget : s.threads[x]? = some w)
    (hfin : ∀ t, w.handle = some t → t.exited = true) :
    drop_thread shade s x
      = .ok { s with threads := s.threads.set x { w with handle := none } } := by
  unfold drop_thread
  rw [hget]
  cases hh : w.handle with
  | none =>
    simp only [hh]
    have : s.threads.set x { w with handle := none } = s.threads := by
      apply set_same
      rw [hget]
      congr 1
      cases w with
      | mk wid hdl =>
        simp only at hh
        subst hh
        rfl
    rw [this]
  | some t =>
    have hex := hfin t hh
    simp only [hh]
    rw [show t.request.end_ - t.block_start + 2 = (t.request.end_ - t.block_start + 1) + 1
      from rfl, join_exited shade _ _ _ t _ hex]

/-- The loop of `on_frame_update` keeps the invariant of the pass and does not
fault. -/
theorem drain_results_inv (shade : Nat → Nat → vec3 ℚ) {width height : Nat} (fuel : Nat) :
    ∀ {s : MainRenderThread} {ids : List Nat}, pass_inv width height s ids →
      s.jobs_left ≤ fuel →
      ∃ s1, drain_results shade fuel s = .ok s1 ∧ pass_inv width height s1 ids := by
  induction fuel with
  | zero =>
    intro s ids inv hf
    exact ⟨s, drain_results_jobs_zero shade 0 s (by omega), inv⟩
  | succ n ih =>
    intro s ids inv hf
    by_cases hj : s.jobs_left = 0
    · exact ⟨s, drain_results_jobs_zero shade _ s hj, inv⟩
    by_cases hwr : s.results.write_handle = s.results.read_handle
    · exact ⟨s, drain_results_empty shade _ s hf hwr, inv⟩
    have hjl := inv.jobs_le
    have hread : s.results.read_handle = 12 - s.jobs_left := by
      rw [inv.q_read]; exact Nat.mod_eq_of_lt (by omega)
    have hpl : 12 - s.jobs_left < ids.length := by
      have := inv.pops_le
      rw [inv.q_write, hread] at hwr
      omega
    obtain ⟨x, hx⟩ : ∃ x, ids[12 - s.jobs_left]? = some x :=
      ⟨_, List.getElem?_eq_getElem hpl⟩
    have hmem : x ∈ ids := List.mem_iff_getElem?.mpr ⟨_, hx⟩
    have hpop : s.results.try_pop = (some s.results.read_handle,
        { s.results with
          read_handle := (s.results.read_handle + 1) % SIZE_MOD % s.results.cap
          elem_count := (s.results.elem_count + (SIZE_MOD - 1)) % SIZE_MOD }) := by
      unfold threading.mpsc_queue.try_pop
      simp only []
      rw [if_neg hwr]
    have hslot : threading.mpsc_queue.deref
        { s.results with
          read_handle := (s.results.read_handle + 1) % SIZE_MOD % s.results.cap
          elem_count := (s.results.elem_count + (SIZE_MOD - 1)) % SIZE_MOD }
        s.results.read_handle = some { worker_id := x } := by
      have := inv.ids_slot _ x hx
      rw [← hread] at this
      exact this
    have hlt : x < s.threads.length := by rw [inv.thr_len]; exact inv.ids_lt x hmem
    have hget : s.threads[x]? = some s.threads[x] := List.getElem?_eq_getElem hlt
    obtain ⟨-, hok⟩ := inv.thr x _ hget
    have hfin : ∀ t, (s.threads[x]).handle = some t → t.exited = true := by
      intro t ht
      rw [ht] at hok
      obtain ⟨-, -, -, e2⟩ := hok
      cases he : t.exited with
      | true => rfl
      | false => exact absurd hmem (e2 he).1
    have hdrop := drop_finished shade { s with results :=
        { s.results with
          read_handle := (s.results.read_handle + 1) % SIZE_MOD % s.results.cap
          elem_count := (s.results.elem_count + (SIZE_MOD - 1)) % SIZE_MOD } } hget hfin
    have inv1 := pass_inv_update inv hget none s.data
      { s.results with
        read_handle := (s.results.read_handle + 1) % SIZE_MOD % s.results.cap
        elem_count := (s.results.elem_count + (SIZE_MOD - 1)) % SIZE_MOD }
      (s.jobs_left - 1) ids rfl (fun _ h => h) (fun _ h => h) (fun _ h => Or.inl h)
      inv.q_cap inv.q_len (by omega)
      (by
        show (s.results.read_handle + 1) % SIZE_MOD % s.results.cap = _
        rw [inv.q_cap, hread]
        simp only [SIZE_MOD]
        omega)
      (by
        show (s.results.elem_count + (SIZE_MOD - 1)) % SIZE_MOD = _
        rw [inv.q_count]
        simp only [SIZE_MOD]
        omega)
      inv.q_write (by omega) inv.ids_nodup inv.ids_slot hmem (fun _ => inv.ids_done x hmem)
    obtain ⟨s1, h1, h2⟩ := ih inv1 (by show s.jobs_left - 1 ≤ n; omega)
    refine ⟨s1, ?_, h2⟩
    simp only [drain_results, if_neg hj, hpop, hslot, hdrop]
    exact h1

theorem on_frame_update_inv (shade : Nat → Nat → vec3 ℚ) {width height : Nat}
    {s : MainRenderThread} {ids : List Nat} (inv : pass_inv width height s ids) :
    ∃ s1, on_frame_update shade s = .ok (decide (s.jobs_left ≠ 0), s1) ∧
      pass_inv width height s1 ids := by
  unfold on_frame_update
  by_cases hj : s.jobs_left = 0
  · refine ⟨s, ?_, inv⟩
    simp [hj]
  · obtain ⟨s1, h1, h2⟩ := drain_results_inv shade s.jobs_left inv (le_refl _)
    refine ⟨s1, ?_, h2⟩
    simp [hj, h1]

theorem run_inv (shade : Nat → Nat → vec3 ℚ) {width height : Nat} (ticks : List Tick) :
    ∀ {s : MainRenderThread} {ids : List Nat}, pass_inv width height s ids →
      ∃ s1 ids1, run shade s (ticks.map Tick.action) = .ok s1 ∧
        pass_inv width height s1 ids1 := by
  induction ticks with
  | nil =>
    intro s ids inv
    exact ⟨s, ids, rfl, inv⟩
  | cons t ticks ih =>
    intro s ids inv
    cases t with
    | poll =>
      obtain ⟨s0, h1, h2⟩ := on_frame_update_inv shade inv
      obtain ⟨s1, ids1, h3, h4⟩ := ih h2
      refine ⟨s1, ids1, ?_, h4⟩
      simp only [List.map_cons, run, Tick.action, perform, h1, h3]
    | worker i =>
      obtain ⟨s0, ids0, h1, h2⟩ := worker_step_inv shade inv i
      obtain ⟨s1, ids1, h3, h4⟩ := ih h2
      refine ⟨s1, ids1, ?_, h4⟩
      simp only [List.map_cons, run, Tick.action, perform, h1, h3]

theorem on_resize_fresh (shade : Nat → Nat → vec3 ℚ) (c : Bool) (width height : Nat) :
    on_resize shade (MainRenderThread.construct c) width height =
      .ok { threads := (List.range 12).map fun i =>
              { worker_id := i
                handle := some { request := request_for width height i
                                 block_start := i * 16
                                 exited := false } }
            data := List.replicate ((width * height) % SIZE_MOD) 0
            results := threading.mpsc_queue.construct 12
            jobs_left := 12
            cancel_signal := false } := rfl

theorem pass_inv_fresh (width height : Nat) :
    pass_inv width height
      { threads := (List.range 12).map fun i =>
          { worker_id := i
            handle := some { request := request_for width height i
                             block_start := i * 16
                             exited := false } }
        data := List.replicate ((width * height) % SIZE_MOD) 0
        results := threading.mpsc_queue.construct 12
        jobs_left := 12
        cancel_signal := false } [] where
  flag := rfl
  data_len := by simp
  thr_len := by simp
  thr := by
    intro i w hw
    rw [List.getElem?_map] at hw
    cases hr : (List.range 12)[i]? with
    | none => rw [hr] at hw; simp at hw
    | some k =>
      rw [hr] at hw
      obtain ⟨hlt, hk⟩ := List.getElem?_eq_some_iff.mp hr
      rw [List.getElem_range] at hk
      subst hk
      obtain rfl := Option.some.inj hw
      refine ⟨rfl, rfl, ⟨0, by simp⟩, fun e => by simp at e, fun _ => ⟨List.not_mem_nil _, ?_⟩⟩
      intro p _ hb hp
      obtain ⟨m, j, -, hpe⟩ := hb
      have hp : p < i * 16 := hp
      omega
  q_cap := rfl
  q_len := by simp [threading.mpsc_queue.construct]
  jobs_le := le_refl _
  q_read := rfl
  q_count := by
    show 0 = (SIZE_MOD - (12 - 12)) % SIZE_MOD
    decide
  q_write := rfl
  pops_le := by simp
  ids_nodup := List.nodup_nil
  ids_lt := fun _ h => absurd h (List.not_mem_nil _)
  ids_slot := by intro k i h; simp at h
  ids_done := fun _ h => absurd h (List.not_mem_nil _)

theorem pass_inv_complete {width height : Nat} {s : MainRenderThread} {ids : List Nat}
    (inv : pass_inv width height s ids) (hj : s.jobs_left = 0) :
    s.data.length = (width * height) % SIZE_MOD ∧
      ∀ x, x ∈ s.data → alpha_byte x = 255 := by
  refine ⟨inv.data_len, ?_⟩
  intro x hx
  obtain ⟨p, hp⟩ := List.mem_iff_getElem?.mp hx
  obtain ⟨hlt, -⟩ := List.getElem?_eq_some_iff.mp hp
  have hall : 12 ≤ ids.length := by
    have := inv.pops_le
    omega
  have hin := all_reported ids inv.ids_nodup inv.ids_lt hall (p / 16 % 12)
    (Nat.mod_lt _ (by decide))
  have := inv.ids_done _ hin p hlt ⟨p / 192, p % 16, Nat.mod_lt _ (by decide), by omega⟩
  rwa [List.getD_eq_getElem?_getD, hp] at this

/-- C9: on a freshly constructed orchestrator, `on_resize (width, height)`
returns; after it any sequence of worker progress and polls runs without
fault; in the state reached `on_frame_update` returns whether the job counter
is non-zero; and if it returns `false`, the buffer has `width * height`
elements (the `size_t` product) and every element has alpha byte 255, so none
is the zero `on_resize` filled in. -/
theorem completed_pass_fills_buffer (shade : Nat → Nat → vec3 ℚ) (c : Bool)
    (width height : Nat) (ticks : List Tick) :
    ∃ s1 s2, on_resize shade (MainRenderThread.construct c) width height = .ok s1 ∧
      run shade s1 (ticks.map Tick.action) = .ok s2 ∧
      (∃ s3, on_frame_update shade s2 = .ok (decide (s2.jobs_left ≠ 0), s3)) ∧
      ∀ s3, on_frame_update shade s2 = .ok (false, s3) →
        s3.data.length = (width * height) % SIZE_MOD ∧
          ∀ x, x ∈ s3.data → alpha_byte x = 255 ∧ x ≠ 0 := by
  obtain ⟨s2, ids, h1, h2⟩ := run_inv shade ticks (pass_inv_fresh width height)
  obtain ⟨s3, h3, -⟩ := on_frame_update_inv shade h2
  refine ⟨_, s2, on_resize_fresh shade c width height, h1, ⟨s3, h3⟩, ?_⟩
  intro s4 h4
  rw [h3] at h4
  obtain ⟨hb, hs⟩ := Prod.mk.inj (Except.ok.inj h4)
  have hj : s2.jobs_left = 0 := by simpa using hb
  have hs2 : on_frame_update shade s2 = .ok (false, s2) := by
    unfold on_frame_update
    simp [hj]
  rw [h3] at hs2
  obtain ⟨-, hs3⟩ := Prod.mk.inj (Except.ok.inj hs2)
  subst hs
  subst hs3
  obtain ⟨a1, a2⟩ := pass_inv_complete h2 hj
  refine ⟨a1, fun x hx => ⟨a2 x hx, ?_⟩⟩
  intro h0
  have := a2 x hx
  rw [h0] at this
  exact absurd this (by decide)

set_option maxRecDepth 100000 in
/-- C9 for a 2 x 2 image: after all workers have completed and the caller has
polled once, the next poll returns `false` and the buffer is filled. -/
theorem completed_pass_fills_buffer_witness :
    run black (MainRenderThread.construct false)
        (Action.resize 2 2 ::
          ((Tick.worker 0 :: (List.range 12).map Tick.worker ++ [Tick.poll]).map Tick.action))
      = .ok all_joined_state ∧
    on_frame_update black all_joined_state = .ok (false, all_joined_state) ∧
    all_joined_state.data.length = (2 * 2) % SIZE_MOD ∧
    ∀ x, x ∈ all_joined_state.data → alpha_byte x = 255 ∧ x ≠ 0 := by
  obtain ⟨s1, s2, h1, h2, -, h4⟩ := completed_pass_fills_buffer black false 2 2
    (Tick.worker 0 :: (List.range 12).map Tick.worker ++ [Tick.poll])
  have e : run black (MainRenderThread.construct false)
        (Action.resize 2 2 ::
          ((Tick.worker 0 :: (List.range 12).map Tick.worker ++ [Tick.poll]).map Tick.action))
      = .ok all_joined_state := rfl
  have e2 : on_frame_update black all_joined_state = .ok (false, all_joined_state) := rfl
  have e3 : s2 = all_joined_state := by
    have : run black (MainRenderThread.construct false)
        (Action.resize 2 2 ::
          ((Tick.worker 0 :: (List.range 12).map Tick.worker ++ [Tick.poll]).map Tick.action))
        = .ok s2 := by
      simp only [run, perform, h1]
      exact h2
    rw [e] at this
    exact (Except.ok.inj this).symm
  subst e3
  exact ⟨e, e2, h4 _ e2⟩

/-- C5: `on_frame_update` returns `false`, and changes nothing, when the job
counter is zero at the call; when the counter is non-zero every value it
returns is `true`, also in the call that drains the last result; it does
return `true` when the channel has nothing to pop, and in every state of a
first pass after construction it returns whether the counter is non-zero. -/
theorem on_frame_update_return (shade : Nat → Nat → vec3 ℚ) (s : MainRenderThread) :
    (s.jobs_left = 0 → on_frame_update shade s = .ok (false, s)) ∧
      (s.jobs_left ≠ 0 → ∀ b s1, on_frame_update shade s = .ok (b, s1) → b = true) ∧
      (s.jobs_left ≠ 0 → s.results.write_handle = s.results.read_handle →
        on_frame_update shade s = .ok (true, s)) ∧
      (∀ c width height ticks s0,
        on_resize shade (MainRenderThread.construct c) width height = .ok s0 →
        run shade s0 (List.map Tick.action ticks) = .ok s →
        ∃ s1, on_frame_update shade s = .ok (decide (s.jobs_left ≠ 0), s1)) := by
  refine ⟨?_, ?_, ?_, ?_⟩
  · intro hj
    unfold on_frame_update
    simp [hj]
  · intro hj b s1 h
    unfold on_frame_update at h
    rw [if_pos hj] at h
    split at h
    · simp at h
    · exact (Prod.mk.inj (Except.ok.inj h)).1.symm
  · intro hj hw
    unfold on_frame_update
    rw [if_pos hj, drain_results_empty shade _ s (le_refl _) hw]
  · intro c width height ticks s0 h0 h1
    rw [on_resize_fresh] at h0
    obtain rfl := Except.ok.inj h0
    obtain ⟨s2, ids, h2, h3⟩ := run_inv shade ticks (pass_inv_fresh width height)
    rw [h1] at h2
    obtain rfl := Except.ok.inj h2
    obtain ⟨s3, h4, -⟩ := on_frame_update_inv shade h3
    exact ⟨s3, h4⟩

set_option maxRecDepth 100000 in
/-- C5 in the call that drains the last result, and in the call after it. -/
theorem on_frame_update_return_witness :
    all_reported_state.jobs_left = 12 ∧
    on_frame_update black all_reported_state = .ok (true, all_joined_state) ∧
    all_joined_state.jobs_left = 0 ∧
    on_frame_update black all_joined_state = .ok (false, all_joined_state) :=
  ⟨rfl, rfl, rfl, (on_frame_update_return black all_joined_state).1 rfl⟩

set_option maxRecDepth 100000 in
/-- C3: after `stale_trace` the job counter is zero and the next poll reports
an idle orchestrator, yet worker 0 of the current pass has not rendered one
pixel: its thread is still at its first block and the sixteen pixels of that
block hold the zero `on_resize` filled in.  The first poll of the new pass
popped the result worker 1 emplaced in the cancelled pass.  After a first pass
that completed, the first poll of a second pass pops a result of the first
pass as well, joins that worker, and the worker's `blocking_emplace` stores
outside the channel's buffer. -/
theorem stale_results_complete_a_pass :
    run black (MainRenderThread.construct false) stale_trace = .ok stale_state ∧
    stale_state.jobs_left = 0 ∧
    on_frame_update black stale_state = .ok (false, stale_state) ∧
    stale_state.threads[0]? = some
      { worker_id := 0
        handle := some { request := request_for 16 12 0, block_start := 0, exited := false } } ∧
    stale_state.data.take 16 = List.replicate 16 0 ∧
    run black (MainRenderThread.construct false) second_pass_trace
      = .error Fault.out_of_bounds :=
  ⟨rfl, rfl, rfl, rfl, rfl, rfl⟩

/-- The bound of `worker_body` on the evaluations of the loop condition is
never reached. -/
theorem worker_loop_fuel (shade : Nat → Nat → vec3 ℚ) (request : RenderRequest) (id : Nat)
    (observe : Nat → Bool) (fuel : Nat) :
    ∀ k bs, request.end_ - bs + 1 ≤ fuel →
      worker_loop shade request id observe fuel k bs ≠ .error Fault.out_of_fuel := by
  induction fuel with
  | zero => intro k bs h; omega
  | succ n ih =>
    intro k bs h
    simp only [worker_loop]
    unfold worker_iteration
    by_cases hlt : bs < request.end_
    · rw [if_pos hlt]
      by_cases hw : request.width = 0
      · rw [if_pos hw]
        simp
      · rw [if_neg hw]
        cases observe k with
        | true => simp
        | false =>
          simp only [Bool.false_eq_true, if_false]
          have := ih (k + 1) (bs + BLOCK_SIZE * NUM_THREADS)
            (by simp only [BLOCK_SIZE, NUM_THREADS]; omega)
          intro hc
          split at hc
          · rename_i e he
            rw [he] at this
            obtain rfl := Except.error.inj hc
            exact this rfl
          · simp at hc
    · rw [if_neg hlt]
      simp

theorem worker_body_fuel (shade : Nat → Nat → vec3 ℚ) (request : RenderRequest) (id : Nat)
    (observe : Nat → Bool) :
    worker_body shade request id observe ≠ .error Fault.out_of_fuel :=
  worker_loop_fuel shade request id observe _ 0 request.start (le_refl _)

theorem apply_event_fuel (mem : List Nat × threading.mpsc_queue RenderResult) (e : Event) :
    apply_event mem e ≠ .error Fault.out_of_fuel := by
  cases e with
  | store current word =>
    simp only [apply_event]
    split_ifs <;> simp
  | emplace res =>
    simp only [apply_event, threading.mpsc_queue.blocking_emplace]
    split_ifs <;> simp

theorem apply_events_fuel (events : List Event) :
    ∀ mem, apply_events mem events ≠ .error Fault.out_of_fuel := by
  induction events with
  | nil => intro mem; simp [apply_events]
  | cons e es ih =>
    intro mem
    simp only [apply_events]
    cases h : apply_event mem e with
    | error f =>
      simp only []
      intro hc
      obtain rfl := Except.error.inj hc
      exact apply_event_fuel mem e h
    | ok mem1 => exact ih mem1

theorem worker_iteration_fuel (shade : Nat → Nat → vec3 ℚ) (request : RenderRequest) (id : Nat)
    (signal : Bool) (bs : Nat) :
    worker_iteration shade request id signal bs ≠ .error Fault.out_of_fuel := by
  unfold worker_iteration
  split_ifs <;> simp

/-- What one step of a running thread leaves: a thread that has returned, or
the same request one block further on. -/
theorem thread_step_next (shade : Nat → Nat → vec3 ℚ) (id : Nat) (signal : Bool) {t t1 : Thread}
    {mem mem1 : List Nat × threading.mpsc_queue RenderResult}
    (h : thread_step shade id signal t mem = .ok (t1, mem1)) (hex : t.exited = false) :
    t1.exited = true ∨
      (t1.exited = false ∧ t.block_start < t.request.end_ ∧
        t1.block_start = t.block_start + 192 ∧ t1.request = t.request) := by
  unfold thread_step at h
  rw [if_neg (by simp [hex])] at h
  unfold worker_iteration at h
  by_cases hlt : t.block_start < t.request.end_
  · rw [if_pos hlt] at h
    by_cases hw : t.request.width = 0
    · rw [if_pos hw] at h
      simp at h
    · rw [if_neg hw] at h
      cases signal with
      | true =>
        simp only [if_true] at h
        split at h
        · simp at h
        · obtain ⟨rfl, -⟩ := Prod.mk.inj (Except.ok.inj h)
          exact Or.inl rfl
      | false =>
        simp only [Bool.false_eq_true, if_false] at h
        split at h
        · simp at h
        · obtain ⟨rfl, -⟩ := Prod.mk.inj (Except.ok.inj h)
          exact Or.inr ⟨rfl, hlt, rfl, rfl⟩
  · rw [if_neg hlt] at h
    simp only [] at h
    split at h
    · simp at h
    · obtain ⟨rfl, -⟩ := Prod.mk.inj (Except.ok.inj h)
      exact Or.inl rfl

theorem thread_step_fuel (shade : Nat → Nat → vec3 ℚ) (id : Nat) (signal : Bool) (t : Thread)
    (mem : List Nat × threading.mpsc_queue RenderResult) :
    thread_step shade id signal t mem ≠ .error Fault.out_of_fuel := by
  unfold thread_step
  split
  · simp
  · cases hi : worker_iteration shade t.request id signal t.block_start with
    | error e =>
      simp only []
      intro hc
      obtain rfl := Except.error.inj hc
      exact worker_iteration_fuel shade t.request id signal t.block_start hi
    | ok r =>
      obtain ⟨events, next⟩ := r
      simp only []
      cases ha : apply_events mem events with
      | error e =>
        simp only []
        intro hc
        obtain rfl := Except.error.inj hc
        exact apply_events_fuel events mem ha
      | ok mem1 => simp

/-- The bound of `drop_thread` on the iterations of a joined thread is never
reached. -/
theorem join_thread_fuel (shade : Nat → Nat → vec3 ℚ) (id : Nat) (signal : Bool) (fuel : Nat) :
    ∀ (t : Thread) (mem : List Nat × threading.mpsc_queue RenderResult),
      (t.exited = true → 1 ≤ fuel) →
      (t.exited = false → t.request.end_ - t.block_start + 2 ≤ fuel) →
      join_thread shade id signal fuel t mem ≠ .error Fault.out_of_fuel := by
  induction fuel with
  | zero =>
    intro t mem h1 h2
    cases hex : t.exited with
    | true => have := h1 hex; omega
    | false => have := h2 hex; omega
  | succ n ih =>
    intro t mem h1 h2
    simp only [join_thread]
    cases hex : t.exited with
    | true => simp
    | false =>
      simp only [Bool.false_eq_true, if_false]
      have hb := h2 hex
      cases hs : thread_step shade id signal t mem with
      | error e =>
        simp only []
        intro hc
        obtain rfl := Except.error.inj hc
        exact thread_step_fuel shade id signal t mem hs
      | ok r =>
        obtain ⟨t1, mem1⟩ := r
        simp only []
        apply ih
        · intro _; omega
        · intro he1
          rcases thread_step_next shade id signal hs hex with h | ⟨-, hlt, hbs, hreq⟩
          · rw [h] at he1; simp at he1
          · rw [hbs, hreq]; omega

theorem join_inv_of_pass {width height : Nat} {s : MainRenderThread} {ids : List Nat}
    (inv : pass_inv width height s ids) : join_inv width height s ids where
  data_len := inv.data_len
  thr_len := inv.thr_len
  thr := by
    intro i w t hget hh hex
    obtain ⟨a1, a2⟩ := inv.thr i w hget
    rw [hh] at a2
    obtain ⟨b1, -, -, b4⟩ := a2
    exact ⟨a1, b1, (b4 hex).1⟩
  q_cap := inv.q_cap
  q_count := by
    rw [inv.q_count]
    have := inv.jobs_le
    simp only [SIZE_MOD]
    omega
  q_write := inv.q_write
  ids_nodup := inv.ids_nodup
  ids_lt := inv.ids_lt

theorem join_inv_update {width height : Nat} {s : MainRenderThread} {ids : List Nat}
    (inv : join_inv width height s ids) (i : Nat) (w : WorkerThread) (d1 : List Nat)
    (q1 : threading.mpsc_queue RenderResult) (ids1 : List Nat)
    (hd_len : d1.length = s.data.length) (hq_cap : q1.cap = 12)
    (hq_count : q1.elem_count = s.results.elem_count) (hq_write : q1.write_handle = ids1.length)
    (hnodup : ids1.Nodup) (hlt : ∀ x, x ∈ ids1 → x < 12)
    (hnew : ∀ x, x ∈ ids1 → x ∈ ids ∨ x = i) (jobs : Nat) (flag : Bool) :
    join_inv width height
      { threads := s.threads.set i { w with handle := none }
        data := d1
        results := q1
        jobs_left := jobs
        cancel_signal := flag } ids1 where
  data_len := by rw [← inv.data_len]; exact hd_len
  thr_len := by simp only [List.length_set]; exact inv.thr_len
  thr := by
    intro k w1 t1 hk hh hex
    simp only [List.getElem?_set] at hk
    split at hk
    · split at hk
      · obtain rfl := Option.some.inj hk
        simp at hh
      · simp at hk
    · rename_i hne
      obtain ⟨a1, a2, a3⟩ := inv.thr k w1 t1 hk hh hex
      refine ⟨a1, a2, ?_⟩
      intro hm
      rcases hnew k hm with hm | hm
      · exact a3 hm
      · exact hne hm.symm
  q_cap := hq_cap
  q_count := by rw [hq_count]; exact inv.q_count
  q_write := hq_write
  ids_nodup := hnodup
  ids_lt := hlt

/-- Under a set cancellation flag a join returns: the thread finishes its
block and sees the flag, or it had no block left and emplaces its result, for
which the channel has room. -/
theorem drop_thread_cancel (shade : Nat → Nat → vec3 ℚ) {width height : Nat}
    {s : MainRenderThread} {ids : List Nat} (inv : join_inv width height s ids)
    (hc : s.cancel_signal = true) {i : Nat} (hi : i < 12) :
    ∃ s1 ids1, drop_thread shade s i = .ok s1 ∧ join_inv width height s1 ids1 ∧
      s1.cancel_signal = true := by
  have hlt : i < s.threads.length := by rw [inv.thr_len]; exact hi
  have hget : s.threads[i]? = some s.threads[i] := List.getElem?_eq_getElem hlt
  unfold drop_thread
  rw [hget]
  cases hh : (s.threads[i]).handle with
  | none => exact ⟨s, ids, by simp only [hh], inv, hc⟩
  | some t =>
    simp only [hh]
    rw [show t.request.end_ - t.block_start + 2 = (t.request.end_ - t.block_start + 1) + 1
      from rfl, hc]
    cases hex : t.exited with
    | true =>
      rw [join_exited shade _ _ _ t _ hex]
      exact ⟨_, ids, rfl, join_inv_update inv i _ s.data s.results ids rfl inv.q_cap rfl
        inv.q_write inv.ids_nodup inv.ids_lt (fun _ h => Or.inl h) _ _, rfl⟩
    | false =>
      obtain ⟨hid, hreq, hni⟩ := inv.thr i _ t hget hh hex
      have hend : t.request.end_ = s.data.length := by rw [hreq, inv.data_len]; rfl
      by_cases hb : t.block_start < t.request.end_
      · have hwid : t.request.width ≠ 0 := by
          rw [hreq]
          intro h0
          have h0 : width = 0 := h0
          subst h0
          rw [hreq] at hb
          simp [request_for] at hb
        obtain ⟨data1, h1, h2, -, -⟩ := apply_events_render_block shade t.request
          t.block_start s.results s.data (le_of_eq hend)
        have hstep : thread_step shade (s.threads[i]).worker_id true t (s.data, s.results)
            = .ok ({ t with block_start := t.block_start, exited := true },
                (data1, s.results)) := by
          unfold thread_step
          rw [if_neg (by simp [hex])]
          unfold worker_iteration
          rw [if_pos hb, if_neg hwid]
          simp only [if_true, h1]
          rfl
        simp only [join_thread, hex, hstep, Bool.false_eq_true, if_false, if_true]
        exact ⟨_, ids, rfl, join_inv_update inv i _ data1 s.results ids h2 inv.q_cap rfl
          inv.q_write inv.ids_nodup inv.ids_lt (fun _ h => Or.inl h) _ _, rfl⟩
      · have hroom := room_for_one ids i inv.ids_nodup inv.ids_lt hi hni
        have hq : s.results.blocking_emplace { worker_id := (s.threads[i]).worker_id } =
            .ok { s.results with
                  write_handle := (s.results.write_handle + 1) % SIZE_MOD
                  buffer := s.results.buffer.set s.results.write_handle
                    (some { worker_id := (s.threads[i]).worker_id }) } := by
          unfold threading.mpsc_queue.blocking_emplace
          rw [if_neg, if_pos]
          · rw [inv.q_cap, inv.q_write]; exact hroom
          · rw [inv.q_cap]; exact fun h => inv.q_count h.symm
        have hstep : thread_step shade (s.threads[i]).worker_id true t (s.data, s.results)
            = .ok ({ t with block_start := t.block_start, exited := true },
                (s.data, { s.results with
                  write_handle := (s.results.write_handle + 1) % SIZE_MOD
                  buffer := s.results.buffer.set s.results.write_handle
                    (some { worker_id := (s.threads[i]).worker_id }) })) := by
          unfold thread_step
          rw [if_neg (by simp [hex])]
          unfold worker_iteration
          rw [if_neg hb]
          simp only [apply_events, apply_event, hq]
          rfl
        simp only [join_thread, hex, hstep, Bool.false_eq_true, if_false, if_true]
        refine ⟨_, ids ++ [i], rfl, join_inv_update inv i _ s.data
          { s.results with
            write_handle := (s.results.write_handle + 1) % SIZE_MOD
            buffer := s.results.buffer.set s.results.write_handle
              (some { worker_id := (s.threads[i]).worker_id }) }
          (ids ++ [i]) rfl inv.q_cap rfl ?_ ?_ ?_ ?_ _ _, rfl⟩
        · show (s.results.write_handle + 1) % SIZE_MOD = (ids ++ [i]).length
          rw [inv.q_write, List.length_append, List.length_singleton]
          apply Nat.mod_eq_of_lt
          simp only [SIZE_MOD]
          omega
        · rw [List.nodup_append]
          refine ⟨inv.ids_nodup, List.nodup_singleton _, ?_⟩
          intro x hx hx2
          rw [List.mem_singleton] at hx2
          subst hx2
          exact hni hx
        · intro x hx
          rcases List.mem_append.mp hx with hx | hx
          · exact inv.ids_lt x hx
          · rw [List.mem_singleton.mp hx]; exact hi
        · intro x hx
          rcases List.mem_append.mp hx with hx | hx
          · exact Or.inl hx
          · exact Or.inr (List.mem_singleton.mp hx)

theorem drop_threads_cancel (shade : Nat → Nat → vec3 ℚ) {width height : Nat} (l : List Nat) :
    ∀ {s : MainRenderThread} {ids : List Nat}, join_inv width height s ids →
      s.cancel_signal = true → (∀ i, i ∈ l → i < 12) →
      ∃ s1 ids1, drop_threads shade s l = .ok s1 ∧ join_inv width height s1 ids1 := by
  induction l with
  | nil =>
    intro s ids inv _ _
    exact ⟨s, ids, rfl, inv⟩
  | cons i l ih =>
    intro s ids inv hc hl
    obtain ⟨s0, ids0, h1, h2, h3⟩ := drop_thread_cancel shade inv hc
      (hl i (List.mem_cons_self _ _))
    obtain ⟨s1, ids1, h4, h5⟩ := ih h2 h3 (fun x hx => hl x (List.mem_cons_of_mem _ hx))
    refine ⟨s1, ids1, ?_, h5⟩
    simp only [drop_threads, h1, h4]

/-- In and after a first pass `stop_pipeline` returns. -/
theorem stop_pipeline_returns (shade : Nat → Nat → vec3 ℚ) {width height : Nat}
    {s : MainRenderThread} {ids : List Nat} (inv : join_inv width height s ids) :
    ∃ s1, stop_pipeline shade s = .ok s1 := by
  have inv1 : join_inv width height { s with cancel_signal := true } ids :=
    ⟨inv.data_len, inv.thr_len, inv.thr, inv.q_cap, inv.q_count, inv.q_write, inv.ids_nodup,
      inv.ids_lt⟩
  obtain ⟨s1, ids1, h1, -⟩ := drop_threads_cancel shade (List.range NUM_THREADS) inv1 rfl
    (fun i hi => List.mem_range.mp hi)
  refine ⟨{ s1 with cancel_signal := false }, ?_⟩
  simp only [stop_pipeline, h1]

theorem launch_threads_returns (width height : Nat) (l : List Nat) :
    ∀ (threads : List WorkerThread), (∀ i, i ∈ l → i < threads.length) →
      ∃ threads1, launch_threads width height threads l = .ok threads1 := by
  induction l with
  | nil => intro threads _; exact ⟨threads, rfl⟩
  | cons i l ih =>
    intro threads hl
    have hlt := hl i (List.mem_cons_self _ _)
    obtain ⟨t1, h1⟩ := ih (threads.set i ((threads[i]).launch (request_for width height i)))
      (fun x hx => by rw [List.length_set]; exact hl x (List.mem_cons_of_mem _ hx))
    refine ⟨t1, ?_⟩
    simp only [launch_threads, List.getElem?_eq_getElem hlt, h1]

/-- In and after a first pass `on_resize` returns. -/
theorem on_resize_returns (shade : Nat → Nat → vec3 ℚ) {width height : Nat}
    {s : MainRenderThread} {ids : List Nat} (inv : join_inv width height s ids) (w2 h2 : Nat) :
    ∃ s1, on_resize shade s w2 h2 = .ok s1 := by
  obtain ⟨m, hm⟩ := stop_pipeline_returns shade inv
  have hlen : m.threads.length = 12 := by
    rw [(stop_pipeline_threads shade hm).1]; exact inv.thr_len
  obtain ⟨t1, h1⟩ := launch_threads_returns w2 h2 (List.range NUM_THREADS) m.threads
    (fun i hi => by rw [hlen]; exact List.mem_range.mp hi)
  refine ⟨{ m with
            data := List.replicate ((w2 * h2) % SIZE_MOD) 0
            threads := t1
            jobs_left := NUM_THREADS }, ?_⟩
  simp only [on_resize, hm, restart_pipeline, h1]

/-- On a fresh orchestrator `on_resize`, any progress of the workers and polls
of the caller, and a second `on_resize` all return. -/
theorem rapid_resize_returns (shade : Nat → Nat → vec3 ℚ) (c : Bool) (w1 h1 w2 h2 : Nat)
    (ticks : List Tick) :
    ∃ s1 s2 s3, on_resize shade (MainRenderThread.construct c) w1 h1 = .ok s1 ∧
      run shade s1 (ticks.map Tick.action) = .ok s2 ∧ on_resize shade s2 w2 h2 = .ok s3 := by
  obtain ⟨s2, ids, a1, a2⟩ := run_inv shade ticks (pass_inv_fresh w1 h1)
  obtain ⟨s3, a3⟩ := on_resize_returns shade (join_inv_of_pass a2) w2 h2
  exact ⟨_, s2, s3, on_resize_fresh shade c w1 h1, a1, a3⟩

section vectors

variable {K : Type}

@[simp]
theorem vec3.add_x [Add K] (a b : vec3 K) : (a + b).x = a.x + b.x := rfl
@[simp]
theorem vec3.add_y [Add K] (a b : vec3 K) : (a + b).y = a.y + b.y := rfl
@[simp]
theorem vec3.add_z [Add K] (a b : vec3 K) : (a + b).z = a.z + b.z := rfl
@[simp]
theorem vec3.sub_x [Sub K] (a b : vec3 K) : (a - b).x = a.x - b.x := rfl
@[simp]
theorem vec3.sub_y [Sub K] (a b : vec3 K) : (a - b).y = a.y - b.y := rfl
@[simp]
theorem vec3.sub_z [Sub K] (a b : vec3 K) : (a - b).z = a.z - b.z := rfl
@[simp]
theorem vec3.neg_x [Neg K] (a : vec3 K) : (-a).x = -a.x := rfl
@[simp]
theorem vec3.neg_y [Neg K] (a : vec3 K) : (-a).y = -a.y := rfl
@[simp]
theorem vec3.neg_z [Neg K] (a : vec3 K) : (-a).z = -a.z := rfl
@[simp]
theorem vec3.mul_x [Mul K] (a b : vec3 K) : (a * b).x = a.x * b.x := rfl
@[simp]
theorem vec3.mul_y [Mul K] (a b : vec3 K) : (a * b).y = a.y * b.y := rfl
@[simp]
theorem vec3.mul_z [Mul K] (a b : vec3 K) : (a * b).z = a.z * b.z := rfl
@[simp]
theorem vec3.smul_x [Mul K] (c : K) (a : vec3 K) : (c • a).x = c * a.x := rfl
@[simp]
theorem vec3.smul_y [Mul K] (c : K) (a : vec3 K) : (c • a).y = c * a.y := rfl
@[simp]
theorem vec3.smul_z [Mul K] (c : K) (a : vec3 K) : (c • a).z = c * a.z := rfl
@[simp]
theorem vec3.splat_x (c : K) : (vec3.splat c).x = c := rfl
@[simp]
theorem vec3.splat_y (c : K) : (vec3.splat c).y = c := rfl
@[simp]
theorem vec3.splat_z (c : K) : (vec3.splat c).z = c := rfl

theorem vec3.ext_iff3 (a b : vec3 K) : a = b ↔ a.x = b.x ∧ a.y = b.y ∧ a.z = b.z := by
  cases a
  cases b
  simp

end vectors

section sphere

variable {K : Type} [LinearOrderedField K]

theorem epsilon_pos : (0 : K) < 0.0001 := by norm_num

theorem intersect_of_selected (sqrt : K → K) (sphere : Sphere K) (ray : Ray K) (hit : Hit K)
    (hd : 0 ≤ sphere.discriminant ray) (t : K)
    (hsel : (if -sphere.h ray + sqrt (sphere.discriminant ray) < 0 ∨
          |(-sphere.h ray + sqrt (sphere.discriminant ray))| >
            |(-sphere.h ray - sqrt (sphere.discriminant ray))|
        then (if -sphere.h ray - sqrt (sphere.discriminant ray) < 0 then none
          else some (-sphere.h ray - sqrt (sphere.discriminant ray)))
        else some (-sphere.h ray + sqrt (sphere.discriminant ray))) = some t)
    (ht : 0.0001 < t) :
    sphere.intersect sqrt ray hit = (true, Hit.at_distance sqrt sphere ray t) := by
  unfold Sphere.intersect
  simp only []
  rw [if_neg (not_lt.mpr hd), hsel]
  simp only []
  rw [if_neg (not_le.mpr ht)]

theorem intersect_of_rejected (sqrt : K → K) (sphere : Sphere K) (ray : Ray K) (hit : Hit K)
    (hd : 0 ≤ sphere.discriminant ray)
    (hsel : (if -sphere.h ray + sqrt (sphere.discriminant ray) < 0 ∨
          |(-sphere.h ray + sqrt (sphere.discriminant ray))| >
            |(-sphere.h ray - sqrt (sphere.discriminant ray))|
        then (if -sphere.h ray - sqrt (sphere.discriminant ray) < 0 then none
          else some (-sphere.h ray - sqrt (sphere.discriminant ray)))
        else some (-sphere.h ray + sqrt (sphere.discriminant ray))) = none) :
    sphere.intersect sqrt ray hit = (false, hit) := by
  unfold Sphere.intersect
  simp only []
  rw [if_neg (not_lt.mpr hd), hsel]

theorem intersect_at_smaller_root (sqrt : K → K) (sphere : Sphere K) (ray : Ray K)
    (hit : Hit K) (hs0 : 0 ≤ sqrt (sphere.discriminant ray))
    (hs : sqrt (sphere.discriminant ray) * sqrt (sphere.discriminant ray)
      = sphere.discriminant ray)
    (h2 : 0.0001 < -sphere.h ray - sqrt (sphere.discriminant ray)) :
    sphere.intersect sqrt ray hit =
      (true, Hit.at_distance sqrt sphere ray (-sphere.h ray - sqrt (sphere.discriminant ray))) := by
  have he : (0 : K) < 0.0001 := epsilon_pos
  have hd : 0 ≤ sphere.discriminant ray := by rw [← hs]; exact mul_self_nonneg _
  apply intersect_of_selected sqrt sphere ray hit hd _ _ h2
  have h1 : 0 < -sphere.h ray + sqrt (sphere.discriminant ray) := by linarith
  rw [abs_of_pos h1, abs_of_pos (lt_trans he h2)]
  rcases eq_or_lt_of_le hs0 with h0 | h0
  · rw [← h0]
    simp
    intro hneg
    linarith [h0 ▸ h1]
  · rw [if_pos (Or.inr (by linarith)), if_neg (by linarith)]

/-- A root of the quadratic is a point of the sphere: for a unit direction and
`s * s` the discriminant, the points at `-h - s` and `-h + s` lie at the
distance of the radius from the centre. -/
theorem root_on_sphere (sphere : Sphere K) (ray : Ray K) (s : K)
    (hs : s * s = sphere.discriminant ray)
    (hdd : dot ray.direction ray.direction = 1) :
    dot (ray.at (-sphere.h ray - s) - sphere.center) (ray.at (-sphere.h ray - s) - sphere.center)
        = sphere.radius * sphere.radius ∧
      dot (ray.at (-sphere.h ray + s) - sphere.center)
          (ray.at (-sphere.h ray + s) - sphere.center)
        = sphere.radius * sphere.radius := by
  have hdisc : sphere.discriminant ray = sphere.h ray * sphere.h ray
      - (dot (ray.origin - sphere.center) (ray.origin - sphere.center)
        - sphere.radius * sphere.radius) := rfl
  rw [hdisc] at hs
  unfold Sphere.h at hs ⊢
  simp only [dot, Ray.at, vec3.add_x, vec3.add_y, vec3.add_z, vec3.sub_x, vec3.sub_y,
    vec3.sub_z, vec3.smul_x, vec3.smul_y, vec3.smul_z] at hs hdd ⊢
  constructor
  · linear_combination hs +
      (-((ray.origin.x - sphere.center.x) * ray.direction.x
          + (ray.origin.y - sphere.center.y) * ray.direction.y
          + (ray.origin.z - sphere.center.z) * ray.direction.z) - s) ^ 2 * hdd
  · linear_combination hs +
      (-((ray.origin.x - sphere.center.x) * ray.direction.x
          + (ray.origin.y - sphere.center.y) * ray.direction.y
          + (ray.origin.z - sphere.center.z) * ray.direction.z) + s) ^ 2 * hdd

/-- C13: when the square root of the discriminant is exact and the smaller
root `-h - sqrt (h * h - c)` exceeds the epsilon `0.0001` (so that the larger
root does too), `Sphere::intersect` returns `true` and assigns the hit at the
smaller root: its distance is that root, its point `origin + t * direction`,
its normal `point - center` normalised.  For a unit direction that point lies
on the sphere. -/
theorem sphere_intersect_nearer_root {K : Type} [LinearOrderedField K] (sqrt : K → K)
    (sphere : Sphere K) (ray : Ray K) (hit : Hit K)
    (hs0 : 0 ≤ sqrt (sphere.discriminant ray))
    (hs : sqrt (sphere.discriminant ray) * sqrt (sphere.discriminant ray)
      = sphere.discriminant ray)
    (h2 : 0.0001 < -sphere.h ray - sqrt (sphere.discriminant ray)) :
    sphere.intersect sqrt ray hit =
        (true,
          { point := ray.origin + (-sphere.h ray - sqrt (sphere.discriminant ray)) • ray.direction
            normal := normalize sqrt
              (ray.origin + (-sphere.h ray - sqrt (sphere.discriminant ray)) • ray.direction
                - sphere.center)
            selected_t := ((-sphere.h ray - sqrt (sphere.discriminant ray) : K) : WithTop K)
            mat_index := 0
            front_face := true }) ∧
      -sphere.h ray - sqrt (sphere.discriminant ray)
        ≤ -sphere.h ray + sqrt (sphere.discriminant ray) ∧
      (dot ray.direction ray.direction = 1 →
        dot (ray.origin + (-sphere.h ray - sqrt (sphere.discriminant ray)) • ray.direction
              - sphere.center)
            (ray.origin + (-sphere.h ray - sqrt (sphere.discriminant ray)) • ray.direction
              - sphere.center)
          = sphere.radius * sphere.radius) :=
  ⟨intersect_at_smaller_root sqrt sphere ray hit hs0 hs h2, by linarith,
    fun hdd => (root_on_sphere sphere ray _ hs hdd).1⟩

theorem far_sphere_axis : far_sphere.h axis_ray = -3 ∧ far_sphere.discriminant axis_ray = 1 := by
  constructor <;>
    norm_num [Sphere.discriminant, Sphere.h, far_sphere, axis_ray, dot]

/-- C13 for the sphere of radius 1 around `(0, 0, -3)` and the ray from the
origin down the `z` axis: the roots are 2 and 4, the hit is at 2. -/
theorem sphere_intersect_nearer_root_witness :
    (0 ≤ sqrt_of_one (far_sphere.discriminant axis_ray) ∧
      sqrt_of_one (far_sphere.discriminant axis_ray) * sqrt_of_one (far_sphere.discriminant axis_ray)
        = far_sphere.discriminant axis_ray ∧
      0.0001 < -far_sphere.h axis_ray - sqrt_of_one (far_sphere.discriminant axis_ray)) ∧
    -far_sphere.h axis_ray - sqrt_of_one (far_sphere.discriminant axis_ray) = 2 ∧
    (far_sphere.intersect sqrt_of_one axis_ray Hit.init).1 = true ∧
    (far_sphere.intersect sqrt_of_one axis_ray Hit.init).2.selected_t = ((2 : ℚ) : WithTop ℚ) := by
  have e1 : 0 ≤ sqrt_of_one (far_sphere.discriminant axis_ray) := by norm_num [sqrt_of_one]
  have e2 : sqrt_of_one (far_sphere.discriminant axis_ray)
      * sqrt_of_one (far_sphere.discriminant axis_ray) = far_sphere.discriminant axis_ray := by
    rw [far_sphere_axis.2]; norm_num [sqrt_of_one]
  have e3 : -far_sphere.h axis_ray - sqrt_of_one (far_sphere.discriminant axis_ray) = 2 := by
    rw [far_sphere_axis.1]; norm_num [sqrt_of_one]
  have e4 : (0.0001 : ℚ) < -far_sphere.h axis_ray
      - sqrt_of_one (far_sphere.discriminant axis_ray) := by
    rw [e3]; norm_num
  have h := (sphere_intersect_nearer_root sqrt_of_one far_sphere axis_ray Hit.init e1 e2 e4).1
  refine ⟨⟨e1, e2, e4⟩, e3, ?_, ?_⟩
  · rw [h]
  · rw [h, e3]

/-- C14: a ray with unit direction all of whose points lie farther from the
centre than the radius (squared distance above the squared radius, which for a
radius that is not negative says that the distance of the line from the centre
exceeds the radius): `Sphere::intersect` returns `false` and leaves the
caller's `Hit` as it was. -/
theorem sphere_intersect_miss {K : Type} [LinearOrderedField K] (sqrt : K → K)
    (sphere : Sphere K) (ray : Ray K) (hit : Hit K)
    (hunit : dot ray.direction ray.direction = 1)
    (hfar : ∀ s : K, sphere.radius * sphere.radius
      < dot (ray.at s - sphere.center) (ray.at s - sphere.center)) :
    sphere.intersect sqrt ray hit = (false, hit) := by
  have h := hfar (-sphere.h ray)
  unfold Sphere.intersect
  simp only []
  rw [if_pos]
  unfold Sphere.discriminant
  unfold Sphere.h at h ⊢
  simp only [dot, Ray.at, vec3.add_x, vec3.add_y, vec3.add_z, vec3.sub_x, vec3.sub_y,
    vec3.sub_z, vec3.smul_x, vec3.smul_y, vec3.smul_z] at h hunit ⊢
  have hu := congrArg (fun u => ((ray.origin.x - sphere.center.x) * ray.direction.x
          + (ray.origin.y - sphere.center.y) * ray.direction.y
          + (ray.origin.z - sphere.center.z) * ray.direction.z)
        * ((ray.origin.x - sphere.center.x) * ray.direction.x
          + (ray.origin.y - sphere.center.y) * ray.direction.y
          + (ray.origin.z - sphere.center.z) * ray.direction.z) * u) hunit
  simp only [] at hu
  linarith [h, hu]

/-- C14 for the sphere of radius 1 around `(0, 0, -3)` and the ray from the
origin up the `y` axis, which stays at distance 3 and more. -/
theorem sphere_intersect_miss_witness :
    (dot up_ray.direction up_ray.direction = 1 ∧
      ∀ s : ℚ, far_sphere.radius * far_sphere.radius
        < dot (up_ray.at s - far_sphere.center) (up_ray.at s - far_sphere.center)) ∧
    far_sphere.intersect sqrt_of_one up_ray Hit.init = (false, Hit.init) := by
  have e1 : dot up_ray.direction up_ray.direction = 1 := by norm_num [up_ray, dot]
  have e2 : ∀ s : ℚ, far_sphere.radius * far_sphere.radius
      < dot (up_ray.at s - far_sphere.center) (up_ray.at s - far_sphere.center) := by
    intro s
    norm_num [up_ray, far_sphere, dot, Ray.at]
    nlinarith [mul_self_nonneg s]
  exact ⟨⟨e1, e2⟩, sphere_intersect_miss sqrt_of_one far_sphere up_ray Hit.init e1 e2⟩

/-- C20: when the square root of the discriminant is exact and not negative,
the smaller root is negative and the larger root is the greater in absolute
value (the ray starts inside the sphere, on the far side of the centre), the
larger root is positive, it is the distance of a point of the sphere (for a
unit direction), and yet `Sphere::intersect` returns `false`: it has replaced
the positive root by the negative one before testing the sign. -/
theorem sphere_intersect_inside_misses {K : Type} [LinearOrderedField K] (sqrt : K → K)
    (sphere : Sphere K) (ray : Ray K) (hit : Hit K)
    (hs0 : 0 ≤ sqrt (sphere.discriminant ray))
    (hs : sqrt (sphere.discriminant ray) * sqrt (sphere.discriminant ray)
      = sphere.discriminant ray)
    (h2 : -sphere.h ray - sqrt (sphere.discriminant ray) < 0)
    (h1 : |(-sphere.h ray - sqrt (sphere.discriminant ray))|
      < |(-sphere.h ray + sqrt (sphere.discriminant ray))|) :
    sphere.intersect sqrt ray hit = (false, hit) ∧
      0 < -sphere.h ray + sqrt (sphere.discriminant ray) ∧
      (dot ray.direction ray.direction = 1 →
        dot (ray.at (-sphere.h ray + sqrt (sphere.discriminant ray)) - sphere.center)
            (ray.at (-sphere.h ray + sqrt (sphere.discriminant ray)) - sphere.center)
          = sphere.radius * sphere.radius) := by
  have hd : 0 ≤ sphere.discriminant ray := by rw [← hs]; exact mul_self_nonneg _
  refine ⟨?_, ?_, fun hdd => (root_on_sphere sphere ray _ hs hdd).2⟩
  · apply intersect_of_rejected sqrt sphere ray hit hd
    rw [if_pos (Or.inr h1), if_pos h2]
  · by_contra hneg
    rw [abs_of_neg h2, abs_of_nonpos (not_lt.mp hneg)] at h1
    linarith

theorem unit_sphere_inside :
    unit_sphere.h inside_ray = -1 / 2 ∧ unit_sphere.discriminant inside_ray = 1 := by
  constructor <;>
    norm_num [Sphere.discriminant, Sphere.h, unit_sphere, inside_ray, dot]

/-- C20 for the unit sphere and the ray from `(0, 0, 1/2)` through the centre:
the roots are `-1/2` and `3/2`, the larger one exceeds the epsilon, and
`Sphere::intersect` returns `false`. -/
theorem sphere_intersect_inside_misses_witness :
    (0 ≤ sqrt_of_one (unit_sphere.discriminant inside_ray) ∧
      sqrt_of_one (unit_sphere.discriminant inside_ray)
        * sqrt_of_one (unit_sphere.discriminant inside_ray)
        = unit_sphere.discriminant inside_ray ∧
      -unit_sphere.h inside_ray - sqrt_of_one (unit_sphere.discriminant inside_ray) < 0 ∧
      |(-unit_sphere.h inside_ray - sqrt_of_one (unit_sphere.discriminant inside_ray))|
        < |(-unit_sphere.h inside_ray + sqrt_of_one (unit_sphere.discriminant inside_ray))|) ∧
    dot inside_ray.direction inside_ray.direction = 1 ∧
    -unit_sphere.h inside_ray - sqrt_of_one (unit_sphere.discriminant inside_ray) = -1 / 2 ∧
    -unit_sphere.h inside_ray + sqrt_of_one (unit_sphere.discriminant inside_ray) = 3 / 2 ∧
    (0.0001 : ℚ) < 3 / 2 ∧
    unit_sphere.intersect sqrt_of_one inside_ray Hit.init = (false, Hit.init) := by
  have e0 : 0 ≤ sqrt_of_one (unit_sphere.discriminant inside_ray) := by norm_num [sqrt_of_one]
  have e1 : sqrt_of_one (unit_sphere.discriminant inside_ray)
      * sqrt_of_one (unit_sphere.discriminant inside_ray)
      = unit_sphere.discriminant inside_ray := by
    rw [unit_sphere_inside.2]; norm_num [sqrt_of_one]
  have e2 : -unit_sphere.h inside_ray
      - sqrt_of_one (unit_sphere.discriminant inside_ray) < 0 := by
    rw [unit_sphere_inside.1]; norm_num [sqrt_of_one]
  have a1 : -unit_sphere.h inside_ray
      - sqrt_of_one (unit_sphere.discriminant inside_ray) = -1 / 2 := by
    rw [unit_sphere_inside.1]; norm_num [sqrt_of_one]
  have a2 : -unit_sphere.h inside_ray
      + sqrt_of_one (unit_sphere.discriminant inside_ray) = 3 / 2 := by
    rw [unit_sphere_inside.1]; norm_num [sqrt_of_one]
  have e3 : |(-unit_sphere.h inside_ray - sqrt_of_one (unit_sphere.discriminant inside_ray))|
      < |(-unit_sphere.h inside_ray + sqrt_of_one (unit_sphere.discriminant inside_ray))| := by
    rw [a1, a2, abs_of_neg (by norm_num), abs_of_pos (by norm_num)]; norm_num
  exact ⟨⟨e0, e1, e2, e3⟩, by norm_num [inside_ray, dot], a1, a2, by norm_num,
    (sphere_intersect_inside_misses sqrt_of_one unit_sphere inside_ray Hit.init e0 e1 e2 e3).1⟩

end sphere

section world

variable {K : Type} [LinearOrderedField K]

theorem intersect_cases (sqrt : K → K) (sphere : Sphere K) (ray : Ray K) (hit : Hit K) :
    sphere.intersect sqrt ray hit = (false, hit) ∨
      ∃ t : K, 0.0001 < t ∧
        sphere.intersect sqrt ray hit = (true, Hit.at_distance sqrt sphere ray t) ∧
        ∀ other : Hit K,
          sphere.intersect sqrt ray other = (true, Hit.at_distance sqrt sphere ray t) := by
  unfold Sphere.intersect
  simp only []
  by_cases hd : sphere.discriminant ray < 0
  · left; rw [if_pos hd]
  · simp only [if_neg hd]
    cases hsel : (if -sphere.h ray + sqrt (sphere.discriminant ray) < 0 ∨
          |(-sphere.h ray + sqrt (sphere.discriminant ray))| >
            |(-sphere.h ray - sqrt (sphere.discriminant ray))|
        then (if -sphere.h ray - sqrt (sphere.discriminant ray) < 0 then none
          else some (-sphere.h ray - sqrt (sphere.discriminant ray)))
        else some (-sphere.h ray + sqrt (sphere.discriminant ray))) with
    | none => left; rfl
    | some t =>
      simp only []
      by_cases ht : t ≤ 0.0001
      · left; rw [if_pos ht]
      · right
        refine ⟨t, not_le.mp ht, by rw [if_neg ht], ?_⟩
        intro other
        rw [if_neg ht]

theorem intersect_miss_keeps (sqrt : K → K) (sphere : Sphere K) (ray : Ray K) (hit : Hit K)
    (h : (sphere.intersect sqrt ray hit).1 = false) : sphere.intersect sqrt ray hit = (false, hit) := by
  rcases intersect_cases sqrt sphere ray hit with h0 | ⟨t, _, h1, _⟩
  · exact h0
  · rw [h1] at h; cases h

theorem intersect_independent (sqrt : K → K) (sphere : Sphere K) (ray : Ray K)
    (hit other : Hit K) :
    (sphere.intersect sqrt ray hit).1 = (sphere.intersect sqrt ray other).1 ∧
      ((sphere.intersect sqrt ray hit).1 = true →
        sphere.intersect sqrt ray hit = sphere.intersect sqrt ray other) := by
  rcases intersect_cases sqrt sphere ray hit with h0 | ⟨t, _, h1, h2⟩
  · rcases intersect_cases sqrt sphere ray other with h0' | ⟨t', _, _, h2'⟩
    · rw [h0, h0']; simp
    · rw [h2' hit] at h0; cases h0
  · rw [h1, h2 other]; simp

theorem intersect_distance_lt_top (sqrt : K → K) (sphere : Sphere K) (ray : Ray K)
    (hit : Hit K) (h : (sphere.intersect sqrt ray hit).1 = true) :
    (sphere.intersect sqrt ray hit).2.selected_t < ⊤ := by
  rcases intersect_cases sqrt sphere ray hit with h0 | ⟨t, _, h1, _⟩
  · rw [h0] at h; cases h
  · rw [h1]; exact WithTop.coe_lt_top t

theorem intersect_loop_cons_hit (sqrt : K → K) (ray : Ray K) (sphere : Sphere K)
    (mat_index : Nat) (rest : List (Sphere K × Nat)) (hit temp_hit : Hit K) (did_hit : Bool)
    (h : (sphere.intersect sqrt ray Hit.init).1 = true) :
    World.intersect_loop sqrt ray ((sphere, mat_index) :: rest) hit temp_hit did_hit =
      World.intersect_loop sqrt ray rest
        (if (sphere.intersect sqrt ray Hit.init).2.selected_t < hit.selected_t then
          { (sphere.intersect sqrt ray Hit.init).2 with mat_index := mat_index } else hit)
        { (sphere.intersect sqrt ray Hit.init).2 with mat_index := mat_index } true := by
  have hi := intersect_independent sqrt sphere ray Hit.init temp_hit
  rw [World.intersect_loop]
  rw [← hi.2 h]
  cases hx : sphere.intersect sqrt ray Hit.init with
  | mk b th =>
    rw [hx] at h
    simp only [] at h
    subst h
    rfl

theorem intersect_loop_cons_miss (sqrt : K → K) (ray : Ray K) (sphere : Sphere K)
    (mat_index : Nat) (rest : List (Sphere K × Nat)) (hit temp_hit : Hit K) (did_hit : Bool)
    (h : (sphere.intersect sqrt ray Hit.init).1 = false) :
    World.intersect_loop sqrt ray ((sphere, mat_index) :: rest) hit temp_hit did_hit =
      World.intersect_loop sqrt ray rest hit temp_hit did_hit := by
  have hi := intersect_independent sqrt sphere ray Hit.init temp_hit
  rw [hi.1] at h
  rw [World.intersect_loop, intersect_miss_keeps sqrt sphere ray temp_hit h]

theorem intersect_loop_fst (sqrt : K → K) (ray : Ray K) (spheres : List (Sphere K × Nat)) :
    ∀ (hit temp_hit : Hit K) (did_hit : Bool),
      (World.intersect_loop sqrt ray spheres hit temp_hit did_hit).1 = true ↔
        (did_hit = true ∨ ∃ entry ∈ spheres, (entry.1.intersect sqrt ray Hit.init).1 = true) := by
  induction spheres with
  | nil => intro hit temp_hit did_hit; simp [World.intersect_loop]
  | cons entry rest ih =>
    intro hit temp_hit did_hit
    obtain ⟨sphere, mat_index⟩ := entry
    cases h : (sphere.intersect sqrt ray Hit.init).1 with
    | true =>
      rw [intersect_loop_cons_hit sqrt ray sphere mat_index rest hit temp_hit did_hit h, ih]
      simp [h]
    | false =>
      rw [intersect_loop_cons_miss sqrt ray sphere mat_index rest hit temp_hit did_hit h, ih]
      simp [h]

theorem intersect_loop_snd (sqrt : K → K) (ray : Ray K) (spheres : List (Sphere K × Nat)) :
    ∀ (hit temp_hit : Hit K) (did_hit : Bool),
      ((World.intersect_loop sqrt ray spheres hit temp_hit did_hit).2 = hit ∧
        ∀ entry ∈ spheres, (entry.1.intersect sqrt ray Hit.init).1 = true →
          hit.selected_t ≤ (entry.1.intersect sqrt ray Hit.init).2.selected_t) ∨
      ∃ (pre : List (Sphere K × Nat)) (sphere : Sphere K) (mat_index : Nat)
          (post : List (Sphere K × Nat)),
        spheres = pre ++ (sphere, mat_index) :: post ∧
        (sphere.intersect sqrt ray Hit.init).1 = true ∧
        (sphere.intersect sqrt ray Hit.init).2.selected_t < hit.selected_t ∧
        (World.intersect_loop sqrt ray spheres hit temp_hit did_hit).2 =
          { (sphere.intersect sqrt ray Hit.init).2 with mat_index := mat_index } ∧
        (∀ entry ∈ pre, (entry.1.intersect sqrt ray Hit.init).1 = true →
          (sphere.intersect sqrt ray Hit.init).2.selected_t
            < (entry.1.intersect sqrt ray Hit.init).2.selected_t) ∧
        (∀ entry ∈ post, (entry.1.intersect sqrt ray Hit.init).1 = true →
          (sphere.intersect sqrt ray Hit.init).2.selected_t
            ≤ (entry.1.intersect sqrt ray Hit.init).2.selected_t) := by
  induction spheres with
  | nil => intro hit temp_hit did_hit; left; simp [World.intersect_loop]
  | cons entry rest ih =>
    intro hit temp_hit did_hit
    obtain ⟨sphere, mat_index⟩ := entry
    cases h : (sphere.intersect sqrt ray Hit.init).1 with
    | false =>
      rw [intersect_loop_cons_miss sqrt ray sphere mat_index rest hit temp_hit did_hit h]
      rcases ih hit temp_hit did_hit with ⟨e1, e2⟩ | ⟨pre, s, m, post, e1, e2, e3, e4, e5, e6⟩
      · left
        refine ⟨e1, ?_⟩
        intro entry hmem hhit
        rcases List.mem_cons.mp hmem with rfl | hmem
        · rw [h] at hhit; cases hhit
        · exact e2 entry hmem hhit
      · right
        refine ⟨(sphere, mat_index) :: pre, s, m, post, by rw [e1]; rfl, e2, e3, e4, ?_, e6⟩
        intro entry hmem hhit
        rcases List.mem_cons.mp hmem with rfl | hmem
        · rw [h] at hhit; cases hhit
        · exact e5 entry hmem hhit
    | true =>
      rw [intersect_loop_cons_hit sqrt ray sphere mat_index rest hit temp_hit did_hit h]
      by_cases hlt : (sphere.intersect sqrt ray Hit.init).2.selected_t < hit.selected_t
      · rw [if_pos hlt]
        rcases ih { (sphere.intersect sqrt ray Hit.init).2 with mat_index := mat_index }
            { (sphere.intersect sqrt ray Hit.init).2 with mat_index := mat_index } true with
          ⟨e1, e2⟩ | ⟨pre, s, m, post, e1, e2, e3, e4, e5, e6⟩
        · right
          exact ⟨[], sphere, mat_index, rest, rfl, h, hlt, e1, by simp, e2⟩
        · right
          refine ⟨(sphere, mat_index) :: pre, s, m, post, by rw [e1]; rfl, e2,
            lt_trans e3 hlt, e4, ?_, e6⟩
          intro entry hmem hhit
          rcases List.mem_cons.mp hmem with rfl | hmem
          · exact e3
          · exact e5 entry hmem hhit
      · rw [if_neg hlt]
        rcases ih hit { (sphere.intersect sqrt ray Hit.init).2 with mat_index := mat_index }
            true with ⟨e1, e2⟩ | ⟨pre, s, m, post, e1, e2, e3, e4, e5, e6⟩
        · left
          refine ⟨e1, ?_⟩
          intro entry hmem hhit
          rcases List.mem_cons.mp hmem with rfl | hmem
          · exact not_lt.mp hlt
          · exact e2 entry hmem hhit
        · right
          refine ⟨(sphere, mat_index) :: pre, s, m, post, by rw [e1]; rfl, e2, e3, e4, ?_, e6⟩
          intro entry hmem hhit
          rcases List.mem_cons.mp hmem with rfl | hmem
          · exact lt_of_lt_of_le e3 (not_lt.mp hlt)
          · exact e5 entry hmem hhit

theorem world_intersect_hit (sqrt : K → K) (spheres : List (Sphere K × Nat)) (ray : Ray K)
    (hit : Hit K)
    (h : (World.intersect_loop sqrt ray spheres { hit with selected_t := ⊤ } Hit.init false).1
      = true) :
    ∃ (pre : List (Sphere K × Nat)) (sphere : Sphere K) (mat_index : Nat)
        (post : List (Sphere K × Nat)),
      spheres = pre ++ (sphere, mat_index) :: post ∧
      (sphere.intersect sqrt ray Hit.init).1 = true ∧
      (World.intersect_loop sqrt ray spheres { hit with selected_t := ⊤ } Hit.init false).2 =
        { (sphere.intersect sqrt ray Hit.init).2 with mat_index := mat_index } ∧
      (∀ entry ∈ pre, (entry.1.intersect sqrt ray Hit.init).1 = true →
        (sphere.intersect sqrt ray Hit.init).2.selected_t
          < (entry.1.intersect sqrt ray Hit.init).2.selected_t) ∧
      (∀ entry ∈ post, (entry.1.intersect sqrt ray Hit.init).1 = true →
        (sphere.intersect sqrt ray Hit.init).2.selected_t
          ≤ (entry.1.intersect sqrt ray Hit.init).2.selected_t) := by
  rcases intersect_loop_snd sqrt ray spheres { hit with selected_t := ⊤ } Hit.init false with
    ⟨_, e2⟩ | ⟨pre, s, m, post, e1, e2, _, e4, e5, e6⟩
  · exfalso
    rcases (intersect_loop_fst sqrt ray spheres _ _ _).mp h with hf | ⟨entry, hmem, hhit⟩
    · cases hf
    · have h1 := e2 entry hmem hhit
      have h2 := intersect_distance_lt_top sqrt entry.1 ray Hit.init hhit
      exact absurd (lt_of_le_of_lt h1 h2) (lt_irrefl _)
  · exact ⟨pre, s, m, post, e1, e2, e4, e5, e6⟩

theorem world_intersect_two (sqrt : K → K) (ray : Ray K) (hit : Hit K)
    (s1 : Sphere K) (m1 : Nat) (s2 : Sphere K) (m2 : Nat)
    (h1 : (s1.intersect sqrt ray Hit.init).1 = true)
    (h2 : (s2.intersect sqrt ray Hit.init).1 = true) :
    World.intersect_loop sqrt ray [(s1, m1), (s2, m2)] { hit with selected_t := ⊤ } Hit.init false
      = (true,
          if (s2.intersect sqrt ray Hit.init).2.selected_t
              < (s1.intersect sqrt ray Hit.init).2.selected_t then
            { (s2.intersect sqrt ray Hit.init).2 with mat_index := m2 }
          else { (s1.intersect sqrt ray Hit.init).2 with mat_index := m1 }) := by
  rw [intersect_loop_cons_hit sqrt ray s1 m1 _ _ _ _ h1,
    intersect_loop_cons_hit sqrt ray s2 m2 _ _ _ _ h2]
  simp only [World.intersect_loop]
  rw [if_pos (intersect_distance_lt_top sqrt s1 ray Hit.init h1)]

/-- C15: `World::intersect` returns `true` exactly when some sphere of the
list reports a hit (what a sphere reports does not depend on the `Hit` it is
handed); returning `false` it leaves the caller's `Hit` with distance
infinity; returning `true` it leaves the hit of a sphere of the list, with the
material index paired with that sphere, whose distance is strictly below that
of every hit of an earlier sphere and at most that of every hit of a later
one.  For a list of two spheres that are both hit the result is the hit of the
second if it is strictly nearer and of the first otherwise; where both spheres
lie ahead of the ray (smaller roots above the epsilon, square roots exact)
those hits are the spheres' nearer surface points. -/
theorem world_intersect_closest_hit {K R : Type} [LinearOrderedField K] (sqrt : K → K)
    (world : World K R) (ray : Ray K) (hit : Hit K) :
    (∀ (sphere : Sphere K) (a b : Hit K),
      (sphere.intersect sqrt ray a).1 = (sphere.intersect sqrt ray b).1 ∧
        ((sphere.intersect sqrt ray a).1 = true →
          sphere.intersect sqrt ray a = sphere.intersect sqrt ray b)) ∧
    ((world.intersect sqrt ray hit).1 = true ↔
      ∃ entry ∈ world.spheres, (entry.1.intersect sqrt ray Hit.init).1 = true) ∧
    ((world.intersect sqrt ray hit).1 = false →
      (world.intersect sqrt ray hit).2 = { hit with selected_t := ⊤ }) ∧
    ((world.intersect sqrt ray hit).1 = true →
      ∃ (pre : List (Sphere K × Nat)) (sphere : Sphere K) (mat_index : Nat)
          (post : List (Sphere K × Nat)),
        world.spheres = pre ++ (sphere, mat_index) :: post ∧
        (sphere.intersect sqrt ray Hit.init).1 = true ∧
        (world.intersect sqrt ray hit).2 =
          { (sphere.intersect sqrt ray Hit.init).2 with mat_index := mat_index } ∧
        (∀ entry ∈ pre, (entry.1.intersect sqrt ray Hit.init).1 = true →
          (sphere.intersect sqrt ray Hit.init).2.selected_t
            < (entry.1.intersect sqrt ray Hit.init).2.selected_t) ∧
        (∀ entry ∈ post, (entry.1.intersect sqrt ray Hit.init).1 = true →
          (sphere.intersect sqrt ray Hit.init).2.selected_t
            ≤ (entry.1.intersect sqrt ray Hit.init).2.selected_t)) ∧
    (∀ (s1 : Sphere K) (m1 : Nat) (s2 : Sphere K) (m2 : Nat),
      world.spheres = [(s1, m1), (s2, m2)] →
      ((s1.intersect sqrt ray Hit.init).1 = true → (s2.intersect sqrt ray Hit.init).1 = true →
        world.intersect sqrt ray hit =
          (true,
            if (s2.intersect sqrt ray Hit.init).2.selected_t
                < (s1.intersect sqrt ray Hit.init).2.selected_t then
              { (s2.intersect sqrt ray Hit.init).2 with mat_index := m2 }
            else { (s1.intersect sqrt ray Hit.init).2 with mat_index := m1 })) ∧
      (0 ≤ sqrt (s1.discriminant ray) →
        sqrt (s1.discriminant ray) * sqrt (s1.discriminant ray) = s1.discriminant ray →
        0.0001 < -s1.h ray - sqrt (s1.discriminant ray) →
        0 ≤ sqrt (s2.discriminant ray) →
        sqrt (s2.discriminant ray) * sqrt (s2.discriminant ray) = s2.discriminant ray →
        0.0001 < -s2.h ray - sqrt (s2.discriminant ray) →
        world.intersect sqrt ray hit =
          (true,
            if -s2.h ray - sqrt (s2.discriminant ray) < -s1.h ray - sqrt (s1.discriminant ray) then
              { Hit.at_distance sqrt s2 ray (-s2.h ray - sqrt (s2.discriminant ray)) with
                mat_index := m2 }
            else
              { Hit.at_distance sqrt s1 ray (-s1.h ray - sqrt (s1.discriminant ray)) with
                mat_index := m1 }))) := by
  refine ⟨fun sphere a b => intersect_independent sqrt sphere ray a b, ?_, ?_, ?_, ?_⟩
  · unfold World.intersect
    rw [intersect_loop_fst]
    simp
  · intro h
    unfold World.intersect at h ⊢
    rcases intersect_loop_snd sqrt ray world.spheres { hit with selected_t := ⊤ } Hit.init
        false with ⟨e1, _⟩ | ⟨pre, s, m, post, e1, e2, _, _, _, _⟩
    · exact e1
    · exfalso
      have hh := (intersect_loop_fst sqrt ray world.spheres { hit with selected_t := ⊤ }
        Hit.init false).mpr (Or.inr ⟨(s, m), by rw [e1]; simp, e2⟩)
      rw [h] at hh
      cases hh
  · intro h
    exact world_intersect_hit sqrt world.spheres ray hit h
  · intro s1 m1 s2 m2 hw
    constructor
    · intro h1 h2
      unfold World.intersect
      rw [hw]
      exact world_intersect_two sqrt ray hit s1 m1 s2 m2 h1 h2
    · intro a1 b1 c1 a2 b2 c2
      have i1 := intersect_at_smaller_root sqrt s1 ray Hit.init a1 b1 c1
      have i2 := intersect_at_smaller_root sqrt s2 ray Hit.init a2 b2 c2
      unfold World.intersect
      rw [hw, world_intersect_two sqrt ray hit s1 m1 s2 m2 (by rw [i1]) (by rw [i2]), i1, i2]
      simp only [Hit.at_distance, WithTop.coe_lt_coe]

theorem near_sphere_axis :
    near_sphere.h axis_ray = -2 ∧ near_sphere.discriminant axis_ray = 1 := by
  constructor <;>
    norm_num [Sphere.discriminant, Sphere.h, near_sphere, axis_ray, dot]

theorem far_sphere_hit (hit : Hit ℚ) :
    far_sphere.intersect sqrt_of_one axis_ray hit = (true, facing_hit) := by
  have e3 : -far_sphere.h axis_ray - sqrt_of_one (far_sphere.discriminant axis_ray) = 2 := by
    rw [far_sphere_axis.1]; norm_num [sqrt_of_one]
  rw [intersect_at_smaller_root sqrt_of_one far_sphere axis_ray hit
    (by norm_num [sqrt_of_one]) (by rw [far_sphere_axis.2]; norm_num [sqrt_of_one])
    (by rw [e3]; norm_num), e3]
  norm_num [Hit.at_distance, facing_hit, Ray.at, normalize, sqrt_of_one, far_sphere, axis_ray,
    vec3.ext_iff3, vec3.splat]

/-- C15 on two spheres one behind the other, the farther one first in the
list: the hit is that of the nearer sphere, listed second, at distance 1, with
its material index 1. -/
theorem world_intersect_closest_hit_witness :
    two_sphere_world.intersect sqrt_of_one axis_ray Hit.init =
      (true,
        { point := { x := 0, y := 0, z := -1 }
          normal := { x := 0, y := 0, z := 1 }
          selected_t := ((1 : ℚ) : WithTop ℚ)
          mat_index := 1
          front_face := true }) := by
  have f3 : -far_sphere.h axis_ray - sqrt_of_one (far_sphere.discriminant axis_ray) = 2 := by
    rw [far_sphere_axis.1]; norm_num [sqrt_of_one]
  have n3 : -near_sphere.h axis_ray - sqrt_of_one (near_sphere.discriminant axis_ray) = 1 := by
    rw [near_sphere_axis.1]; norm_num [sqrt_of_one]
  rw [((world_intersect_closest_hit sqrt_of_one two_sphere_world axis_ray Hit.init).2.2.2.2
      far_sphere 0 near_sphere 1 rfl).2
    (by norm_num [sqrt_of_one]) (by rw [far_sphere_axis.2]; norm_num [sqrt_of_one])
    (by rw [f3]; norm_num)
    (by norm_num [sqrt_of_one]) (by rw [near_sphere_axis.2]; norm_num [sqrt_of_one])
    (by rw [n3]; norm_num), f3, n3]
  norm_num [Hit.at_distance, Ray.at, normalize, sqrt_of_one, near_sphere, axis_ray,
    vec3.ext_iff3, vec3.splat]

theorem zero_literal : (0.0 : K) = 0 := by norm_num

theorem one_literal : (1.0 : K) = 1 := by norm_num

theorem splat_one_mul (v : vec3 K) : vec3.splat (1.0 : K) * v = v := by
  rw [vec3.ext_iff3]
  simp [one_literal]

theorem world_intersect_mat_index {R : Type} (sqrt : K → K) (world : World K R) (ray : Ray K)
    (hit : Hit K) (h : (world.intersect sqrt ray hit).1 = true) :
    ∃ entry ∈ world.spheres, (world.intersect sqrt ray hit).2.mat_index = entry.2 := by
  obtain ⟨pre, s, m, post, e1, _, e3, _, _⟩ := world_intersect_hit sqrt world.spheres ray hit h
  refine ⟨(s, m), by rw [e1]; simp, ?_⟩
  unfold World.intersect
  rw [e3]

theorem ray_color_loop_exhausted {R : Type} (sqrt : K → K) (world : World K R)
    (hwf : ∀ entry ∈ world.spheres, entry.2 < world.materials.length) :
    ∀ (max_depth : Nat) (ray : Ray K) (hit : Hit K) (current : vec3 K) (rand : R),
      escapes sqrt world max_depth ray hit rand = false →
      ∃ rand1 : R,
        ray_color_loop sqrt world max_depth ray hit current rand = .ok (vec3.splat 0, rand1) := by
  intro max_depth
  induction max_depth with
  | zero =>
    intro ray hit current rand _
    exact ⟨rand, by rw [ray_color_loop, zero_literal]⟩
  | succ n ih =>
    intro ray hit current rand hesc
    rw [escapes] at hesc
    rw [ray_color_loop]
    have hmat := world_intersect_mat_index sqrt world ray hit
    cases hi : world.intersect sqrt ray hit with
    | mk b hit1 =>
      rw [hi] at hesc hmat
      cases b with
      | false => simp at hesc
      | true =>
        obtain ⟨entry, hmem, hidx⟩ := hmat rfl
        simp only [] at hidx hesc ⊢
        have hlt : hit1.mat_index < world.materials.length := by
          rw [hidx]; exact hwf entry hmem
        have hsc : world.scatter ray.direction hit1 rand =
            .ok ((world.materials.get ⟨hit1.mat_index, hlt⟩).scatter ray.direction hit1 rand) := by
          unfold World.scatter
          rw [List.getElem?_eq_getElem hlt]
          rfl
        rw [hsc] at hesc ⊢
        simp only [] at hesc ⊢
        by_cases hz : ((world.materials.get ⟨hit1.mat_index, hlt⟩).scatter ray.direction hit1
            rand).1.1 = vec3.splat 0.0
        · rw [if_pos hz]
          exact ⟨_, by rw [zero_literal]⟩
        · rw [if_neg hz] at hesc ⊢
          exact ih _ _ _ _ hesc

/-- C11: with `max_depth = 0`, `ray_color` returns the zero colour and leaves
the random engine alone, whatever the scene; and for every `max_depth`, in a
world whose spheres all carry the index of a material the world has, if the
path of the ray does not leave the scene within the budget, `ray_color`
returns the zero colour. -/
theorem ray_color_depth_exhausted {K R : Type} [LinearOrderedField K] (sqrt : K → K)
    (world : World K R) (ray : Ray K) (rand : R) :
    ray_color sqrt ray world 0 rand = .ok (vec3.splat 0, rand) ∧
    ∀ max_depth : Nat,
      (∀ entry ∈ world.spheres, entry.2 < world.materials.length) →
      escapes sqrt world max_depth ray Hit.init rand = false →
      ∃ rand1 : R, ray_color sqrt ray world max_depth rand = .ok (vec3.splat 0, rand1) := by
  constructor
  · unfold ray_color
    rw [ray_color_loop, zero_literal]
  · intro max_depth hwf hesc
    exact ray_color_loop_exhausted sqrt world hwf max_depth ray Hit.init _ rand hesc

theorem two_sphere_world_hit (hit : Hit ℚ) :
    two_sphere_world.intersect sqrt_of_one axis_ray hit =
      (true,
        { point := { x := 0, y := 0, z := -1 }
          normal := { x := 0, y := 0, z := 1 }
          selected_t := ((1 : ℚ) : WithTop ℚ)
          mat_index := 1
          front_face := true }) := by
  have f3 : -far_sphere.h axis_ray - sqrt_of_one (far_sphere.discriminant axis_ray) = 2 := by
    rw [far_sphere_axis.1]; norm_num [sqrt_of_one]
  have n3 : -near_sphere.h axis_ray - sqrt_of_one (near_sphere.discriminant axis_ray) = 1 := by
    rw [near_sphere_axis.1]; norm_num [sqrt_of_one]
  have i1 := intersect_at_smaller_root sqrt_of_one far_sphere axis_ray Hit.init
    (by norm_num [sqrt_of_one]) (by rw [far_sphere_axis.2]; norm_num [sqrt_of_one])
    (by rw [f3]; norm_num)
  have i2 := intersect_at_smaller_root sqrt_of_one near_sphere axis_ray Hit.init
    (by norm_num [sqrt_of_one]) (by rw [near_sphere_axis.2]; norm_num [sqrt_of_one])
    (by rw [n3]; norm_num)
  unfold World.intersect
  rw [show two_sphere_world.spheres = [(far_sphere, 0), (near_sphere, 1)] from rfl,
    world_intersect_two sqrt_of_one axis_ray hit far_sphere 0 near_sphere 1 (by rw [i1])
      (by rw [i2]), i1, i2, f3, n3]
  norm_num [Hit.at_distance, Ray.at, normalize, sqrt_of_one, near_sphere, axis_ray,
    vec3.ext_iff3, vec3.splat]

/-- C11 on the world of two grey spheres with a budget of one bounce: the ray
hits the nearer sphere, the material halves the colour, the budget is spent,
and the result is the zero colour (the random engine has been used once). -/
theorem ray_color_depth_exhausted_witness :
    ((∀ entry ∈ two_sphere_world.spheres, entry.2 < two_sphere_world.materials.length) ∧
      escapes sqrt_of_one two_sphere_world 1 axis_ray Hit.init 0 = false) ∧
    ray_color sqrt_of_one axis_ray two_sphere_world 0 0 = .ok (vec3.splat 0, 0) ∧
    ∃ rand1 : Nat,
      ray_color sqrt_of_one axis_ray two_sphere_world 1 0 = .ok (vec3.splat 0, rand1) := by
  have hwf : ∀ entry ∈ two_sphere_world.spheres,
      entry.2 < two_sphere_world.materials.length := by
    intro entry hmem
    simp only [two_sphere_world, List.mem_cons, List.mem_singleton, List.not_mem_nil,
      or_false] at hmem
    rcases hmem with rfl | rfl <;> decide
  have hesc : escapes sqrt_of_one two_sphere_world 1 axis_ray Hit.init 0 = false := by
    rw [escapes, two_sphere_world_hit]
    simp [World.scatter, two_sphere_world, grey, escapes]
  exact ⟨⟨hwf, hesc⟩,
    (ray_color_depth_exhausted sqrt_of_one two_sphere_world axis_ray 0).1,
    (ray_color_depth_exhausted sqrt_of_one two_sphere_world axis_ray 0).2 1 hwf hesc⟩

/-- C12: in a world without spheres `World::intersect` reports no hit, and for
every `max_depth` of at least 1 `ray_color` returns `as_background (ray)`
unchanged and leaves the random engine alone; that colour is
`(1 - t) * (1, 1, 1) + t * (0.5, 0.7, 1.0)` with `t = 0.5 * (direction.y + 1)`. -/
theorem empty_scene_background {K R : Type} [LinearOrderedField K] (sqrt : K → K)
    (materials : List (material_traits K R)) (ray : Ray K) (hit : Hit K) (max_depth : Nat)
    (rand : R) (hdepth : 1 ≤ max_depth) :
    (World.intersect sqrt { materials := materials, spheres := [] } ray hit).1 = false ∧
    ray_color sqrt ray { materials := materials, spheres := [] } max_depth rand
      = .ok (as_background ray, rand) ∧
    as_background ray =
      (1 - 0.5 * (ray.direction.y + 1)) • ({ x := 1, y := 1, z := 1 } : vec3 K)
        + (0.5 * (ray.direction.y + 1)) • { x := 0.5, y := 0.7, z := 1 } := by
  refine ⟨rfl, ?_, ?_⟩
  · obtain ⟨n, rfl⟩ : ∃ n, max_depth = n + 1 := ⟨max_depth - 1, by omega⟩
    unfold ray_color
    rw [ray_color_loop]
    simp only [World.intersect, World.intersect_loop]
    rw [splat_one_mul]
  · simp only [as_background, one_literal]

/-- C12 for the budget of 50 the renderer uses and the ray up the `y` axis,
where `t = 1`: the colour is `(0.5, 0.7, 1.0)`. -/
theorem empty_scene_background_witness :
    1 ≤ 50 ∧
    ray_color sqrt_of_one up_ray ({ materials := [grey], spheres := [] } : World ℚ Nat) 50 7
      = .ok ({ x := 1 / 2, y := 7 / 10, z := 1 }, 7) := by
  have h := (empty_scene_background sqrt_of_one [grey] up_ray Hit.init 50 7 (by decide)).2
  refine ⟨by decide, ?_⟩
  rw [h.1, h.2]
  norm_num [up_ray, vec3.ext_iff3]

/-- C16: `Hit::make_facing_outwards` flips the normal exactly when it opposes
the ray (`dot (direction, normal) < 0`), so that afterwards the normal never
opposes the ray: `0 ≤ dot (direction, normal)`, and `dot ≤ 0` fails whenever
the dot product was not zero.  `front_face` is `false` afterwards exactly when
the normal was flipped or `front_face` was `false` before.  On the hit of the
ray down the `z` axis on the sphere in front of it (normal `(0, 0, 1)`, facing
the ray) the call turns the normal to `(0, 0, -1)`, along the ray, and the dot
product is 1 afterwards. -/
theorem make_facing_outwards_aligns_normal :
    (∀ (K : Type) [LinearOrderedField K] (hit : Hit K) (ray : Ray K),
      0 ≤ dot ray.direction (hit.make_facing_outwards ray).normal ∧
      (dot ray.direction hit.normal ≠ 0 →
        ¬ dot ray.direction (hit.make_facing_outwards ray).normal ≤ 0) ∧
      (dot ray.direction hit.normal < 0 →
        hit.make_facing_outwards ray
          = { hit with front_face := false, normal := (-1 : K) • hit.normal }) ∧
      (¬ dot ray.direction hit.normal < 0 → hit.make_facing_outwards ray = hit) ∧
      ((hit.make_facing_outwards ray).front_face = false ↔
        (dot ray.direction hit.normal < 0 ∨ hit.front_face = false))) ∧
    far_sphere.intersect sqrt_of_one axis_ray Hit.init = (true, facing_hit) ∧
    facing_hit.make_facing_outwards axis_ray =
      { facing_hit with front_face := false, normal := { x := 0, y := 0, z := -1 } } ∧
    dot axis_ray.direction (facing_hit.make_facing_outwards axis_ray).normal = 1 ∧
    ¬ dot axis_ray.direction (facing_hit.make_facing_outwards axis_ray).normal ≤ 0 := by
  have hflip : ∀ (K : Type) [LinearOrderedField K] (d n : vec3 K),
      dot d ((-1 : K) • n) = -dot d n := by
    intro K _ d n
    simp only [dot, vec3.smul_x, vec3.smul_y, vec3.smul_z]
    ring
  have hconc : facing_hit.make_facing_outwards axis_ray =
      { facing_hit with front_face := false, normal := { x := 0, y := 0, z := -1 } } := by
    unfold Hit.make_facing_outwards
    rw [if_pos (by norm_num [facing_hit, axis_ray, dot])]
    norm_num [facing_hit, vec3.ext_iff3]
  refine ⟨?_, far_sphere_hit Hit.init, hconc, ?_, ?_⟩
  · intro K _ hit ray
    unfold Hit.make_facing_outwards
    by_cases hneg : dot ray.direction hit.normal < 0
    · simp only [if_pos hneg, hflip]
      refine ⟨by linarith, fun _ => by linarith, fun _ => trivial, fun h => absurd hneg h, ?_⟩
      simp [hneg]
    · simp only [if_neg hneg]
      refine ⟨not_lt.mp hneg, fun h0 => ?_, fun h => absurd h hneg, fun _ => trivial, ?_⟩
      · intro hle
        exact h0 (le_antisymm hle (not_lt.mp hneg))
      · simp [hneg]
  · rw [hconc]; norm_num [axis_ray, dot]
  · rw [hconc]; norm_num [axis_ray, dot]

end world

/-- The clamped value `glm::clamp (ch * 255.999, 0.0, 255.999)`. -/
theorem clamp_bounds {K : Type} [LinearOrderedField K] (ch : K) :
    0 ≤ min (max (ch * 255.999) 0) 255.999 ∧ min (max (ch * 255.999) 0) 255.999 < 256 := by
  constructor
  · exact le_min (le_max_right _ _) (by norm_num)
  · exact lt_of_le_of_lt (min_le_right _ _) (by norm_num)

section packing

variable {K : Type} [LinearOrderedField K] [FloorRing K]

theorem floor_clamp_bounds (ch : K) :
    0 ≤ Int.floor (min (max (ch * 255.999) 0) 255.999) ∧
      Int.floor (min (max (ch * 255.999) 0) 255.999) < 256 := by
  have h := clamp_bounds ch
  constructor
  · exact Int.floor_nonneg.mpr h.1
  · exact Int.floor_lt.mpr (by exact_mod_cast h.2)

theorem make_channel_integer_eq (ch : K) :
    (make_channel_integer ch : Int) = Int.floor (min (max (ch * 255.999) 0) 255.999) := by
  have h := floor_clamp_bounds ch
  unfold make_channel_integer
  omega

/-- C17: `make_channel_integer` is the floor, which for a value that is not
negative is the truncation toward zero, of `clamp (ch * 255.999, 0, 255.999)`;
it is 255 for every `ch ≥ 1`, 0 for every `ch ≤ 0`, at most 255 always, and
monotone. -/
theorem channel_packing_clamped_monotone (K : Type) [LinearOrderedField K] [FloorRing K] :
    (∀ ch : K, (make_channel_integer ch : Int)
        = Int.floor (min (max (ch * 255.999) 0) 255.999) ∧
      0 ≤ min (max (ch * 255.999) 0) 255.999) ∧
    (∀ ch : K, 1 ≤ ch → make_channel_integer ch = 255) ∧
    (∀ ch : K, ch ≤ 0 → make_channel_integer ch = 0) ∧
    (∀ ch : K, make_channel_integer ch ≤ 255) ∧
    (∀ a b : K, a ≤ b → make_channel_integer a ≤ make_channel_integer b) := by
  refine ⟨fun ch => ⟨make_channel_integer_eq ch, (clamp_bounds ch).1⟩, ?_, ?_, ?_, ?_⟩
  · intro ch h1
    have e : min (max (ch * 255.999) 0) 255.999 = (255.999 : K) := by
      apply min_eq_right
      apply le_max_of_le_left
      nlinarith [show (0 : K) < 255.999 by norm_num]
    have hf : Int.floor (255.999 : K) = 255 := by
      rw [Int.floor_eq_iff]
      constructor <;> norm_num
    have := make_channel_integer_eq ch
    rw [e, hf] at this
    exact_mod_cast this
  · intro ch h0
    have e : min (max (ch * 255.999) 0) 255.999 = (0 : K) := by
      rw [max_eq_right (by nlinarith [show (0 : K) < 255.999 by norm_num])]
      exact min_eq_left (by norm_num)
    have := make_channel_integer_eq ch
    rw [e, Int.floor_zero] at this
    exact_mod_cast this
  · intro ch
    have := make_channel_integer_lt ch
    omega
  · intro a b hab
    have ha := make_channel_integer_eq a
    have hb := make_channel_integer_eq b
    have hmono : min (max (a * 255.999) 0) 255.999 ≤ min (max (b * 255.999) 0) (255.999 : K) := by
      apply min_le_min_right
      apply max_le_max_right
      nlinarith [show (0 : K) < 255.999 by norm_num]
    have := Int.floor_mono hmono
    omega

/-- C18: the word `to_abgr` returns is `0xFF000000 + B * 65536 + G * 256 + R`
for the channel bytes `R`, `G`, `B` of `make_channel_integer`; it fits 32
bits; shifting and masking give back 255 from bits 24..31, `B` from bits
16..23, `G` from bits 8..15 and `R` from bits 0..7; it is never zero. -/
theorem pixel_word_layout {K : Type} [LinearOrderedField K] [FloorRing K] (color : vec3 K) :
    to_abgr color = 0xFF000000 + make_channel_integer color.b * 65536
      + make_channel_integer color.g * 256 + make_channel_integer color.r ∧
    to_abgr color < 2 ^ 32 ∧
    (to_abgr color >>> 24) &&& 0xff = 255 ∧
    (to_abgr color >>> 16) &&& 0xff = make_channel_integer color.b ∧
    (to_abgr color >>> 8) &&& 0xff = make_channel_integer color.g ∧
    to_abgr color &&& 0xff = make_channel_integer color.r ∧
    to_abgr color ≠ 0 := by
  have hr := make_channel_integer_lt color.r
  have hg := make_channel_integer_lt color.g
  have hb := make_channel_integer_lt color.b
  have he := to_abgr_eq color
  have hmask : ∀ n : Nat, n &&& 0xff = n % 256 := fun n =>
    Nat.and_pow_two_sub_one_eq_mod n 8
  refine ⟨he, by omega, ?_, ?_, ?_, ?_, by omega⟩
  · rw [hmask, Nat.shiftRight_eq_div_pow]; omega
  · rw [hmask, Nat.shiftRight_eq_div_pow]; omega
  · rw [hmask, Nat.shiftRight_eq_div_pow]; omega
  · rw [hmask]; omega

end packing

namespace threading

/-- A thread that runs through `try_emplace` with no other thread moving does
what the method does as a whole. -/
theorem interleave_alone {T : Type} (q : mpsc_queue T) (v : T) :
    interleave q [Producer.start v] [0, 0, 0, 0, 0] =
      match q.try_emplace v with
      | .error e => .error e
      | .ok (b, q1) =>
        .ok (q1, [{ value := v, stage := .returned b, write := if b then q.write_handle else 0 }]) := by
  unfold mpsc_queue.try_emplace
  by_cases hfull : q.cap = q.elem_count
  · simp [interleave, Producer.step, Producer.start, hfull]
  · by_cases hw : q.write_handle < q.cap
    · simp [interleave, Producer.step, Producer.start, hfull, hw]
    · simp [interleave, Producer.step, Producer.start, hfull, hw]

/-- C19: three threads call `try_emplace` on a fresh channel of capacity 4
with the values 10, 20 and 30.  Thread 0 is assigned slot 0 and pauses before
writing; thread 1 is assigned slot 1, writes 20 there and returns `true`;
thread 0 writes 10 and its final store sets `write_handle` back to 1; thread 2
is assigned slot 1 again and writes 30 over the undelivered 20.  All three
calls have returned `true`, the counter says 3, and the consumer is handed 10
and 30 and then `nullptr`: the value 20 is lost. -/
theorem concurrent_try_emplace_reuses_slot :
    interleave (mpsc_queue.construct 4) [Producer.start 10, Producer.start 20, Producer.start 30]
        lost_insert_schedule =
      .ok ({ buffer := [some 10, some 30, none, none]
             read_handle := 0
             cap := 4
             write_handle := 2
             elem_count := 3 },
        [{ value := 10, stage := .returned true, write := 0 },
         { value := 20, stage := .returned true, write := 1 },
         { value := 30, stage := .returned true, write := 1 }]) ∧
    (drain 4 ({ buffer := [some 10, some 30, none, none]
                read_handle := 0
                cap := 4
                write_handle := 2
                elem_count := 3 } : mpsc_queue Nat)).1 = [some 10, some 30] ∧
    try_emplace_all (mpsc_queue.construct 4) [10, 20, 30] =
      .ok ([true, true, true],
        { buffer := [some 10, some 20, some 30, none]
          read_handle := 0
          cap := 4
          write_handle := 3
          elem_count := 3 }) := by
  refine ⟨by decide, by decide, by decide⟩

end threading

section tangent

variable {K : Type} [LinearOrderedField K]

theorem intersect_at_larger_root (sqrt : K → K) (sphere : Sphere K) (ray : Ray K)
    (hit : Hit K) (hd : 0 ≤ sphere.discriminant ray)
    (h0 : 0 ≤ -sphere.h ray + sqrt (sphere.discriminant ray))
    (habs : |(-sphere.h ray + sqrt (sphere.discriminant ray))|
      ≤ |(-sphere.h ray - sqrt (sphere.discriminant ray))|)
    (h1 : 0.0001 < -sphere.h ray + sqrt (sphere.discriminant ray)) :
    sphere.intersect sqrt ray hit =
      (true, Hit.at_distance sqrt sphere ray (-sphere.h ray + sqrt (sphere.discriminant ray))) := by
  apply intersect_of_selected sqrt sphere ray hit hd _ _ h1
  rw [if_neg]
  intro h
  rcases h with h | h
  · exact absurd h (not_lt.mpr h0)
  · exact absurd h (not_lt.mpr habs)

theorem intersect_of_small (sqrt : K → K) (sphere : Sphere K) (ray : Ray K)
    (hit : Hit K) (hd : 0 ≤ sphere.discriminant ray)
    (h0 : 0 ≤ -sphere.h ray + sqrt (sphere.discriminant ray))
    (habs : |(-sphere.h ray + sqrt (sphere.discriminant ray))|
      ≤ |(-sphere.h ray - sqrt (sphere.discriminant ray))|)
    (h1 : -sphere.h ray + sqrt (sphere.discriminant ray) ≤ 0.0001) :
    sphere.intersect sqrt ray hit = (false, hit) := by
  unfold Sphere.intersect
  simp only []
  rw [if_neg (not_lt.mpr hd), if_neg]
  · simp only []
    rw [if_pos h1]
  · intro h
    rcases h with h | h
    · exact absurd h (not_lt.mpr h0)
    · exact absurd h (not_lt.mpr habs)

/-- C21: a ray that is tangent to the sphere (discriminant zero, its square
root zero) with the point of contact ahead of the origin by more than the
epsilon (`-h > 0.0001`) is reported as a hit by `Sphere::intersect`, at the
distance `-h` of the point of contact, which for a unit direction lies on the
sphere. -/
theorem sphere_intersect_tangent_hits {K : Type} [LinearOrderedField K] (sqrt : K → K)
    (sphere : Sphere K) (ray : Ray K) (hit : Hit K)
    (hd : sphere.discriminant ray = 0)
    (hs : sqrt 0 = 0)
    (hh : 0.0001 < -sphere.h ray) :
    sphere.intersect sqrt ray hit =
        (true,
          { point := ray.origin + (-sphere.h ray) • ray.direction
            normal := normalize sqrt
              (ray.origin + (-sphere.h ray) • ray.direction - sphere.center)
            selected_t := ((-sphere.h ray : K) : WithTop K)
            mat_index := 0
            front_face := true }) ∧
      -sphere.h ray - sqrt (sphere.discriminant ray)
        = -sphere.h ray + sqrt (sphere.discriminant ray) ∧
      (dot ray.direction ray.direction = 1 →
        dot (ray.origin + (-sphere.h ray) • ray.direction - sphere.center)
            (ray.origin + (-sphere.h ray) • ray.direction - sphere.center)
          = sphere.radius * sphere.radius) := by
  have hs' : sqrt (sphere.discriminant ray) = 0 := by rw [hd, hs]
  have he : (0 : K) < 0.0001 := epsilon_pos
  have hroot : -sphere.h ray + sqrt (sphere.discriminant ray) = -sphere.h ray := by
    rw [hs', add_zero]
  refine ⟨?_, by rw [hs', add_zero, sub_zero], ?_⟩
  · have h := intersect_at_larger_root sqrt sphere ray hit (le_of_eq hd.symm)
      (by rw [hroot]; linarith) (by rw [hs', add_zero, sub_zero]) (by rw [hroot]; exact hh)
    rw [h, hroot]
    rfl
  · intro hdd
    have h := (root_on_sphere sphere ray 0 (by rw [hd, mul_zero]) hdd).1
    rw [sub_zero] at h
    exact h

theorem tangent_sphere_axis :
    tangent_sphere.h axis_ray = -3 ∧ tangent_sphere.discriminant axis_ray = 0 := by
  constructor <;>
    norm_num [Sphere.discriminant, Sphere.h, tangent_sphere, axis_ray, dot]

/-- C21 for the sphere of radius 1 around `(1, 0, -3)` and the ray from the
origin down the `z` axis, which touches it in `(0, 0, -3)`: the discriminant
is 0 and `Sphere::intersect` reports a hit at distance 3. -/
theorem sphere_intersect_tangent_hits_witness :
    (tangent_sphere.discriminant axis_ray = 0 ∧ Rat.sqrt 0 = 0 ∧
      0.0001 < -tangent_sphere.h axis_ray) ∧
    dot axis_ray.direction axis_ray.direction = 1 ∧
    (tangent_sphere.intersect Rat.sqrt axis_ray Hit.init).1 = true ∧
    (tangent_sphere.intersect Rat.sqrt axis_ray Hit.init).2.selected_t
      = ((3 : ℚ) : WithTop ℚ) ∧
    (tangent_sphere.intersect Rat.sqrt axis_ray Hit.init).2.point
      = { x := 0, y := 0, z := -3 } := by
  have e1 : tangent_sphere.discriminant axis_ray = 0 := tangent_sphere_axis.2
  have e2 : Rat.sqrt 0 = 0 := by
    simp
  have e3 : (0.0001 : ℚ) < -tangent_sphere.h axis_ray := by
    rw [tangent_sphere_axis.1]; norm_num
  have h := (sphere_intersect_tangent_hits Rat.sqrt tangent_sphere axis_ray Hit.init e1 e2 e3).1
  refine ⟨⟨e1, e2, e3⟩, by norm_num [axis_ray, dot], by rw [h], ?_, ?_⟩
  · rw [h, tangent_sphere_axis.1]; norm_num
  · rw [h, tangent_sphere_axis.1]
    norm_num [axis_ray, vec3.ext_iff3, vec3.splat]

end tangent

section path

variable {K : Type} [LinearOrderedField K]

theorem splat_zero_mul (v : vec3 K) : vec3.splat (0 : K) * v = vec3.splat 0 := by
  rw [vec3.ext_iff3]
  simp

theorem mul_splat_zero (v : vec3 K) : v * vec3.splat (0 : K) = vec3.splat 0 := by
  rw [vec3.ext_iff3]
  simp

theorem world_scatter_ok {K R : Type} (world : World K R) (direction : vec3 K) (record : Hit K)
    (rand : R) (hlt : record.mat_index < world.materials.length) :
    world.scatter direction record rand =
      .ok ((world.materials.get ⟨record.mat_index, hlt⟩).scatter direction record rand) := by
  unfold World.scatter
  rw [List.getElem?_eq_getElem hlt]
  rfl

theorem world_hit_material {R : Type} (sqrt : K → K) (world : World K R)
    (hwf : ∀ entry ∈ world.spheres, entry.2 < world.materials.length) (ray : Ray K)
    (hit hit1 : Hit K) (h : world.intersect sqrt ray hit = (true, hit1)) :
    hit1.mat_index < world.materials.length := by
  obtain ⟨entry, hmem, hidx⟩ := world_intersect_mat_index sqrt world ray hit (by rw [h])
  rw [h] at hidx
  simp only [] at hidx
  rw [hidx]
  exact hwf entry hmem

/-- The loop of `ray_color` after `k` trips that multiplied `current`: it goes
on from the ray, the hit and the engine those trips left, with the product. -/
theorem ray_color_loop_after_bounces {R : Type} (sqrt : K → K) (world : World K R) :
    ∀ (k more : Nat) (ray : Ray K) (hit : Hit K) (current : vec3 K) (rand : R)
      (attenuations : List (vec3 K)) (ray1 : Ray K) (hit1 : Hit K) (rand1 : R),
      bounces sqrt world k ray hit rand = some (attenuations, ray1, hit1, rand1) →
      ray_color_loop sqrt world (k + more) ray hit current rand =
        ray_color_loop sqrt world more ray1 hit1
          (attenuations.foldl (fun c a => c * a) current) rand1 := by
  intro k
  induction k with
  | zero =>
    intro more ray hit current rand attenuations ray1 hit1 rand1 hb
    rw [bounces] at hb
    simp only [Option.some.injEq, Prod.mk.injEq] at hb
    obtain ⟨rfl, rfl, rfl, rfl⟩ := hb
    rw [show 0 + more = more by omega]
    rfl
  | succ k ih =>
    intro more ray hit current rand attenuations ray1 hit1 rand1 hb
    rw [bounces] at hb
    rw [show k + 1 + more = (k + more) + 1 by omega, ray_color_loop]
    unfold bounce at hb
    cases hi : world.intersect sqrt ray hit with
    | mk b h1 =>
      rw [hi] at hb
      cases b with
      | false => simp at hb
      | true =>
        simp only [] at hb ⊢
        cases hsc : world.scatter ray.direction h1 rand with
        | error e => rw [hsc] at hb; simp at hb
        | ok res =>
          obtain ⟨⟨attenuation, direction⟩, rand2⟩ := res
          rw [hsc] at hb
          simp only [] at hb ⊢
          by_cases hz : attenuation = vec3.splat 0.0
          · rw [if_pos hz] at hb; simp at hb
          · rw [if_neg hz] at hb ⊢
            simp only [] at hb
            cases hrest : bounces sqrt world k { origin := h1.point, direction := direction }
                h1 rand2 with
            | none => rw [hrest] at hb; simp at hb
            | some rest =>
              obtain ⟨atts, r2, h2, e2⟩ := rest
              rw [hrest] at hb
              simp only [Option.some.injEq, Prod.mk.injEq] at hb
              obtain ⟨rfl, rfl, rfl, rfl⟩ := hb
              rw [ih more _ _ (current * attenuation) _ _ _ _ _ hrest]
              rfl

theorem ray_color_loop_miss {R : Type} (sqrt : K → K) (world : World K R) (more : Nat)
    (ray : Ray K) (hit : Hit K) (current : vec3 K) (rand : R)
    (hmiss : (world.intersect sqrt ray hit).1 = false) :
    ray_color_loop sqrt world (more + 1) ray hit current rand =
      .ok (current * as_background ray, rand) := by
  rw [ray_color_loop]
  cases hi : world.intersect sqrt ray hit with
  | mk b h1 =>
    rw [hi] at hmiss
    simp only [] at hmiss
    subst hmiss
    rfl

theorem ray_color_loop_absorbed {R : Type} (sqrt : K → K) (world : World K R) (more : Nat)
    (ray : Ray K) (hit : Hit K) (current : vec3 K) (rand : R) (hit1 : Hit K)
    (direction : vec3 K) (rand1 : R)
    (hhit : world.intersect sqrt ray hit = (true, hit1))
    (hsc : world.scatter ray.direction hit1 rand = .ok ((vec3.splat 0, direction), rand1)) :
    ray_color_loop sqrt world (more + 1) ray hit current rand = .ok (vec3.splat 0, rand1) := by
  rw [ray_color_loop, hhit]
  simp only []
  rw [hsc]
  simp only []
  rw [if_pos (by rw [zero_literal]), zero_literal]

/-- C22: if the first `k` trips around the loop of `ray_color` all hit the
scene and scatter with an attenuation that is not the zero colour (that is
what `bounces` returning a result says), `k < max_depth`, and the ray after
them hits nothing, then `ray_color` returns the product of the `k`
attenuations, in order, from `(1, 1, 1)` on, times `as_background` of that
ray, and leaves the random engine as the last scatter left it.  For `k = 0`
that is `as_background` of the ray `ray_color` was called with. -/
theorem ray_color_escape_product {K R : Type} [LinearOrderedField K] (sqrt : K → K)
    (world : World K R) (ray : Ray K) (max_depth : Nat) (rand : R) (k : Nat)
    (attenuations : List (vec3 K)) (ray1 : Ray K) (hit1 : Hit K) (rand1 : R)
    (hk : k < max_depth)
    (hpath : bounces sqrt world k ray Hit.init rand = some (attenuations, ray1, hit1, rand1))
    (hmiss : (world.intersect sqrt ray1 hit1).1 = false) :
    ray_color sqrt ray world max_depth rand =
        .ok (attenuations.foldl (fun c a => c * a) (vec3.splat 1) * as_background ray1, rand1) ∧
      attenuations.length = k ∧
      (∀ a ∈ attenuations, a ≠ vec3.splat 0) ∧
      (k = 0 → ray_color sqrt ray world max_depth rand = .ok (as_background ray, rand)) := by
  obtain ⟨more, rfl⟩ : ∃ more, max_depth = k + more + 1 := ⟨max_depth - k - 1, by omega⟩
  have hmain : ray_color sqrt ray world (k + more + 1) rand =
      .ok (attenuations.foldl (fun c a => c * a) (vec3.splat 1) * as_background ray1, rand1) := by
    unfold ray_color
    rw [show k + more + 1 = k + (more + 1) by omega,
      ray_color_loop_after_bounces sqrt world k (more + 1) ray Hit.init (vec3.splat 1.0) rand
        attenuations ray1 hit1 rand1 hpath,
      ray_color_loop_miss sqrt world more ray1 hit1 _ rand1 hmiss, one_literal]
  have hlen : ∀ (k : Nat) (ray : Ray K) (hit : Hit K) (rand : R) (attenuations : List (vec3 K))
      (ray1 : Ray K) (hit1 : Hit K) (rand1 : R),
      bounces sqrt world k ray hit rand = some (attenuations, ray1, hit1, rand1) →
      attenuations.length = k ∧ ∀ a ∈ attenuations, a ≠ vec3.splat 0 := by
    intro k
    induction k with
    | zero =>
      intro ray hit rand attenuations ray1 hit1 rand1 hb
      rw [bounces] at hb
      simp only [Option.some.injEq, Prod.mk.injEq] at hb
      obtain ⟨rfl, -, -, -⟩ := hb
      simp
    | succ k ih =>
      intro ray hit rand attenuations ray1 hit1 rand1 hb
      rw [bounces] at hb
      cases hb1 : bounce sqrt world ray hit rand with
      | none => rw [hb1] at hb; simp at hb
      | some first =>
        obtain ⟨a, r2, h2, e2⟩ := first
        rw [hb1] at hb
        simp only [] at hb
        cases hrest : bounces sqrt world k r2 h2 e2 with
        | none => rw [hrest] at hb; simp at hb
        | some rest =>
          obtain ⟨atts, r3, h3, e3⟩ := rest
          rw [hrest] at hb
          simp only [Option.some.injEq, Prod.mk.injEq] at hb
          obtain ⟨rfl, -, -, -⟩ := hb
          have hrec := ih r2 h2 e2 atts r3 h3 e3 hrest
          have ha : a ≠ vec3.splat 0 := by
            unfold bounce at hb1
            cases hi : world.intersect sqrt ray hit with
            | mk b h1 =>
              rw [hi] at hb1
              cases b with
              | false => simp at hb1
              | true =>
                simp only [] at hb1
                cases hsc : world.scatter ray.direction h1 rand with
                | error e => rw [hsc] at hb1; simp at hb1
                | ok res =>
                  obtain ⟨⟨attenuation, direction⟩, rand2⟩ := res
                  rw [hsc] at hb1
                  simp only [] at hb1
                  by_cases hz : attenuation = vec3.splat 0.0
                  · rw [if_pos hz] at hb1; simp at hb1
                  · rw [if_neg hz] at hb1
                    simp only [Option.some.injEq, Prod.mk.injEq] at hb1
                    obtain ⟨rfl, -, -, -⟩ := hb1
                    rw [zero_literal] at hz
                    exact hz
          refine ⟨by simp [hrec.1], ?_⟩
          intro x hx
          rcases List.mem_cons.mp hx with rfl | hx
          · exact ha
          · exact hrec.2 x hx
  refine ⟨hmain, (hlen k ray Hit.init rand attenuations ray1 hit1 rand1 hpath).1,
    (hlen k ray Hit.init rand attenuations ray1 hit1 rand1 hpath).2, ?_⟩
  intro hk0
  subst hk0
  rw [bounces] at hpath
  simp only [Option.some.injEq, Prod.mk.injEq] at hpath
  obtain ⟨rfl, rfl, rfl, rfl⟩ := hpath
  rw [hmain]
  simp only [List.foldl_nil]
  rw [← one_literal, splat_one_mul]

theorem without_exit_black {R : Type} (sqrt : K → K) (world : World K R)
    (hwf : ∀ entry ∈ world.spheres, entry.2 < world.materials.length) :
    ∀ (max_depth : Nat) (ray : Ray K) (hit : Hit K) (rand : R),
      ∃ rand1 : R,
        ray_color_loop_without_exit sqrt world max_depth ray hit (vec3.splat 0) rand =
          .ok (vec3.splat 0, rand1) := by
  intro max_depth
  induction max_depth with
  | zero =>
    intro ray hit rand
    exact ⟨rand, by rw [ray_color_loop_without_exit, zero_literal]⟩
  | succ n ih =>
    intro ray hit rand
    rw [ray_color_loop_without_exit]
    cases hi : world.intersect sqrt ray hit with
    | mk b hit1 =>
      cases b with
      | false => exact ⟨rand, by simp only []; rw [splat_zero_mul]⟩
      | true =>
        simp only []
        rw [world_scatter_ok world ray.direction hit1 rand
          (world_hit_material sqrt world hwf ray hit hit1 hi)]
        simp only []
        rw [splat_zero_mul]
        exact ih _ _ _

theorem without_exit_agrees {R : Type} (sqrt : K → K) (world : World K R)
    (hwf : ∀ entry ∈ world.spheres, entry.2 < world.materials.length) :
    ∀ (max_depth : Nat) (ray : Ray K) (hit : Hit K) (current : vec3 K) (rand : R),
      returned_color (ray_color_loop sqrt world max_depth ray hit current rand) =
        returned_color
          (ray_color_loop_without_exit sqrt world max_depth ray hit current rand) := by
  intro max_depth
  induction max_depth with
  | zero =>
    intro ray hit current rand
    rw [ray_color_loop, ray_color_loop_without_exit]
  | succ n ih =>
    intro ray hit current rand
    rw [ray_color_loop, ray_color_loop_without_exit]
    cases hi : world.intersect sqrt ray hit with
    | mk b hit1 =>
      cases b with
      | false => rfl
      | true =>
        simp only []
        rw [world_scatter_ok world ray.direction hit1 rand
          (world_hit_material sqrt world hwf ray hit hit1 hi)]
        simp only []
        by_cases hz : ((world.materials.get ⟨hit1.mat_index,
            world_hit_material sqrt world hwf ray hit hit1 hi⟩).scatter ray.direction hit1
            rand).1.1 = vec3.splat 0.0
        · rw [if_pos hz, hz, zero_literal, mul_splat_zero]
          obtain ⟨rand1, h1⟩ := without_exit_black sqrt world hwf n
            { origin := hit1.point,
              direction := ((world.materials.get ⟨hit1.mat_index,
                world_hit_material sqrt world hwf ray hit hit1 hi⟩).scatter ray.direction hit1
                rand).1.2 } hit1
            ((world.materials.get ⟨hit1.mat_index,
              world_hit_material sqrt world hwf ray hit hit1 hi⟩).scatter ray.direction hit1
              rand).2
          rw [h1]
          rfl
        · rw [if_neg hz]
          exact ih _ _ _ _

/-- C23: if after `j < max_depth` trips around the loop that multiplied
`current` the ray hits the scene and the scatter returns the zero colour as
attenuation, `ray_color` returns the zero colour at once: the random engine is
left as that scatter left it.  In a world whose spheres all carry the index of
a material the world has, the loop without the early return would return the
zero colour as well, and the two loops return the same colour on every
input. -/
theorem zero_attenuation_short_circuit {K R : Type} [LinearOrderedField K] (sqrt : K → K)
    (world : World K R) (ray : Ray K) (max_depth : Nat) (rand : R) (j : Nat)
    (attenuations : List (vec3 K)) (ray1 : Ray K) (hit1 : Hit K) (rand1 : R)
    (hit2 : Hit K) (direction : vec3 K) (rand2 : R)
    (hj : j < max_depth)
    (hpath : bounces sqrt world j ray Hit.init rand = some (attenuations, ray1, hit1, rand1))
    (hhit : world.intersect sqrt ray1 hit1 = (true, hit2))
    (hsc : world.scatter ray1.direction hit2 rand1 = .ok ((vec3.splat 0, direction), rand2)) :
    ray_color sqrt ray world max_depth rand = .ok (vec3.splat 0, rand2) ∧
      ((∀ entry ∈ world.spheres, entry.2 < world.materials.length) →
        returned_color (ray_color_without_exit sqrt ray world max_depth rand)
            = .ok (vec3.splat 0) ∧
          ∀ (other : Ray K) (depth : Nat) (engine : R),
            returned_color (ray_color sqrt other world depth engine) =
              returned_color (ray_color_without_exit sqrt other world depth engine)) := by
  obtain ⟨more, rfl⟩ : ∃ more, max_depth = j + (more + 1) := ⟨max_depth - j - 1, by omega⟩
  have hmain : ray_color sqrt ray world (j + (more + 1)) rand = .ok (vec3.splat 0, rand2) := by
    unfold ray_color
    rw [ray_color_loop_after_bounces sqrt world j (more + 1) ray Hit.init (vec3.splat 1.0) rand
        attenuations ray1 hit1 rand1 hpath,
      ray_color_loop_absorbed sqrt world more ray1 hit1 _ rand1 hit2 direction rand2 hhit hsc]
  refine ⟨hmain, fun hwf => ⟨?_, ?_⟩⟩
  · have h := without_exit_agrees sqrt world hwf (j + (more + 1)) ray Hit.init
      (vec3.splat 1.0) rand
    unfold ray_color at hmain
    unfold ray_color_without_exit
    rw [← h, hmain]
    rfl
  · intro other depth engine
    exact without_exit_agrees sqrt world hwf depth other Hit.init (vec3.splat 1.0) engine

theorem bounced_ray_values :
    far_sphere.h bounced_ray = 2 ∧ far_sphere.discriminant bounced_ray = 1 ∧
      near_sphere.h bounced_ray = 1 ∧ near_sphere.discriminant bounced_ray = 1 := by
  refine ⟨?_, ?_, ?_, ?_⟩ <;>
    norm_num [Sphere.discriminant, Sphere.h, far_sphere, near_sphere, bounced_ray, dot]

theorem bounced_ray_misses (hit : Hit ℚ) :
    (two_sphere_world.intersect sqrt_of_one bounced_ray hit).1 = false := by
  have hfar : far_sphere.intersect sqrt_of_one bounced_ray Hit.init = (false, Hit.init) := by
    apply intersect_of_rejected
    · rw [bounced_ray_values.2.1]; norm_num
    · rw [bounced_ray_values.1]
      rw [if_pos (Or.inl (by norm_num [sqrt_of_one])), if_pos (by norm_num [sqrt_of_one])]
  have hnear : near_sphere.intersect sqrt_of_one bounced_ray Hit.init = (false, Hit.init) := by
    apply intersect_of_small
    · rw [bounced_ray_values.2.2.2]; norm_num
    · rw [bounced_ray_values.2.2.1]; norm_num [sqrt_of_one]
    · rw [bounced_ray_values.2.2.1]; norm_num [sqrt_of_one]
    · rw [bounced_ray_values.2.2.1]; norm_num [sqrt_of_one]
  cases h : (two_sphere_world.intersect sqrt_of_one bounced_ray hit).1 with
  | false => rfl
  | true =>
    exfalso
    unfold World.intersect at h
    rcases (intersect_loop_fst sqrt_of_one bounced_ray two_sphere_world.spheres _ _ _).mp h with
      hf | ⟨entry, hmem, hhit⟩
    · cases hf
    · simp only [two_sphere_world, List.mem_cons, List.mem_singleton, List.not_mem_nil,
        or_false] at hmem
      rcases hmem with rfl | rfl
      · rw [hfar] at hhit; cases hhit
      · rw [hnear] at hhit; cases hhit

theorem two_sphere_world_bounce :
    bounces sqrt_of_one two_sphere_world 1 axis_ray Hit.init 0 =
      some ([{ x := 1 / 2, y := 1 / 2, z := 1 / 2 }], bounced_ray, near_hit, 1) := by
  rw [bounces, bounce, two_sphere_world_hit]
  simp [World.scatter, two_sphere_world, grey, bounces, bounced_ray, near_hit, vec3.ext_iff3,
    vec3.splat]
  rw [if_neg (by norm_num)]

/-- C22 on the world of two grey spheres with the budget of 50 the renderer
uses: the ray hits the nearer sphere, is scattered back with every channel
halved, hits nothing, and the result is half the background `(3/4, 17/20, 1)`
of the scattered ray. -/
theorem ray_color_escape_product_witness :
    (1 < 50 ∧
      bounces sqrt_of_one two_sphere_world 1 axis_ray Hit.init 0 =
        some ([{ x := 1 / 2, y := 1 / 2, z := 1 / 2 }], bounced_ray, near_hit, 1) ∧
      (two_sphere_world.intersect sqrt_of_one bounced_ray near_hit).1 = false) ∧
    as_background bounced_ray = { x := 3 / 4, y := 17 / 20, z := 1 } ∧
    ray_color sqrt_of_one axis_ray two_sphere_world 50 0 =
      .ok ({ x := 3 / 8, y := 17 / 40, z := 1 / 2 }, 1) := by
  have hbg : as_background bounced_ray = { x := 3 / 4, y := 17 / 20, z := 1 } := by
    norm_num [as_background, bounced_ray, vec3.ext_iff3]
  have h := (ray_color_escape_product sqrt_of_one two_sphere_world axis_ray 50 0 1
    [{ x := 1 / 2, y := 1 / 2, z := 1 / 2 }] bounced_ray near_hit 1 (by decide)
    two_sphere_world_bounce (bounced_ray_misses near_hit)).1
  refine ⟨⟨by decide, two_sphere_world_bounce, bounced_ray_misses near_hit⟩, hbg, ?_⟩
  rw [h, hbg]
  norm_num [vec3.ext_iff3, vec3.splat]

theorem absorbing_world_hit (hit : Hit ℚ) :
    absorbing_world.intersect sqrt_of_one axis_ray hit = (true, facing_hit) := by
  unfold World.intersect
  rw [show absorbing_world.spheres = [(far_sphere, 0)] from rfl,
    intersect_loop_cons_hit sqrt_of_one axis_ray far_sphere 0 [] _ _ _
      (by rw [far_sphere_hit])]
  simp only [World.intersect_loop]
  rw [far_sphere_hit, if_pos (by exact WithTop.coe_lt_top _)]
  rfl

/-- C23 on the world of one absorbing sphere with the budget of 50: the first
scatter returns the zero colour, `ray_color` returns it with the engine used
once, and the loop without the early return comes to the same colour. -/
theorem zero_attenuation_short_circuit_witness :
    (0 < 50 ∧
      bounces sqrt_of_one absorbing_world 0 axis_ray Hit.init 0
        = some ([], axis_ray, Hit.init, 0) ∧
      absorbing_world.intersect sqrt_of_one axis_ray Hit.init = (true, facing_hit) ∧
      absorbing_world.scatter axis_ray.direction facing_hit 0
        = .ok ((vec3.splat 0, { x := 0, y := 0, z := 1 }), 1)) ∧
    ray_color sqrt_of_one axis_ray absorbing_world 50 0 = .ok (vec3.splat 0, 1) ∧
    returned_color (ray_color_without_exit sqrt_of_one axis_ray absorbing_world 50 0)
      = .ok (vec3.splat 0) := by
  have hsc : absorbing_world.scatter axis_ray.direction facing_hit 0
      = .ok ((vec3.splat 0, { x := 0, y := 0, z := 1 }), 1) := by
    simp [World.scatter, absorbing_world, absorber, facing_hit]
  have hwf : ∀ entry ∈ absorbing_world.spheres,
      entry.2 < absorbing_world.materials.length := by
    intro entry hmem
    simp only [absorbing_world, List.mem_singleton] at hmem
    subst hmem
    decide
  have h := zero_attenuation_short_circuit sqrt_of_one absorbing_world axis_ray 50 0 0 []
    axis_ray Hit.init 0 facing_hit { x := 0, y := 0, z := 1 } 1 (by decide) rfl
    (absorbing_world_hit Hit.init) hsc
  exact ⟨⟨by decide, rfl, absorbing_world_hit Hit.init, hsc⟩, h.1, (h.2 hwf).1⟩

end path

namespace threading

theorem run_calls_append {T : Type} (a b : List (Call T)) :
    ∀ q : mpsc_queue T, run_calls q (a ++ b) =
      match run_calls q a with
      | .error e => .error e
      | .ok q1 => run_calls q1 b := by
  induction a with
  | nil => intro q; rfl
  | cons c a ih =>
    intro q
    simp only [List.cons_append, run_calls]
    cases q.call c with
    | error e => rfl
    | ok q1 => exact ih q1

theorem run_calls_blocking {T : Type} (vs : List T) :
    ∀ q : mpsc_queue T, run_calls q (vs.map Call.blocking_emplace) = blocking_emplace_all q vs := by
  induction vs with
  | nil => intro q; rfl
  | cons v vs ih =>
    intro q
    simp only [List.map_cons, run_calls, blocking_emplace_all, mpsc_queue.call]
    cases q.blocking_emplace v with
    | error e => rfl
    | ok q1 => exact ih q1

theorem call_read_handle {T : Type} (q q1 : mpsc_queue T) (c : Call T)
    (hr : q.read_handle < q.cap) (h : q.call c = .ok q1) :
    q1.cap = q.cap ∧ q1.read_handle < q1.cap := by
  cases c with
  | try_emplace v =>
    simp only [mpsc_queue.call, mpsc_queue.try_emplace] at h
    split_ifs at h <;> simp at h <;> subst h <;> exact ⟨rfl, hr⟩
  | blocking_emplace v =>
    simp only [mpsc_queue.call, mpsc_queue.blocking_emplace] at h
    split_ifs at h
    simp at h
    subst h
    exact ⟨rfl, hr⟩
  | try_pop =>
    simp only [mpsc_queue.call, mpsc_queue.try_pop] at h
    split_ifs at h <;> simp at h <;> subst h
    · exact ⟨rfl, hr⟩
    · exact ⟨rfl, Nat.mod_lt _ (by show 0 < q.cap; omega)⟩

theorem run_calls_read_handle {T : Type} (calls : List (Call T)) :
    ∀ q q1 : mpsc_queue T, q.read_handle < q.cap → run_calls q calls = .ok q1 →
      q1.read_handle < q1.cap := by
  induction calls with
  | nil =>
    intro q q1 hr h
    simp only [run_calls, Except.ok.injEq] at h
    subst h
    exact hr
  | cons c calls ih =>
    intro q q1 hr h
    simp only [run_calls] at h
    cases hc : q.call c with
    | error e => rw [hc] at h; cases h
    | ok q2 =>
      rw [hc] at h
      exact ih q2 q1 (call_read_handle q q2 c hr hc).2 h

/-- C28: on a fresh channel of capacity `cap`, `cap` calls of
`blocking_emplace` store in the slots `0 .. cap - 1` and leave the write cursor
at `cap` and the counter at 0; a `try_pop` then hands out slot 0 and wraps the
counter below zero; the next `blocking_emplace`, called with `cap - 1` values
undelivered and the counter different from `cap`, stores at index `cap`,
outside the buffer.  The read cursor, on the other hand, is below `cap` after
every history that runs without a fault. -/
theorem blocking_emplace_leaves_buffer {T : Type} (cap : Nat) (h1 : 1 ≤ cap)
    (hc : cap + 1 < SIZE_MOD) (vs : List T) (hlen : vs.length = cap) (v : T) :
    (∃ q : mpsc_queue T,
      run_calls (mpsc_queue.construct cap) (vs.map Call.blocking_emplace) = .ok q ∧
      q.cap = cap ∧ q.write_handle = cap ∧ q.read_handle = 0 ∧ q.elem_count = 0 ∧
      q.try_pop.1 = some 0 ∧
      q.try_pop.2.cap ≠ q.try_pop.2.elem_count ∧
      q.try_pop.2.write_handle = cap ∧
      ¬ q.try_pop.2.write_handle < q.try_pop.2.cap ∧
      q.try_pop.2.blocking_emplace v = .error Fault.out_of_bounds) ∧
    run_calls (mpsc_queue.construct cap) (overrun_calls vs v) = .error Fault.out_of_bounds ∧
    (∀ (calls : List (Call T)) (q : mpsc_queue T),
      run_calls (mpsc_queue.construct cap) calls = .ok q → q.read_handle < q.cap) := by
  have hmod : SIZE_MOD = 18446744073709551616 := by decide
  obtain ⟨q, e1, e2, e3, e4⟩ := blocking_emplace_all_room vs (mpsc_queue.construct cap)
    (by show cap ≠ 0; omega) (by show 0 + vs.length ≤ cap; omega)
    (by show cap < SIZE_MOD; omega)
  have ecap : q.cap = cap := e2
  have eread : q.read_handle = 0 := e3
  have ewrite : q.write_handle = cap := by rw [e4]; show 0 + vs.length = cap; omega
  have ecount : ∀ (l : List T) (a b : mpsc_queue T), blocking_emplace_all a l = .ok b →
      b.elem_count = a.elem_count := by
    intro l
    induction l with
    | nil =>
      intro a b h
      simp only [blocking_emplace_all, Except.ok.injEq] at h
      subst h
      rfl
    | cons x l ih =>
      intro a b h
      simp only [blocking_emplace_all] at h
      cases hx : a.blocking_emplace x with
      | error e => rw [hx] at h; cases h
      | ok a1 =>
        rw [hx] at h
        rw [ih a1 b h]
        simp only [mpsc_queue.blocking_emplace] at hx
        split_ifs at hx
        simp at hx
        subst hx
        rfl
  have ezero : q.elem_count = 0 := ecount vs _ q e1
  have hpop : q.try_pop = (some 0, { q with
      read_handle := (q.read_handle + 1) % SIZE_MOD % q.cap
      elem_count := (q.elem_count + (SIZE_MOD - 1)) % SIZE_MOD }) := by
    unfold mpsc_queue.try_pop
    simp only []
    rw [if_neg (by omega), eread]
  have hne : q.try_pop.2.cap ≠ q.try_pop.2.elem_count := by
    rw [hpop]
    show q.cap ≠ (q.elem_count + (SIZE_MOD - 1)) % SIZE_MOD
    rw [ezero, ecap, hmod]
    omega
  have hw : q.try_pop.2.write_handle = cap := by rw [hpop]; exact ewrite
  have hcap : q.try_pop.2.cap = cap := by rw [hpop]; exact ecap
  have hfault : q.try_pop.2.blocking_emplace v = .error Fault.out_of_bounds := by
    unfold mpsc_queue.blocking_emplace
    rw [if_neg hne]
    simp only []
    rw [if_neg (by rw [hw, hcap]; omega)]
  have hrun : run_calls (mpsc_queue.construct cap) (vs.map Call.blocking_emplace) = .ok q := by
    rw [run_calls_blocking, e1]
  refine ⟨⟨q, hrun, ecap, ewrite, eread, ezero, by rw [hpop], hne, hw,
    by rw [hw, hcap]; omega, hfault⟩, ?_, ?_⟩
  · unfold overrun_calls
    rw [run_calls_append, hrun]
    simp only [run_calls, mpsc_queue.call, hfault]
  · intro calls q2 h
    exact run_calls_read_handle calls (mpsc_queue.construct cap) q2
      (by show 0 < cap; omega) h

/-- C28 for the channel of the renderer, of capacity 12: twelve results
through `blocking_emplace`, one `try_pop`, and the thirteenth
`blocking_emplace` stores at index 12 of a buffer of 12 slots. -/
theorem blocking_emplace_leaves_buffer_witness :
    (1 ≤ 12 ∧ 12 + 1 < SIZE_MOD ∧ (List.range 12).length = 12) ∧
    run_calls (mpsc_queue.construct 12) (overrun_calls (List.range 12) 12)
      = .error Fault.out_of_bounds :=
  ⟨⟨by decide, by decide, by decide⟩,
    (blocking_emplace_leaves_buffer 12 (by decide) (by decide) (List.range 12) (by decide)
      12).2.1⟩

end threading

section coordinates

variable {K : Type} [LinearOrderedField K]

theorem pixel_j_eq (request : RenderRequest) (index : Nat) (hh : request.height < SIZE_MOD)
    (hi : index < request.width * request.height) :
    index / request.width < request.height ∧
      pixel_j request index = request.height - index / request.width := by
  have hrow : index / request.width < request.height :=
    Nat.div_lt_of_lt_mul hi
  refine ⟨hrow, ?_⟩
  unfold pixel_j
  have hmod : SIZE_MOD = 18446744073709551616 := by decide
  rw [hmod] at hh ⊢
  generalize index / request.width = row at hrow ⊢
  omega

theorem size_pred (n : Nat) (h1 : 1 ≤ n) (h2 : n < SIZE_MOD) :
    (n + SIZE_MOD - 1) % SIZE_MOD = n - 1 := by
  have hmod : SIZE_MOD = 18446744073709551616 := by decide
  rw [hmod] at h2 ⊢
  omega

theorem sample_v_eq (request : RenderRequest) (index : Nat) (jitter : K)
    (h1 : 1 ≤ request.height) (hh : request.height < SIZE_MOD)
    (hi : index < request.width * request.height) :
    sample_v request index jitter =
      (((request.height - index / request.width : Nat) : K) + jitter)
        / ((request.height - 1 : Nat) : K) := by
  unfold sample_v
  rw [(pixel_j_eq request index hh hi).2, size_pred request.height h1 hh]

theorem sample_u_eq (request : RenderRequest) (index : Nat) (jitter : K)
    (hw : 1 ≤ request.width) (hh : request.width < SIZE_MOD) :
    sample_u request index jitter =
      (((index % request.width : Nat) : K) + jitter) / ((request.width - 1 : Nat) : K) := by
  unfold sample_u pixel_i
  rw [size_pred request.width hw hh]

/-- C26: for an image of width and height at least 2, a pixel index below
`width * height` and jitters in `[0, 1]`, the coordinates the worker computes
are `u = (index mod width + jitter) / (width - 1)` and
`v = (height - index div width + jitter) / (height - 1)`.  They are not
negative, but `v > 1` for every pixel of buffer row 0, whatever the jitter
(`height - 0` is one row too many), `v = 1` is reached in row 1 already, and
`u > 1` in the last column for every jitter above 0. -/
theorem sample_coordinates_leave_unit_range {K : Type} [LinearOrderedField K]
    (request : RenderRequest) (index : Nat) (jitter_u jitter_v : K)
    (hw : 2 ≤ request.width) (hh : 2 ≤ request.height)
    (hwm : request.width < SIZE_MOD) (hhm : request.height < SIZE_MOD)
    (hi : index < request.width * request.height)
    (hu0 : 0 ≤ jitter_u) (hu1 : jitter_u ≤ 1) (hv0 : 0 ≤ jitter_v) (hv1 : jitter_v ≤ 1) :
    sample_u request index jitter_u =
        (((index % request.width : Nat) : K) + jitter_u) / ((request.width - 1 : Nat) : K) ∧
      sample_v request index jitter_v =
        (((request.height - index / request.width : Nat) : K) + jitter_v)
          / ((request.height - 1 : Nat) : K) ∧
      0 ≤ sample_u request index jitter_u ∧
      0 < sample_v request index jitter_v ∧
      (index < request.width → 1 < sample_v request index jitter_v) ∧
      (index / request.width = 1 → 1 ≤ sample_v request index jitter_v) ∧
      (index % request.width = request.width - 1 → 0 < jitter_u →
        1 < sample_u request index jitter_u) ∧
      sample_u request index jitter_u ≤ (request.width : K) / ((request.width - 1 : Nat) : K) ∧
      sample_v request index jitter_v
        ≤ ((request.height : K) + 1) / ((request.height - 1 : Nat) : K) := by
  have eu := sample_u_eq request index jitter_u (by omega) hwm
  have ev := sample_v_eq request index jitter_v (by omega) hhm hi
  have hrow := (pixel_j_eq request index hhm hi).1
  have hwpos : (0 : K) < ((request.width - 1 : Nat) : K) := by
    exact_mod_cast (show 0 < request.width - 1 by omega)
  have hhpos : (0 : K) < ((request.height - 1 : Nat) : K) := by
    exact_mod_cast (show 0 < request.height - 1 by omega)
  have hcol : (0 : K) ≤ ((index % request.width : Nat) : K) := Nat.cast_nonneg _
  have hj : (1 : K) ≤ ((request.height - index / request.width : Nat) : K) := by
    exact_mod_cast (show 1 ≤ request.height - index / request.width by omega)
  have hh1 : ((request.height - 1 : Nat) : K) = (request.height : K) - 1 := by
    rw [Nat.cast_sub (by omega), Nat.cast_one]
  have hw1 : ((request.width - 1 : Nat) : K) = (request.width : K) - 1 := by
    rw [Nat.cast_sub (by omega), Nat.cast_one]
  have hcol1 : ((index % request.width : Nat) : K) ≤ (request.width : K) - 1 := by
    rw [← hw1]
    exact_mod_cast (show index % request.width ≤ request.width - 1 from
      Nat.le_sub_one_of_lt (Nat.mod_lt _ (by omega)))
  have hj1 : ((request.height - index / request.width : Nat) : K) ≤ (request.height : K) := by
    exact_mod_cast Nat.sub_le _ _
  refine ⟨eu, ev, ?_, ?_, ?_, ?_, ?_, ?_, ?_⟩
  · rw [eu]
    exact div_nonneg (by linarith) (le_of_lt hwpos)
  · rw [ev]
    exact div_pos (by linarith) hhpos
  · intro h0
    rw [ev, Nat.div_eq_of_lt h0, Nat.sub_zero, lt_div_iff₀ hhpos, one_mul, hh1]
    linarith
  · intro h1
    rw [ev, h1, le_div_iff₀ hhpos, one_mul]
    linarith
  · intro hlast hpos
    rw [eu, hlast, lt_div_iff₀ hwpos, one_mul]
    linarith
  · rw [eu]
    exact div_le_div_of_nonneg_right (by linarith) (le_of_lt hwpos)
  · rw [ev]
    exact div_le_div_of_nonneg_right (by linarith) (le_of_lt hhpos)

/-- C26 for the image of 2 x 2 pixels and the pixel with index 0, without any
jitter: `v = (2 - 0 + 0) / (2 - 1) = 2`. -/
theorem sample_coordinates_leave_unit_range_witness :
    (2 ≤ (request_for 2 2 0).width ∧ 2 ≤ (request_for 2 2 0).height ∧
      (request_for 2 2 0).width < SIZE_MOD ∧ (request_for 2 2 0).height < SIZE_MOD ∧
      0 < (request_for 2 2 0).width * (request_for 2 2 0).height ∧
      (0 : ℚ) ≤ 0 ∧ (0 : ℚ) ≤ 1) ∧
    sample_v (request_for 2 2 0) 0 (0 : ℚ) = 2 ∧
    ¬ sample_v (request_for 2 2 0) 0 (0 : ℚ) ≤ 1 := by
  have h := sample_coordinates_leave_unit_range (request_for 2 2 0) 0 (0 : ℚ) (0 : ℚ)
    (by decide) (by decide) (by decide) (by decide) (by decide) (le_refl _) (by norm_num)
    (le_refl _) (by norm_num)
  have hv : sample_v (request_for 2 2 0) 0 (0 : ℚ) = 2 := by
    rw [h.2.1]
    norm_num [request_for]
  refine ⟨⟨by decide, by decide, by decide, by decide, by decide, le_refl _, by norm_num⟩,
    hv, ?_⟩
  rw [hv]
  norm_num

/-- The claim of C27 fails on the image of 2 x 2 pixels: without jitter the
pixels of buffer row 0 are traced with `v = 2` and those of row 1 with
`v = 1`, so row 0 does not have the smallest `v` and `v` does not increase
with the row. -/
theorem row_zero_is_not_lowest :
    sample_v (request_for 2 2 0) 0 (0 : ℚ) = 2 ∧
    sample_v (request_for 2 2 0) 2 (0 : ℚ) = 1 ∧
    ¬ sample_v (request_for 2 2 0) 0 (0 : ℚ) < sample_v (request_for 2 2 0) 2 (0 : ℚ) ∧
    ¬ ∀ index : Nat, index < 2 * 2 →
      sample_v (request_for 2 2 0) 0 (0 : ℚ) ≤ sample_v (request_for 2 2 0) index (0 : ℚ) := by
  have h0 : sample_v (request_for 2 2 0) 0 (0 : ℚ) = 2 := by
    rw [sample_v_eq _ _ _ (by decide) (by decide) (by decide)]
    norm_num [request_for]
  have h2 : sample_v (request_for 2 2 0) 2 (0 : ℚ) = 1 := by
    rw [sample_v_eq _ _ _ (by decide) (by decide) (by decide)]
    norm_num [request_for]
  refine ⟨h0, h2, ?_, ?_⟩
  · rw [h0, h2]; norm_num
  · intro hall
    have := hall 2 (by decide)
    rw [h0, h2] at this
    norm_num at this

theorem direction_y_increases (sqrt : K → K) (a y1 y2 : K) (ha : 0 < a) (hy : y1 < y2)
    (h1 : 0 ≤ sqrt (a + y1 * y1)) (e1 : sqrt (a + y1 * y1) * sqrt (a + y1 * y1) = a + y1 * y1)
    (h2 : 0 ≤ sqrt (a + y2 * y2)) (e2 : sqrt (a + y2 * y2) * sqrt (a + y2 * y2) = a + y2 * y2) :
    1 / sqrt (a + y1 * y1) * y1 < 1 / sqrt (a + y2 * y2) * y2 := by
  generalize sqrt (a + y1 * y1) = s1 at h1 e1 ⊢
  generalize sqrt (a + y2 * y2) = s2 at h2 e2 ⊢
  have p1 : 0 < s1 := by
    rcases eq_or_lt_of_le h1 with h | h
    · rw [← h, mul_zero] at e1; linarith [mul_self_nonneg y1]
    · exact h
  have p2 : 0 < s2 := by
    rcases eq_or_lt_of_le h2 with h | h
    · rw [← h, mul_zero] at e2; linarith [mul_self_nonneg y2]
    · exact h
  rw [one_div, one_div, inv_mul_eq_div, inv_mul_eq_div, div_lt_div_iff₀ p1 p2]
  have hexp : (s1 * s2) * (s1 * s2) = (a + y1 * y1) * (a + y2 * y2) := by
    rw [← e1, ← e2]; ring
  have hprod : y1 * y2 < s1 * s2 := by
    by_contra hcon
    have hcon := not_lt.mp hcon
    have hsq : (s1 * s2) * (s1 * s2) ≤ (y1 * y2) * (y1 * y2) :=
      mul_self_le_mul_self (le_of_lt (mul_pos p1 p2)) hcon
    linarith [mul_pos ha ha, mul_nonneg (le_of_lt ha) (mul_self_nonneg y1),
      mul_nonneg (le_of_lt ha) (mul_self_nonneg y2)]
  have key : (y2 * s1 - y1 * s2) * (s1 + s2) = (y2 - y1) * (s1 * s2 + a - y1 * y2) := by
    linear_combination y2 * e1 - y1 * e2
  have hpos : 0 < (y2 * s1 - y1 * s2) * (s1 + s2) := by
    rw [key]
    exact mul_pos (sub_pos.mpr hy) (by linarith)
  have := (pos_iff_pos_of_mul_pos hpos).mpr (add_pos p1 p2)
  linarith

theorem ray_at_direction_y (sqrt : K → K) (u v viewport_width viewport_height : K) :
    (ray_at sqrt u v viewport_width viewport_height).direction.y =
        1 / sqrt (uv_length2 u v viewport_width viewport_height)
          * ((v - 0.5) * viewport_height) ∧
      uv_length2 u v viewport_width viewport_height =
        ((u - 0.5) * viewport_width * ((u - 0.5) * viewport_width) + 1)
          + (v - 0.5) * viewport_height * ((v - 0.5) * viewport_height) := by
  constructor
  · simp only [ray_at, normalize, uv_length2, uv_place, vec3.smul_y, vec3.sub_y, zero_literal,
      sub_zero]
  · simp only [uv_length2, uv_place, dot, vec3.sub_x, vec3.sub_y, vec3.sub_z, zero_literal,
      one_literal, sub_zero]
    ring

/-- C27 as the code has it: for an image of height at least 2 and a fixed
jitter, a pixel of a later buffer row is traced with a strictly smaller `v`
than a pixel of an earlier row, and the pixels of buffer row 0 with the
largest `v` of all.  For a positive viewport height a larger `v` is a higher
point of the image plane, and (where the square roots in `ray_at` are exact) a
camera ray with a larger `y` component: buffer row 0 is the top of the
image. -/
theorem buffer_rows_run_top_down {K : Type} [LinearOrderedField K] (sqrt : K → K)
    (request : RenderRequest) (a b : Nat) (jitter u viewport_width viewport_height : K)
    (hh : 2 ≤ request.height) (hhm : request.height < SIZE_MOD)
    (ha : a < request.width * request.height) (hb : b < request.width * request.height)
    (hrow : a / request.width < b / request.width) :
    sample_v request b jitter < sample_v request a jitter ∧
      (a < request.width → ∀ index : Nat, index < request.width * request.height →
        sample_v request index jitter ≤ sample_v request a jitter) ∧
      (0 < viewport_height →
        (uv_place u (sample_v request b jitter) viewport_width viewport_height).y
          < (uv_place u (sample_v request a jitter) viewport_width viewport_height).y) ∧
      (0 < viewport_height →
        0 ≤ sqrt (uv_length2 u (sample_v request a jitter) viewport_width viewport_height) →
        sqrt (uv_length2 u (sample_v request a jitter) viewport_width viewport_height)
            * sqrt (uv_length2 u (sample_v request a jitter) viewport_width viewport_height)
          = uv_length2 u (sample_v request a jitter) viewport_width viewport_height →
        0 ≤ sqrt (uv_length2 u (sample_v request b jitter) viewport_width viewport_height) →
        sqrt (uv_length2 u (sample_v request b jitter) viewport_width viewport_height)
            * sqrt (uv_length2 u (sample_v request b jitter) viewport_width viewport_height)
          = uv_length2 u (sample_v request b jitter) viewport_width viewport_height →
        (ray_at sqrt u (sample_v request b jitter) viewport_width viewport_height).direction.y
          < (ray_at sqrt u (sample_v request a jitter) viewport_width
              viewport_height).direction.y) := by
  have hhpos : (0 : K) < ((request.height - 1 : Nat) : K) := by
    exact_mod_cast (show 0 < request.height - 1 by omega)
  have hmono : ∀ c d : Nat, c < request.width * request.height →
      d < request.width * request.height → c / request.width ≤ d / request.width →
      sample_v request d jitter ≤ sample_v request c jitter := by
    intro c d hc hd hcd
    rw [sample_v_eq request c jitter (by omega) hhm hc,
      sample_v_eq request d jitter (by omega) hhm hd]
    apply div_le_div_of_nonneg_right _ (le_of_lt hhpos)
    have : ((request.height - d / request.width : Nat) : K)
        ≤ ((request.height - c / request.width : Nat) : K) := by
      exact_mod_cast Nat.sub_le_sub_left hcd _
    linarith
  have hv : sample_v request b jitter < sample_v request a jitter := by
    have hrb := (pixel_j_eq request b hhm hb).1
    rw [sample_v_eq request a jitter (by omega) hhm ha,
      sample_v_eq request b jitter (by omega) hhm hb]
    apply div_lt_div_of_pos_right _ hhpos
    have : ((request.height - b / request.width : Nat) : K)
        < ((request.height - a / request.width : Nat) : K) := by
      exact_mod_cast (show request.height - b / request.width
        < request.height - a / request.width by omega)
    linarith
  have hy : 0 < viewport_height →
      (sample_v request b jitter - 0.5) * viewport_height
        < (sample_v request a jitter - 0.5) * viewport_height := by
    intro hpos
    exact mul_lt_mul_of_pos_right (by linarith) hpos
  refine ⟨hv, ?_, fun hpos => hy hpos, ?_⟩
  · intro ha0 index hi
    apply hmono a index ha hi
    rw [Nat.div_eq_of_lt ha0]
    exact Nat.zero_le _
  · intro hpos a0 a1 b0 b1
    rw [(ray_at_direction_y sqrt u _ viewport_width viewport_height).1,
      (ray_at_direction_y sqrt u _ viewport_width viewport_height).1]
    rw [(ray_at_direction_y sqrt u _ viewport_width viewport_height).2] at a0 a1 b0 b1 ⊢
    rw [(ray_at_direction_y sqrt u (sample_v request a jitter) viewport_width
      viewport_height).2]
    exact direction_y_increases sqrt _ _ _
      (add_pos_of_nonneg_of_pos (mul_self_nonneg _) one_pos) (hy hpos) b0 b1 a0 a1

theorem rat_sqrt_square (q : ℚ) (hq : 0 ≤ q) : Rat.sqrt (q * q) = q := by
  rw [Rat.sqrt_eq, abs_of_nonneg hq]

/-- C27 for an image of 2 x 3 pixels, no jitter, the middle of a row and a
viewport of 2 x 3/2: the pixel with index 2 (buffer row 1) is traced with
`v = 1` and a camera ray whose `y` component is 3/5, the pixel with index 4
(buffer row 2, the last) with `v = 1/2` and a horizontal ray. -/
theorem buffer_rows_run_top_down_witness :
    (2 ≤ (request_for 2 3 0).height ∧ (request_for 2 3 0).height < SIZE_MOD ∧
      2 < (request_for 2 3 0).width * (request_for 2 3 0).height ∧
      4 < (request_for 2 3 0).width * (request_for 2 3 0).height ∧
      2 / (request_for 2 3 0).width < 4 / (request_for 2 3 0).width) ∧
    sample_v (request_for 2 3 0) 2 (0 : ℚ) = 1 ∧
    sample_v (request_for 2 3 0) 4 (0 : ℚ) = 1 / 2 ∧
    sample_v (request_for 2 3 0) 4 (0 : ℚ) < sample_v (request_for 2 3 0) 2 (0 : ℚ) ∧
    (ray_at Rat.sqrt (1 / 2) (sample_v (request_for 2 3 0) 4 (0 : ℚ)) 2 (3 / 2)).direction.y
      < (ray_at Rat.sqrt (1 / 2) (sample_v (request_for 2 3 0) 2 (0 : ℚ)) 2
          (3 / 2)).direction.y := by
  have h := buffer_rows_run_top_down Rat.sqrt (request_for 2 3 0) 2 4 (0 : ℚ) (1 / 2) 2 (3 / 2)
    (by decide) (by decide) (by decide) (by decide) (by decide)
  have h2 : sample_v (request_for 2 3 0) 2 (0 : ℚ) = 1 := by
    rw [sample_v_eq _ _ _ (by decide) (by decide) (by decide)]
    norm_num [request_for]
  have h4 : sample_v (request_for 2 3 0) 4 (0 : ℚ) = 1 / 2 := by
    rw [sample_v_eq _ _ _ (by decide) (by decide) (by decide)]
    norm_num [request_for]
  have l2 : uv_length2 (1 / 2) (sample_v (request_for 2 3 0) 2 (0 : ℚ)) 2 (3 / 2)
      = 5 / 4 * (5 / 4) := by
    rw [h2, (ray_at_direction_y Rat.sqrt _ _ _ _).2]; norm_num
  have l4 : uv_length2 (1 / 2) (sample_v (request_for 2 3 0) 4 (0 : ℚ)) 2 (3 / 2)
      = 1 * 1 := by
    rw [h4, (ray_at_direction_y Rat.sqrt _ _ _ _).2]; norm_num
  refine ⟨⟨by decide, by decide, by decide, by decide, by decide⟩, h2, h4, h.1, ?_⟩
  apply h.2.2.2 (by norm_num)
  · rw [l2, rat_sqrt_square _ (by norm_num)]; norm_num
  · rw [l2, rat_sqrt_square _ (by norm_num)]
  · rw [l4, rat_sqrt_square _ (by norm_num)]; norm_num
  · rw [l4, rat_sqrt_square _ (by norm_num)]

end coordinates

section materials

variable {K : Type} [LinearOrderedField K]

theorem reflect_dot (d n : vec3 K) (hn : dot n n = 1) :
    dot (reflect d n) (reflect d n) = dot d d ∧ dot (reflect d n) n = -dot d n := by
  simp only [reflect, dot, vec3.sub_x, vec3.sub_y, vec3.sub_z, vec3.smul_x, vec3.smul_y,
    vec3.smul_z] at hn ⊢
  constructor
  · linear_combination
      (4 * (n.x * d.x + n.y * d.y + n.z * d.z) * (n.x * d.x + n.y * d.y + n.z * d.z)) * hn
  · linear_combination (-2 * (n.x * d.x + n.y * d.y + n.z * d.z)) * hn

theorem dot_smul_smul (c : K) (v w : vec3 K) : dot (c • v) (c • w) = c * c * dot v w := by
  simp only [dot, vec3.smul_x, vec3.smul_y, vec3.smul_z]
  ring

theorem dot_smul_left (c : K) (v w : vec3 K) : dot (c • v) w = c * dot v w := by
  simp only [dot, vec3.smul_x, vec3.smul_y, vec3.smul_z]
  ring

theorem dot_neg_neg (v w : vec3 K) : dot (-v) (-w) = dot v w := by
  simp only [dot, vec3.neg_x, vec3.neg_y, vec3.neg_z]
  ring

theorem dot_neg_right (v w : vec3 K) : dot v (-w) = -dot v w := by
  simp only [dot, vec3.neg_x, vec3.neg_y, vec3.neg_z]
  ring

theorem normalize_unit (sqrt : K → K) (v : vec3 K)
    (hs : sqrt (dot v v) * sqrt (dot v v) = dot v v) (hv : dot v v ≠ 0) :
    dot (normalize sqrt v) (normalize sqrt v) = 1 := by
  unfold normalize
  rw [dot_smul_smul]
  generalize dot v v = d at hs hv ⊢
  generalize sqrt d = s at hs ⊢
  have hne : s ≠ 0 := by
    intro h0
    rw [h0, mul_zero] at hs
    exact hv hs.symm
  rw [← hs]
  field_simp

theorem random_in_unit_sphere_inside {R : Type} (next_u64 : R → Nat × R) :
    ∀ (fuel : Nat) (engine : R) (p : vec3 K) (engine1 : R),
      random_in_unit_sphere next_u64 fuel engine = .ok (p, engine1) → dot p p < 1 := by
  intro fuel
  induction fuel with
  | zero =>
    intro engine p engine1 h
    simp [random_in_unit_sphere] at h
  | succ n ih =>
    intro engine p engine1 h
    rw [random_in_unit_sphere] at h
    by_cases hge : dot (utils.random.next_vec next_u64 engine : vec3 K × R).1
        (utils.random.next_vec next_u64 engine : vec3 K × R).1 ≥ 1.0
    · rw [if_pos hge] at h
      exact ih _ _ _ h
    · rw [if_neg hge] at h
      simp only [Except.ok.injEq] at h
      rw [h] at hge
      rw [one_literal] at hge
      exact not_le.mp hge

theorem random_in_hemisphere_above {R : Type} (next_u64 : R → Nat × R) (fuel : Nat)
    (normal : vec3 K) (engine : R) (p : vec3 K) (engine1 : R)
    (h : random_in_hemisphere next_u64 fuel normal engine = .ok (p, engine1)) :
    dot p p < 1 ∧ 0 ≤ dot normal p := by
  unfold random_in_hemisphere at h
  cases hq : (random_in_unit_sphere next_u64 fuel engine : Except Fault (vec3 K × R)) with
  | error e => rw [hq] at h; cases h
  | ok res =>
    obtain ⟨q, e2⟩ := res
    rw [hq] at h
    simp only [Except.ok.injEq, Prod.mk.injEq] at h
    obtain ⟨hp, -⟩ := h
    have hin := random_in_unit_sphere_inside next_u64 fuel engine q e2 hq
    by_cases hneg : dot normal q < 0.0
    · rw [if_pos hneg] at hp
      subst hp
      rw [zero_literal] at hneg
      rw [dot_neg_neg, dot_neg_right]
      exact ⟨hin, by linarith⟩
    · rw [if_neg hneg] at hp
      subst hp
      rw [zero_literal] at hneg
      exact ⟨hin, not_lt.mp hneg⟩

theorem diffuse_length (n p : vec3 K) (hn : dot n n = 1) (hp : 0 ≤ dot n p) :
    1 ≤ dot (n + p) (n + p) ∧ dot (n + p) n = 1 + dot n p := by
  simp only [dot, vec3.add_x, vec3.add_y, vec3.add_z] at hn hp ⊢
  constructor
  · linarith [mul_self_nonneg p.x, mul_self_nonneg p.y, mul_self_nonneg p.z]
  · linear_combination hn

/-- C30: for a unit normal and a draw of `random_in_hemisphere` that returns
(`p`, say), `p` has squared length below 1 and `dot (n, p) ≥ 0`; every such
vector gives `n + p` a squared length of at least 1, so that the square root
`lambertian::scatter` divides by (exact on that squared length) is positive;
the method returns the albedo as attenuation, whatever the incoming direction,
and a direction of unit length with a strictly positive dot product with the
normal. -/
theorem lambertian_scatter_above_surface {K R : Type} [LinearOrderedField K] (sqrt : K → K)
    (next_u64 : R → Nat × R) (fuel : Nat) (self : lambertian K)
    (record : Hit K) (rand : R) (p : vec3 K) (rand1 : R)
    (hn : dot record.normal record.normal = 1)
    (hdraw : random_in_hemisphere next_u64 fuel record.normal rand = .ok (p, rand1))
    (hs0 : 0 ≤ sqrt (dot (record.normal + p) (record.normal + p)))
    (hs : sqrt (dot (record.normal + p) (record.normal + p))
        * sqrt (dot (record.normal + p) (record.normal + p))
      = dot (record.normal + p) (record.normal + p)) :
    dot p p < 1 ∧ 0 ≤ dot record.normal p ∧
      (∀ q : vec3 K, dot q q < 1 → 0 ≤ dot record.normal q →
        1 ≤ dot (record.normal + q) (record.normal + q)) ∧
      0 < sqrt (dot (record.normal + p) (record.normal + p)) ∧
      (∀ other : vec3 K,
        self.scatter sqrt next_u64 fuel other record rand =
          .ok ((self.albedo, normalize sqrt (record.normal + p)), rand1)) ∧
      dot (normalize sqrt (record.normal + p)) (normalize sqrt (record.normal + p)) = 1 ∧
      0 < dot (normalize sqrt (record.normal + p)) record.normal := by
  have hp := random_in_hemisphere_above next_u64 fuel record.normal rand p rand1 hdraw
  have hlen := diffuse_length record.normal p hn hp.2
  have hspos : 0 < sqrt (dot (record.normal + p) (record.normal + p)) := by
    rcases eq_or_lt_of_le hs0 with h0 | h0
    · rw [← h0, mul_zero] at hs
      linarith [hlen.1]
    · exact h0
  refine ⟨hp.1, hp.2, fun q _ hq => (diffuse_length record.normal q hn hq).1, hspos, ?_, ?_, ?_⟩
  · intro other
    unfold lambertian.scatter
    rw [hdraw]
  · exact normalize_unit sqrt _ hs (by linarith [hlen.1])
  · unfold normalize
    rw [dot_smul_left, hlen.2]
    exact mul_pos (one_div_pos.mpr hspos) (by linarith [hp.2])

/-- C25: where the draw of `random_in_hemisphere` returns (`p`, say),
`metal::scatter` returns the direction
`reflect (incoming, normal) + fuzz * normalize (p)` and, as attenuation, the
albedo if the dot product of that direction with the normal is strictly
positive and the zero colour otherwise; the offset `normalize (p)` has unit
length where the square root is exact and `p` is not zero.  With `fuzz = 0`
and a unit normal the direction is the reflection and the attenuation is the
albedo exactly when `dot (incoming, normal) < 0`.  The constructor caps the
fuzz at 1. -/
theorem metal_absorption_rule {K R : Type} [LinearOrderedField K] (sqrt : K → K)
    (next_u64 : R → Nat × R) (fuel : Nat) (self : metal K) (ray_direction : vec3 K)
    (record : Hit K) (rand : R) (p : vec3 K) (rand1 : R)
    (hdraw : random_in_hemisphere next_u64 fuel record.normal rand = .ok (p, rand1)) :
    self.scatter sqrt next_u64 fuel ray_direction record rand =
        .ok ((if 0 < dot (reflect ray_direction record.normal + self.fuzz • normalize sqrt p)
                record.normal
              then self.albedo else vec3.splat 0,
            reflect ray_direction record.normal + self.fuzz • normalize sqrt p), rand1) ∧
      (sqrt (dot p p) * sqrt (dot p p) = dot p p → dot p p ≠ 0 →
        dot (normalize sqrt p) (normalize sqrt p) = 1) ∧
      (self.fuzz = 0 → dot record.normal record.normal = 1 →
        self.scatter sqrt next_u64 fuel ray_direction record rand =
          .ok ((if dot ray_direction record.normal < 0 then self.albedo else vec3.splat 0,
              reflect ray_direction record.normal), rand1)) ∧
      (∀ (albedo : vec3 K) (fuzz : K),
        (metal.construct albedo fuzz).fuzz ≤ 1 ∧
          (fuzz ≤ 1 → (metal.construct albedo fuzz).fuzz = fuzz)) := by
  have hmain : self.scatter sqrt next_u64 fuel ray_direction record rand =
      .ok ((if 0 < dot (reflect ray_direction record.normal + self.fuzz • normalize sqrt p)
              record.normal
            then self.albedo else vec3.splat 0,
          reflect ray_direction record.normal + self.fuzz • normalize sqrt p), rand1) := by
    unfold metal.scatter
    rw [hdraw]
    simp only [gt_iff_lt, zero_literal]
  refine ⟨hmain, fun hs hv => normalize_unit sqrt p hs hv, ?_, ?_⟩
  · intro hf hn
    have hout : reflect ray_direction record.normal + self.fuzz • normalize sqrt p
        = reflect ray_direction record.normal := by
      rw [hf, vec3.ext_iff3]
      simp
    rw [hmain, hout, (reflect_dot ray_direction record.normal hn).2]
    simp only [Left.neg_pos_iff]
  · intro albedo fuzz
    unfold metal.construct
    constructor
    · show (if fuzz < 1 then fuzz else 1) ≤ 1
      split_ifs with h
      · exact le_of_lt h
      · exact le_refl _
    · intro hle
      show (if fuzz < 1 then fuzz else 1) = fuzz
      split_ifs with h
      · rfl
      · exact le_antisymm (not_lt.mp h) hle

theorem hemisphere_example :
    random_in_hemisphere list_engine 1 ({ x := 0, y := 0, z := 1 } : vec3 ℚ)
        [0, 0, third_of_max] = .ok ({ x := 0, y := 0, z := 1 / 3 }, []) := by
  have hdraw : (utils.random.next_vec list_engine [0, 0, third_of_max] : vec3 ℚ × List Nat)
      = ({ x := 0, y := 0, z := 1 / 3 }, []) := by
    simp only [utils.random.next_vec, utils.random.next_double, list_engine, List.headD_cons,
      List.tail_cons, U64_MAX, third_of_max]
    norm_num [vec3.ext_iff3]
  unfold random_in_hemisphere
  rw [random_in_unit_sphere, hdraw]
  rw [if_neg (by norm_num [dot])]
  simp only []
  rw [if_neg (by norm_num [dot])]

/-- C30 for the material of the renderer's sphere, the normal `(0, 0, 1)` and
the draw `(0, 0, 1/3)`: `n + p = (0, 0, 4/3)`, the square root is 4/3, and the
scattered direction is the normal itself. -/
theorem lambertian_scatter_above_surface_witness :
    (dot facing_hit.normal facing_hit.normal = 1 ∧
      random_in_hemisphere list_engine 1 facing_hit.normal [0, 0, third_of_max]
        = .ok (({ x := 0, y := 0, z := 1 / 3 } : vec3 ℚ), []) ∧
      Rat.sqrt (dot (facing_hit.normal + { x := 0, y := 0, z := 1 / 3 })
        (facing_hit.normal + { x := 0, y := 0, z := 1 / 3 })) = 4 / 3) ∧
    sphere_mat.scatter Rat.sqrt list_engine 1 axis_ray.direction facing_hit [0, 0, third_of_max]
      = .ok ((sphere_mat.albedo, { x := 0, y := 0, z := 1 }), []) := by
  have hn : dot facing_hit.normal facing_hit.normal = 1 := by norm_num [facing_hit, dot]
  have hd : dot (facing_hit.normal + ({ x := 0, y := 0, z := 1 / 3 } : vec3 ℚ))
      (facing_hit.normal + { x := 0, y := 0, z := 1 / 3 }) = 4 / 3 * (4 / 3) := by
    norm_num [facing_hit, dot]
  have hsq : Rat.sqrt (dot (facing_hit.normal + ({ x := 0, y := 0, z := 1 / 3 } : vec3 ℚ))
      (facing_hit.normal + { x := 0, y := 0, z := 1 / 3 })) = 4 / 3 := by
    rw [hd, rat_sqrt_square _ (by norm_num)]
  have h := (lambertian_scatter_above_surface Rat.sqrt list_engine 1 sphere_mat facing_hit
    [0, 0, third_of_max] { x := 0, y := 0, z := 1 / 3 } [] hn hemisphere_example
    (by rw [hsq]; norm_num) (by rw [hsq, hd])).2.2.2.2.1 axis_ray.direction
  refine ⟨⟨hn, hemisphere_example, hsq⟩, ?_⟩
  rw [h]
  unfold normalize
  rw [hsq]
  norm_num [facing_hit, vec3.ext_iff3]

theorem offset_example :
    normalize Rat.sqrt ({ x := 0, y := 0, z := 1 / 3 } : vec3 ℚ) = { x := 0, y := 0, z := 1 } := by
  have hd : dot ({ x := 0, y := 0, z := 1 / 3 } : vec3 ℚ) { x := 0, y := 0, z := 1 / 3 }
      = 1 / 3 * (1 / 3) := by
    norm_num [dot]
  unfold normalize
  rw [hd, rat_sqrt_square _ (by norm_num)]
  norm_num [vec3.ext_iff3]

theorem reflect_example :
    reflect axis_ray.direction facing_hit.normal = ({ x := 0, y := 0, z := 1 } : vec3 ℚ) := by
  norm_num [reflect, axis_ray, facing_hit, dot, vec3.ext_iff3]

/-- C25 for a metal of fuzz 1/2, the ray down the `z` axis, the normal
`(0, 0, 1)` and the draw `(0, 0, 1/3)`: the reflection is `(0, 0, 1)`, the
unit offset `(0, 0, 1)`, the direction `(0, 0, 3/2)`, above the surface, and
the attenuation the albedo. -/
theorem metal_absorption_rule_witness :
    random_in_hemisphere list_engine 1 facing_hit.normal [0, 0, third_of_max]
        = .ok (({ x := 0, y := 0, z := 1 / 3 } : vec3 ℚ), []) ∧
    (metal.construct sphere_mat.albedo (1 / 2)).scatter Rat.sqrt list_engine 1
        axis_ray.direction facing_hit [0, 0, third_of_max]
      = .ok ((sphere_mat.albedo, { x := 0, y := 0, z := 3 / 2 }), []) := by
  have h := (metal_absorption_rule Rat.sqrt list_engine 1
    (metal.construct sphere_mat.albedo (1 / 2)) axis_ray.direction facing_hit
    [0, 0, third_of_max] { x := 0, y := 0, z := 1 / 3 } [] hemisphere_example).1
  refine ⟨hemisphere_example, ?_⟩
  rw [h, offset_example, reflect_example]
  norm_num [metal.construct, facing_hit, dot, vec3.ext_iff3]

theorem metal_example :
    (metal.construct sphere_mat.albedo 1).scatter Rat.sqrt list_engine 1
        axis_ray.direction facing_hit [0, 0, third_of_max]
      = .ok ((sphere_mat.albedo, { x := 0, y := 0, z := 2 }), []) := by
  unfold metal.scatter
  rw [show random_in_hemisphere list_engine 1 facing_hit.normal [0, 0, third_of_max]
    = .ok (({ x := 0, y := 0, z := 1 / 3 } : vec3 ℚ), []) from hemisphere_example]
  simp only []
  rw [offset_example, reflect_example]
  norm_num [metal.construct, facing_hit, dot, vec3.ext_iff3]

theorem dielectric_example :
    ({ refraction_index := 3 / 2 } : dielectric ℚ).scatter Rat.sqrt list_engine
        slanted_direction top_hit [U64_MAX]
      = ((vec3.splat 1, { x := 9 / 10, y := -4 / 5, z := 0 }), []) := by
  have hcos : min (dot (-slanted_direction) top_hit.normal) (1.0 : ℚ) = 4 / 5 := by
    norm_num [slanted_direction, top_hit, dot]
  have hsin : Rat.sqrt |(1.0 : ℚ) - 4 / 5 * (4 / 5)| = 3 / 5 := by
    rw [show |(1.0 : ℚ) - 4 / 5 * (4 / 5)| = 3 / 5 * (3 / 5) by
      rw [abs_of_pos (by norm_num)]; norm_num]
    exact rat_sqrt_square _ (by norm_num)
  have hdraw : (utils.random.next_double list_engine [U64_MAX] : ℚ × List Nat) = (1, []) := by
    simp only [utils.random.next_double, list_engine, List.headD_cons, List.tail_cons, U64_MAX]
    norm_num
  have hff : top_hit.front_face = true := rfl
  unfold dielectric.scatter
  simp only [hcos, hsin, hdraw, dielectric.refraction_ratio, hff, if_true]
  rw [if_neg (by norm_num), if_neg (by norm_num [dielectric.reflectance])]
  norm_num [refract, slanted_direction, top_hit, dot, vec3.ext_iff3, vec3.splat]

/-- C24: the directions `metal::scatter` and `dielectric::scatter` return are
not normalised.  A metal of fuzz 1, hit along the normal, returns the sum of
the reflection `(0, 0, 1)` and the unit offset `(0, 0, 1)`: a direction of
squared length 4.  A dielectric of index 3/2, hit at `(3/5, -4/5, 0)` on a
surface with normal `(0, 1, 0)`, refracts into `(9/10, -4/5, 0)`: squared
length 29/20.  The incoming directions and normals are of unit length.  What
the loop of `ray_color` hands to the next `World::intersect` is the direction
the scatter returned, unchanged.  (A reflection alone does keep the
length.) -/
theorem scattered_directions_not_unit :
    dot axis_ray.direction axis_ray.direction = 1 ∧
    dot facing_hit.normal facing_hit.normal = 1 ∧
    (metal.construct sphere_mat.albedo 1).scatter Rat.sqrt list_engine 1
        axis_ray.direction facing_hit [0, 0, third_of_max]
      = .ok ((sphere_mat.albedo, { x := 0, y := 0, z := 2 }), []) ∧
    dot ({ x := 0, y := 0, z := 2 } : vec3 ℚ) { x := 0, y := 0, z := 2 } = 4 ∧
    dot slanted_direction slanted_direction = 1 ∧
    dot top_hit.normal top_hit.normal = 1 ∧
    ({ refraction_index := 3 / 2 } : dielectric ℚ).scatter Rat.sqrt list_engine
        slanted_direction top_hit [U64_MAX]
      = ((vec3.splat 1, { x := 9 / 10, y := -4 / 5, z := 0 }), []) ∧
    dot ({ x := 9 / 10, y := -4 / 5, z := 0 } : vec3 ℚ) { x := 9 / 10, y := -4 / 5, z := 0 }
      = 29 / 20 ∧
    (∀ (sqrt : ℚ → ℚ) (world : World ℚ (List Nat)) (ray : Ray ℚ) (hit : Hit ℚ)
        (rand : List Nat) (attenuation : vec3 ℚ) (ray1 : Ray ℚ) (hit1 : Hit ℚ)
        (rand1 : List Nat),
      bounce sqrt world ray hit rand = some (attenuation, ray1, hit1, rand1) →
        world.scatter ray.direction hit1 rand = .ok ((attenuation, ray1.direction), rand1)) ∧
    (∀ d n : vec3 ℚ, dot d d = 1 → dot n n = 1 → dot (reflect d n) (reflect d n) = 1) := by
  refine ⟨by norm_num [axis_ray, dot], by norm_num [facing_hit, dot], metal_example,
    by norm_num [dot], by norm_num [slanted_direction, dot], by norm_num [top_hit, dot],
    dielectric_example, by norm_num [dot], ?_, ?_⟩
  · intro sqrt world ray hit rand attenuation ray1 hit1 rand1 hb
    unfold bounce at hb
    cases hi : world.intersect sqrt ray hit with
    | mk b h1 =>
      rw [hi] at hb
      cases b with
      | false => simp at hb
      | true =>
        simp only [] at hb
        cases hsc : world.scatter ray.direction h1 rand with
        | error e => rw [hsc] at hb; simp at hb
        | ok res =>
          obtain ⟨⟨a, direction⟩, rand2⟩ := res
          rw [hsc] at hb
          simp only [] at hb
          by_cases hz : a = vec3.splat 0.0
          · rw [if_pos hz] at hb; simp at hb
          · rw [if_neg hz] at hb
            simp only [Option.some.injEq, Prod.mk.injEq] at hb
            obtain ⟨rfl, rfl, rfl, rfl⟩ := hb
            exact hsc
  · intro d n hd hn
    rw [(reflect_dot d n hn).1, hd]

end materials

section orientation

variable {K : Type} [LinearOrderedField K]

theorem sphere_hit_outward (sqrt : K → K) (sphere : Sphere K) (ray : Ray K) (hit : Hit K)
    (h : (sphere.intersect sqrt ray hit).1 = true) :
    (sphere.intersect sqrt ray hit).2.front_face = true ∧
      (sphere.intersect sqrt ray hit).2.normal =
        normalize sqrt ((sphere.intersect sqrt ray hit).2.point - sphere.center) := by
  rcases intersect_cases sqrt sphere ray hit with h0 | ⟨t, _, h1, _⟩
  · rw [h0] at h; cases h
  · rw [h1]
    exact ⟨rfl, rfl⟩

theorem world_hit_outward {R : Type} (sqrt : K → K) (world : World K R) (ray : Ray K)
    (hit : Hit K) (h : (world.intersect sqrt ray hit).1 = true) :
    (world.intersect sqrt ray hit).2.front_face = true ∧
      ∃ entry ∈ world.spheres,
        (world.intersect sqrt ray hit).2.normal =
            normalize sqrt ((world.intersect sqrt ray hit).2.point - entry.1.center) ∧
          (world.intersect sqrt ray hit).2.mat_index = entry.2 := by
  obtain ⟨pre, s, m, post, e1, e2, e3, _, _⟩ := world_intersect_hit sqrt world.spheres ray hit h
  have hs := sphere_hit_outward sqrt s ray Hit.init e2
  unfold World.intersect
  rw [e3]
  exact ⟨hs.1, (s, m), by rw [e1]; simp, hs.2, rfl⟩

theorem unit_sphere_leaving :
    unit_sphere.h leaving_ray = 1 / 2 ∧ unit_sphere.discriminant leaving_ray = 1 := by
  constructor <;>
    norm_num [Sphere.discriminant, Sphere.h, unit_sphere, leaving_ray, dot]

theorem leaving_ray_hit (hit : Hit ℚ) :
    unit_sphere.intersect sqrt_of_one leaving_ray hit =
      (true,
        { point := { x := 0, y := 0, z := -1 }
          normal := { x := 0, y := 0, z := -1 }
          selected_t := ((1 / 2 : ℚ) : WithTop ℚ)
          mat_index := 0
          front_face := true }) := by
  have e1 : -unit_sphere.h leaving_ray + sqrt_of_one (unit_sphere.discriminant leaving_ray)
      = 1 / 2 := by
    rw [unit_sphere_leaving.1]; norm_num [sqrt_of_one]
  have e2 : -unit_sphere.h leaving_ray - sqrt_of_one (unit_sphere.discriminant leaving_ray)
      = -3 / 2 := by
    rw [unit_sphere_leaving.1]; norm_num [sqrt_of_one]
  rw [intersect_at_larger_root sqrt_of_one unit_sphere leaving_ray hit
    (by rw [unit_sphere_leaving.2]; norm_num) (by rw [e1]; norm_num)
    (by rw [e1, e2, abs_of_pos (by norm_num), abs_of_neg (by norm_num)]; norm_num)
    (by rw [e1]; norm_num), e1]
  norm_num [Hit.at_distance, Ray.at, normalize, sqrt_of_one, unit_sphere, leaving_ray,
    vec3.ext_iff3, vec3.splat]

/-- C29: a `Hit` that `Sphere::intersect` or `World::intersect` returns has
`front_face = true` and the normal `point - center` normalised, for the sphere
that was hit (`Hit::make_facing_outwards` is not called on the way); so has
every hit the loop of `ray_color` hands to a scatter, and for such a hit
`dielectric::scatter` takes `1 / refraction_index` as its refraction ratio.
That includes a ray that starts inside the sphere and leaves it: from
`(0, 0, -1/2)` inside the unit sphere down the `z` axis the hit is `(0, 0, -1)`
with normal `(0, 0, -1)`, along the ray, and `front_face = true`. -/
theorem scene_hits_keep_outward_normal {K R : Type} [LinearOrderedField K] (sqrt : K → K)
    (world : World K R) (ray : Ray K) (hit : Hit K) (self : dielectric K) :
    (∀ sphere : Sphere K, (sphere.intersect sqrt ray hit).1 = true →
      (sphere.intersect sqrt ray hit).2.front_face = true ∧
        (sphere.intersect sqrt ray hit).2.normal =
          normalize sqrt ((sphere.intersect sqrt ray hit).2.point - sphere.center) ∧
        self.refraction_ratio (sphere.intersect sqrt ray hit).2 = 1 / self.refraction_index) ∧
    ((world.intersect sqrt ray hit).1 = true →
      (world.intersect sqrt ray hit).2.front_face = true ∧
        (∃ entry ∈ world.spheres,
          (world.intersect sqrt ray hit).2.normal =
              normalize sqrt ((world.intersect sqrt ray hit).2.point - entry.1.center) ∧
            (world.intersect sqrt ray hit).2.mat_index = entry.2) ∧
        self.refraction_ratio (world.intersect sqrt ray hit).2 = 1 / self.refraction_index) ∧
    (∀ (rand : R) (attenuation : vec3 K) (ray1 : Ray K) (hit1 : Hit K) (rand1 : R),
      bounce sqrt world ray hit rand = some (attenuation, ray1, hit1, rand1) →
        world.intersect sqrt ray hit = (true, hit1) ∧
          world.scatter ray.direction hit1 rand = .ok ((attenuation, ray1.direction), rand1) ∧
          hit1.front_face = true ∧
          self.refraction_ratio hit1 = 1 / self.refraction_index) ∧
    dot (leaving_ray.origin - unit_sphere.center) (leaving_ray.origin - unit_sphere.center)
      < unit_sphere.radius * unit_sphere.radius ∧
    unit_sphere.intersect sqrt_of_one leaving_ray Hit.init =
      (true,
        { point := { x := 0, y := 0, z := -1 }
          normal := { x := 0, y := 0, z := -1 }
          selected_t := ((1 / 2 : ℚ) : WithTop ℚ)
          mat_index := 0
          front_face := true }) ∧
    0 < dot leaving_ray.direction ({ x := 0, y := 0, z := -1 } : vec3 ℚ) := by
  have hratio : ∀ record : Hit K, record.front_face = true →
      self.refraction_ratio record = 1 / self.refraction_index := by
    intro record hff
    unfold dielectric.refraction_ratio
    rw [hff, if_pos rfl, one_literal]
  refine ⟨?_, ?_, ?_, by norm_num [leaving_ray, unit_sphere, dot], leaving_ray_hit Hit.init,
    by norm_num [leaving_ray, dot]⟩
  · intro sphere h
    have hs := sphere_hit_outward sqrt sphere ray hit h
    exact ⟨hs.1, hs.2, hratio _ hs.1⟩
  · intro h
    have hw := world_hit_outward sqrt world ray hit h
    exact ⟨hw.1, hw.2, hratio _ hw.1⟩
  · intro rand attenuation ray1 hit1 rand1 hb
    unfold bounce at hb
    cases hi : world.intersect sqrt ray hit with
    | mk b h1 =>
      rw [hi] at hb
      cases b with
      | false => simp at hb
      | true =>
        simp only [] at hb
        cases hsc : world.scatter ray.direction h1 rand with
        | error e => rw [hsc] at hb; simp at hb
        | ok res =>
          obtain ⟨⟨a, direction⟩, rand2⟩ := res
          rw [hsc] at hb
          simp only [] at hb
          by_cases hz : a = vec3.splat 0.0
          · rw [if_pos hz] at hb; simp at hb
          · rw [if_neg hz] at hb
            simp only [Option.some.injEq, Prod.mk.injEq] at hb
            obtain ⟨rfl, rfl, rfl, rfl⟩ := hb
            have hw := world_hit_outward sqrt world ray hit (by rw [hi])
            rw [hi] at hw
            exact ⟨rfl, hsc, hw.1, hratio _ hw.1⟩

end orientation

end renderer
